import Mathlib

/-!
# Verification of the addglyph table-mutation engine

A shallow embedding of the `addglyph` font-extension tool (Python sources
`addglyph/main.py`, `addglyph/gsub.py`, `addglyph/__main__.py`) and proofs
about it.  Python dictionaries are modelled as insertion-ordered association
lists, mutable table objects as explicit state records, exceptions as
`Except`, and the logger as an accumulated list of structured entries.
-/

set_option maxRecDepth 4000

namespace AddGlyph

/-! ## Insertion-ordered dictionaries (Python `dict`) -/

/-- First-match lookup in an association list (Python `d.get(k)` /
`d[k]`, on dictionaries whose keys are unique). -/
def lookupKey {κ α : Type} [DecidableEq κ] : List (κ × α) → κ → Option α
  | [], _ => none
  | (k1, v1) :: rest, k => if k1 = k then some v1 else lookupKey rest k

/-- Python `d[k] = v`: replace the value in place if the key is present,
otherwise append the new binding at the end. -/
def insertKey {κ α : Type} [DecidableEq κ] : List (κ × α) → κ → α → List (κ × α)
  | [], k, v => [(k, v)]
  | (k1, v1) :: rest, k, v =>
      if k1 = k then (k, v) :: rest else (k1, v1) :: insertKey rest k v

/-- Python `d.setdefault(k, v)`: append the binding only when the key is
absent. -/
def setdefaultKey {κ α : Type} [DecidableEq κ] : List (κ × α) → κ → α → List (κ × α)
  | [], k, v => [(k, v)]
  | (k1, v1) :: rest, k, v =>
      if k1 = k then (k1, v1) :: rest else (k1, v1) :: setdefaultKey rest k v

/-- Python `d.update(other)`: insert every binding of `other` in order. -/
def updateKeys {κ α : Type} [DecidableEq κ] (d other : List (κ × α)) : List (κ × α) :=
  other.foldl (fun acc kv => insertKey acc kv.1 kv.2) d

/-- Python `k in d`. -/
def containsKey {κ α : Type} [DecidableEq κ] (d : List (κ × α)) (k : κ) : Bool :=
  (lookupKey d k).isSome

@[simp] theorem lookupKey_nil {κ α : Type} [DecidableEq κ] (k : κ) :
    lookupKey ([] : List (κ × α)) k = none := rfl

@[simp] theorem lookupKey_cons {κ α : Type} [DecidableEq κ]
    (k1 : κ) (v1 : α) (rest : List (κ × α)) (k : κ) :
    lookupKey ((k1, v1) :: rest) k =
      if k1 = k then some v1 else lookupKey rest k := rfl

@[simp] theorem insertKey_nil {κ α : Type} [DecidableEq κ] (k : κ) (v : α) :
    insertKey ([] : List (κ × α)) k v = [(k, v)] := rfl

@[simp] theorem insertKey_cons {κ α : Type} [DecidableEq κ]
    (k1 : κ) (v1 : α) (rest : List (κ × α)) (k : κ) (v : α) :
    insertKey ((k1, v1) :: rest) k v =
      if k1 = k then (k, v) :: rest else (k1, v1) :: insertKey rest k v := rfl

@[simp] theorem setdefaultKey_nil {κ α : Type} [DecidableEq κ] (k : κ) (v : α) :
    setdefaultKey ([] : List (κ × α)) k v = [(k, v)] := rfl

@[simp] theorem setdefaultKey_cons {κ α : Type} [DecidableEq κ]
    (k1 : κ) (v1 : α) (rest : List (κ × α)) (k : κ) (v : α) :
    setdefaultKey ((k1, v1) :: rest) k v =
      if k1 = k then (k1, v1) :: rest else (k1, v1) :: setdefaultKey rest k v := rfl

theorem lookupKey_insertKey_self {κ α : Type} [DecidableEq κ]
    (d : List (κ × α)) (k : κ) (v : α) :
    lookupKey (insertKey d k v) k = some v := by
  induction d with
  | nil => simp [lookupKey, insertKey]
  | cons hd tl ih =>
      obtain ⟨k1, v1⟩ := hd
      by_cases h : k1 = k <;> simp [insertKey, lookupKey, h, ih]

theorem lookupKey_insertKey_other {κ α : Type} [DecidableEq κ]
    (d : List (κ × α)) (k k2 : κ) (v : α) (hne : k ≠ k2) :
    lookupKey (insertKey d k v) k2 = lookupKey d k2 := by
  induction d with
  | nil => simp [lookupKey, insertKey, hne]
  | cons hd tl ih =>
      obtain ⟨k1, v1⟩ := hd
      by_cases h : k1 = k
      · subst h
        simp [insertKey, lookupKey, hne]
      · by_cases h2 : k1 = k2
        · subst h2
          simp [insertKey, lookupKey, h, Ne.symm hne]
        · simp [insertKey, lookupKey, h, h2, ih]

theorem lookupKey_setdefaultKey_present {κ α : Type} [DecidableEq κ]
    (d : List (κ × α)) (k : κ) (v w : α) (h : lookupKey d k = some w) :
    setdefaultKey d k v = d := by
  induction d with
  | nil => simp [lookupKey] at h
  | cons hd tl ih =>
      obtain ⟨k1, v1⟩ := hd
      by_cases hk : k1 = k
      · simp [setdefaultKey, hk]
      · simp only [lookupKey_cons, hk, if_false] at h
        simp [setdefaultKey, hk, ih h]

theorem lookupKey_setdefaultKey_absent {κ α : Type} [DecidableEq κ]
    (d : List (κ × α)) (k : κ) (v : α) (h : lookupKey d k = none) :
    lookupKey (setdefaultKey d k v) k = some v := by
  induction d with
  | nil => simp [lookupKey, setdefaultKey]
  | cons hd tl ih =>
      obtain ⟨k1, v1⟩ := hd
      by_cases hk : k1 = k
      · simp [lookupKey, hk] at h
      · simp only [lookupKey_cons, hk, if_false] at h
        simp [setdefaultKey, lookupKey, hk, ih h]

theorem lookupKey_setdefaultKey_other {κ α : Type} [DecidableEq κ]
    (d : List (κ × α)) (k k2 : κ) (v : α) (hne : k ≠ k2) :
    lookupKey (setdefaultKey d k v) k2 = lookupKey d k2 := by
  induction d with
  | nil => simp [lookupKey, setdefaultKey, hne]
  | cons hd tl ih =>
      obtain ⟨k1, v1⟩ := hd
      by_cases h : k1 = k
      · simp [setdefaultKey, h]
      · by_cases h2 : k1 = k2
        · subst h2
          simp [setdefaultKey, lookupKey, h, Ne.symm hne]
        · simp [setdefaultKey, lookupKey, h, h2, ih]

/-! ## Glyph names and the character map (`main.py`, `FontCMap`) -/

abbrev GlyphName := String

/-- A cmap subtable codepoint-to-glyph mapping (Python `dict[int, str]`). -/
abbrev CMap := List (Nat × GlyphName)

/-- Python `"{:04X}".format(n)`: uppercase hexadecimal, zero-padded to at
least four digits. -/
def hex4 (n : Nat) : String :=
  let digits := (Nat.toDigits 16 n).map Char.toUpper
  String.mk (List.replicate (4 - digits.length) (Char.ofNat 48) ++ digits)

/-- `generate_glyphname` (main.py:135-142): deterministic glyph name for a
codepoint, or for a (codepoint, selector) pair. -/
def generate_glyphname (codepoint : Nat) (selector : Option Nat := none) : GlyphName :=
  match selector with
  | some sel => "u" ++ hex4 codepoint ++ "u" ++ hex4 sel
  | none =>
      if codepoint < 0x10000 then
        "uni" ++ hex4 codepoint
      else
        "u" ++ hex4 codepoint

/-- `FontCMap._create_subt_from_sub4` (main.py:76-93): the fresh format-12
subtable starts with an empty `cmap` dict and is filled by
`subt.cmap.update(sub4.cmap)`. -/
def create_subt_from_sub4 (sub4 : CMap) : CMap :=
  updateKeys [] sub4

/-- State owned by `FontCMap` after construction: the optional format-4
(BMP) subtable and the format-12 (full repertoire) subtable, which is
guaranteed to exist once the constructor has run. -/
structure FontCMap where
  sub4 : Option CMap
  subt : CMap
  /-- whether the format-12 subtable had to be created by the constructor -/
  created12 : Bool
  deriving Repr, DecidableEq

/-- `FontCMap.__init__` (main.py:51-66).  The font exposes an optional
format-4 subtable and an optional format-12 subtable; when the format-12
subtable is absent it is synthesized from the format-4 one, and when both
are absent the `assert` fires (the run aborts before the font is touched). -/
def FontCMap.init (sub4 : Option CMap) (sub12 : Option CMap) :
    Except String FontCMap :=
  match sub12 with
  | some subt => .ok { sub4 := sub4, subt := subt, created12 := false }
  | none =>
      match sub4 with
      | some m4 =>
          .ok { sub4 := some m4, subt := create_subt_from_sub4 m4, created12 := true }
      | none => .error "cmap subtable (format=4) not found"

/-- `FontCMap.lookup_glyphname` (main.py:68-69). -/
def FontCMap.lookup_glyphname (c : FontCMap) (codepoint : Nat) : Option GlyphName :=
  lookupKey c.subt codepoint

/-- `FontCMap.add` (main.py:71-74): `setdefault` on the BMP subtable (only
below 0x10000 and only when that subtable exists), unconditional insert
into the full-repertoire subtable. -/
def FontCMap.add (c : FontCMap) (codepoint : Nat) (glyphname : GlyphName) : FontCMap :=
  { c with
    sub4 :=
      if codepoint < 0x10000 then
        c.sub4.map (fun m => setdefaultKey m codepoint glyphname)
      else c.sub4,
    subt := insertKey c.subt codepoint glyphname }

/-! ## Variation-selector subtable (`FontVSCmap`, main.py:96-132) -/

/-- One `uvsDict` entry list: ordered `(base, glyph-name-or-None)` pairs.
`none` is the deprecated "use default glyph" sentinel. -/
abbrev UVSList := List (Nat × Option GlyphName)

/-- The format-14 subtable `uvsDict`: selector to list of pairs. -/
abbrev UVSDict := List (Nat × UVSList)

/-- The `_vs_in_font` index built by `FontVSCmap.__init__` (main.py:119-123):
a dict comprehension over the flattened `uvsDict`, so for duplicate
`(base, selector)` pairs the last occurrence wins. -/
def vsIndexOf (uvs : UVSDict) : List ((Nat × Nat) × Option GlyphName) :=
  uvs.foldl
    (fun acc e =>
      e.2.foldl (fun acc2 p => insertKey acc2 (p.1, e.1) p.2) acc)
    []

/-- State owned by `FontVSCmap` after construction. -/
structure FontVSCmap where
  uvsDict : UVSDict
  vs_in_font : List ((Nat × Nat) × Option GlyphName)
  /-- whether the format-14 subtable had to be created -/
  created14 : Bool
  deriving Repr, DecidableEq

/-- `FontVSCmap.__init__` (main.py:97-123): create an empty format-14
subtable when the font has none, then build the in-memory index. -/
def FontVSCmap.init (sub14 : Option UVSDict) : FontVSCmap :=
  match sub14 with
  | some d => { uvsDict := d, vs_in_font := vsIndexOf d, created14 := false }
  | none => { uvsDict := [], vs_in_font := [], created14 := true }

/-- `FontVSCmap.lookup_glyphname` (main.py:125-126): `dict.get` returns
`None` both when the pair is absent and when the stored glyph name is the
`None` sentinel, so the two collapse. -/
def FontVSCmap.lookup_glyphname (v : FontVSCmap) (base selector : Nat) :
    Option GlyphName :=
  (lookupKey v.vs_in_font (base, selector)).bind id

/-- `uvsDict.setdefault(selector, []).append((base, gname))`. -/
def uvsAppend : UVSDict → Nat → Nat × Option GlyphName → UVSDict
  | [], selector, entry => [(selector, [entry])]
  | (s1, l1) :: rest, selector, entry =>
      if s1 = selector then (s1, l1 ++ [entry]) :: rest
      else (s1, l1) :: uvsAppend rest selector entry

/-- `FontVSCmap.add` (main.py:128-132).  The `glyphname` argument has type
`str`, so a newly appended entry always carries a concrete glyph name
(never the `None` sentinel). -/
def FontVSCmap.add (v : FontVSCmap) (base selector : Nat) (glyphname : GlyphName) :
    FontVSCmap :=
  { v with
    uvsDict := uvsAppend v.uvsDict selector (base, some glyphname),
    vs_in_font := insertKey v.vs_in_font (base, selector) (some glyphname) }

/-! ## `check_vs` default-UVS repair (`__main__.py:246-257`)

The "Don't use Default UVS Table" pass: every `uvsDict` entry whose glyph
name is the `None` sentinel is replaced by `(base, subt.cmap[base])`; the
`assert` fires when the base character is missing from the full-repertoire
subtable. -/

/-- Repair one selector's list, replacing sentinel entries. -/
def repairUVSList (subt : CMap) : UVSList → Except String UVSList
  | [] => .ok []
  | (base, g) :: rest => do
      let rest2 ← repairUVSList subt rest
      match g with
      | some gname => .ok ((base, some gname) :: rest2)
      | none =>
          match lookupKey subt base with
          | some gname => .ok ((base, some gname) :: rest2)
          | none => .error "base character not in font"

/-- The repair loop of `check_vs`: a selector's list is rewritten only when
it contains at least one sentinel entry, otherwise it is left untouched. -/
def check_vs_repair (subt : CMap) : UVSDict → Except String UVSDict
  | [] => .ok []
  | (selector, uvList) :: rest => do
      let rest2 ← check_vs_repair subt rest
      if uvList.any (fun p => p.2 = none) then
        let newList ← repairUVSList subt uvList
        .ok ((selector, newList) :: rest2)
      else
        .ok ((selector, uvList) :: rest2)

/-! ## `AddGlyphHandler` (main.py:513-633) -/

/-- The mutable state threaded through a run: the character-map editor
state, the lazily created variation-selector editor state, the font's glyph
order (grown by `FontGlyphAdder.add_blank_glyph`), and the added-glyph
counter. -/
structure Handler where
  cmap : FontCMap
  vscmap : Option FontVSCmap
  glyphOrder : List GlyphName
  addedCount : Nat
  deriving Repr, DecidableEq

/-- Structured log entries standing for the `logger.info` item outcomes. -/
inductive LogEntry where
  /-- `added: <description>` from `FontGlyphAdder.add_blank_glyph` -/
  | addedGlyph (description : String)
  /-- `already in font: U+XXXX` from `add_glyph` -/
  | alreadyCodepoint (codepoint : Nat)
  /-- `already in font: U+XXXX U+XXXX` from `add_vs_glyph` -/
  | alreadyVS (base selector : Nat)
  /-- `added: U+XXXX U+XXXX as default` from `add_vs_glyph` -/
  | addedVSDefault (base selector : Nat)
  /-- `added: <tag>: <target> -> ...` from the GSUB rule adders -/
  | addedRule (tag target : String) (replacements : List GlyphName)
  /-- `already in font: <tag>: <target> -> ...` from the GSUB rule adders -/
  | alreadyRule (tag target : String) (replacements : List GlyphName)
  /-- a reported, non-fatal GSUB invariant violation (rule skipped) -/
  | skippedRule (tag : String) (message : String)
  deriving Repr, DecidableEq

/-- `FontGlyphAdder.add_blank_glyph` (main.py:37-47): record zero metrics
and an empty outline for the glyph (the glyph order gains the name if it is
new) and count it. -/
def Handler.add_blank_glyph (h : Handler) (glyphname : GlyphName)
    (description : String) : Handler × LogEntry :=
  ({ h with
      glyphOrder :=
        if glyphname ∈ h.glyphOrder then h.glyphOrder
        else h.glyphOrder ++ [glyphname],
      addedCount := h.addedCount + 1 },
   .addedGlyph description)

/-- `AddGlyphHandler._get_font_vs_cmap` (main.py:530-533): lazily construct
the `FontVSCmap` from the font's format-14 subtable. -/
def Handler.get_font_vs_cmap (h : Handler) (sub14 : Option UVSDict) :
    Handler × FontVSCmap :=
  match h.vscmap with
  | some v => (h, v)
  | none =>
      let v := FontVSCmap.init sub14
      ({ h with vscmap := some v }, v)

/-- `AddGlyphHandler._ensure_glyph` (main.py:535-551): look the codepoint up
in the full-repertoire subtable; when absent, generate a name, record the
mapping and create a blank glyph.  Returns the glyph name and whether a
glyph was added. -/
def Handler.ensure_glyph (h : Handler) (codepoint : Nat) (description : String) :
    Handler × List LogEntry × GlyphName × Bool :=
  match h.cmap.lookup_glyphname codepoint with
  | some glyphname => (h, [], glyphname, false)
  | none =>
      let glyphname := generate_glyphname codepoint
      let h1 := { h with cmap := h.cmap.add codepoint glyphname }
      let (h2, e) := h1.add_blank_glyph glyphname description
      (h2, [e], glyphname, true)

/-- `AddGlyphHandler.add_glyph` (main.py:553-556). -/
def Handler.add_glyph (h : Handler) (codepoint : Nat) :
    Handler × List LogEntry :=
  let (h1, log, _glyphname, added) :=
    h.ensure_glyph codepoint ("U+" ++ hex4 codepoint)
  if added then (h1, log)
  else (h1, log ++ [.alreadyCodepoint codepoint])

/-- `AddGlyphHandler.add_vs_glyph` (main.py:558-580).  `sub14` is the
font's format-14 subtable as loaded, consumed on the first lazy
construction of the `FontVSCmap`. -/
def Handler.add_vs_glyph (h : Handler) (sub14 : Option UVSDict)
    (base selector : Nat) (is_default : Bool) : Handler × List LogEntry :=
  let (h1, vcm) := h.get_font_vs_cmap sub14
  match vcm.lookup_glyphname base selector with
  | some _ => (h1, [.alreadyVS base selector])
  | none =>
      if is_default then
        let descr := "U+" ++ hex4 base ++ " (base of U+" ++ hex4 base
          ++ " U+" ++ hex4 selector ++ ")"
        let (h2, log, glyphname, _added) := h1.ensure_glyph base descr
        let h3 := { h2 with vscmap := some (vcm.add base selector glyphname) }
        (h3, log ++ [.addedVSDefault base selector])
      else
        let glyphname := generate_glyphname base (some selector)
        let h2 := { h1 with vscmap := some (vcm.add base selector glyphname) }
        let descr := "U+" ++ hex4 base ++ " U+" ++ hex4 selector
          ++ " as non-default"
        let (h3, e) := h2.add_blank_glyph glyphname descr
        (h3, [e])

/-! ## OS/2 range bits (`AddGlyphHandler.save`, main.py:611-622) -/

/-- The OS/2 range-bit update performed by `AddGlyphHandler.save`: the old
bit set is retained by writing the union of the old set and the freshly
recalculated set (both for `ulUnicodeRange*` and `ulCodePageRange*`). -/
def saveRangeBits (old recalculated : Finset Nat) : Finset Nat :=
  old ∪ recalculated

/-! ## Helper lemmas -/

theorem mem_keys_of_lookupKey_eq_some {κ α : Type} [DecidableEq κ]
    (d : List (κ × α)) (k : κ) (v : α) (h : lookupKey d k = some v) :
    k ∈ d.map Prod.fst := by
  induction d with
  | nil => simp [lookupKey] at h
  | cons p rest ih =>
      obtain ⟨k1, v1⟩ := p
      by_cases h1 : k1 = k
      · subst h1; simp
      · simp only [lookupKey_cons, h1, if_false] at h
        simp [ih h]

theorem lookupKey_updateKeys {κ α : Type} [DecidableEq κ]
    (other : List (κ × α)) (d : List (κ × α)) (k : κ)
    (h : (other.map Prod.fst).Nodup) :
    lookupKey (updateKeys d other) k = (lookupKey other k).or (lookupKey d k) := by
  induction other generalizing d with
  | nil => simp [updateKeys, lookupKey, Option.or]
  | cons hd tl ih =>
      obtain ⟨k1, v1⟩ := hd
      simp only [List.map_cons, List.nodup_cons] at h
      have step : updateKeys d ((k1, v1) :: tl) = updateKeys (insertKey d k1 v1) tl := rfl
      rw [step, ih _ h.2]
      by_cases hk : k1 = k
      · subst hk
        have : lookupKey tl k1 = none := by
          cases hlk : lookupKey tl k1 with
          | none => rfl
          | some v => exact absurd (mem_keys_of_lookupKey_eq_some tl k1 v hlk) h.1
        simp [this, lookupKey, lookupKey_insertKey_self, Option.or]
      · rw [lookupKey_insertKey_other d k1 k v1 hk]
        simp [lookupKey, hk]

/-- Flatten a `uvsDict` into `(selector, base, glyph-or-sentinel)` triples. -/
def flattenUVS (uvs : UVSDict) : List (Nat × Nat × Option GlyphName) :=
  (uvs.map (fun q => q.2.map (fun p => (q.1, p.1, p.2)))).flatten

theorem flattenUVS_cons (s0 : Nat) (lst : UVSList) (rest : UVSDict) :
    flattenUVS ((s0, lst) :: rest) =
      lst.map (fun p => (s0, p.1, p.2)) ++ flattenUVS rest := by
  simp [flattenUVS]

theorem mem_flattenUVS_uvsAppend (uvs : UVSDict) (s : Nat)
    (e : Nat × Option GlyphName) (x : Nat × Nat × Option GlyphName) :
    x ∈ flattenUVS (uvsAppend uvs s e) ↔
      x ∈ flattenUVS uvs ∨ x = (s, e.1, e.2) := by
  induction uvs with
  | nil => simp [uvsAppend, flattenUVS]
  | cons hd tl ih =>
      obtain ⟨s1, l1⟩ := hd
      by_cases hs : s1 = s
      · subst hs
        have hrw : uvsAppend ((s1, l1) :: tl) s1 e = (s1, l1 ++ [e]) :: tl := by
          simp [uvsAppend]
        rw [hrw, flattenUVS_cons, flattenUVS_cons]
        simp only [List.map_append, List.map_cons, List.map_nil,
          List.mem_append, List.mem_cons, List.not_mem_nil, or_false]
        tauto
      · have hrw : uvsAppend ((s1, l1) :: tl) s e = (s1, l1) :: uvsAppend tl s e := by
          simp [uvsAppend, hs]
        rw [hrw, flattenUVS_cons, flattenUVS_cons]
        simp only [List.mem_append]
        rw [ih]
        tauto

/-- The functional specification of one repaired `uvsDict` entry: sentinel
entries are resolved through the full-repertoire subtable. -/
def repairedEntry (subt : CMap) (p : Nat × Option GlyphName) :
    Nat × Option GlyphName :=
  (p.1, match p.2 with
        | some g => some g
        | none => lookupKey subt p.1)

theorem map_repairedEntry_of_no_sentinel (subt : CMap) (lst : UVSList)
    (h : ∀ p ∈ lst, p.2 ≠ none) :
    lst.map (repairedEntry subt) = lst := by
  induction lst with
  | nil => rfl
  | cons p rest ih =>
      have hp := h p (List.mem_cons_self _ _)
      cases hg : p.2 with
      | none => exact absurd hg hp
      | some g =>
          have : repairedEntry subt p = p := by
            obtain ⟨b, v⟩ := p
            simp only at hg
            subst hg
            rfl
          simp [this, ih (fun q hq => h q (List.mem_cons_of_mem _ hq))]

theorem repairUVSList_ok (subt : CMap) (lst lst2 : UVSList)
    (h : repairUVSList subt lst = .ok lst2) :
    lst2 = lst.map (repairedEntry subt) ∧
      ∀ p ∈ lst, p.2 = none → (lookupKey subt p.1).isSome := by
  induction lst generalizing lst2 with
  | nil =>
      simp only [repairUVSList] at h
      cases h
      simp
  | cons hd tl ih =>
      obtain ⟨base, g⟩ := hd
      simp only [repairUVSList] at h
      cases hrest : repairUVSList subt tl with
      | error e => rw [hrest] at h; simp [Bind.bind, Except.bind] at h
      | ok rest2 =>
          rw [hrest] at h
          simp only [Bind.bind, Except.bind] at h
          obtain ⟨ih1, ih2⟩ := ih rest2 hrest
          cases g with
          | some gname =>
              cases h
              refine ⟨by simp [repairedEntry, ih1], ?_⟩
              intro p hp hnone
              rcases List.mem_cons.mp hp with h2 | h2
              · cases h2; simp at hnone
              · exact ih2 p h2 hnone
          | none =>
              cases hlk : lookupKey subt base with
              | none => rw [hlk] at h; simp at h
              | some gname =>
                  rw [hlk] at h
                  cases h
                  refine ⟨by simp [repairedEntry, ih1, hlk], ?_⟩
                  intro p hp hnone
                  rcases List.mem_cons.mp hp with h2 | h2
                  · cases h2; simp [hlk]
                  · exact ih2 p h2 hnone

theorem check_vs_repair_ok (subt : CMap) (uvs uvs2 : UVSDict)
    (h : check_vs_repair subt uvs = .ok uvs2) :
    uvs2 = uvs.map (fun q => (q.1, q.2.map (repairedEntry subt))) ∧
      ∀ q ∈ uvs, ∀ p ∈ q.2, p.2 = none → (lookupKey subt p.1).isSome := by
  induction uvs generalizing uvs2 with
  | nil =>
      simp only [check_vs_repair] at h
      cases h
      simp
  | cons hd tl ih =>
      obtain ⟨selector, uvList⟩ := hd
      simp only [check_vs_repair] at h
      cases hrest : check_vs_repair subt tl with
      | error e => rw [hrest] at h; simp [Bind.bind, Except.bind] at h
      | ok rest2 =>
          rw [hrest] at h
          simp only [Bind.bind, Except.bind] at h
          obtain ⟨ih1, ih2⟩ := ih rest2 hrest
          by_cases hany : (uvList.any fun p => decide (p.2 = none)) = true
          · rw [if_pos hany] at h
            cases hrep : repairUVSList subt uvList with
            | error e => rw [hrep] at h; simp at h
            | ok newList =>
                rw [hrep] at h
                cases h
                obtain ⟨r1, r2⟩ := repairUVSList_ok subt uvList newList hrep
                refine ⟨by simp [r1, ih1], ?_⟩
                intro q hq p hp hnone
                rcases List.mem_cons.mp hq with h2 | h2
                · cases h2; exact r2 p hp hnone
                · exact ih2 q h2 p hp hnone
          · rw [if_neg hany] at h
            cases h
            have hnon : ∀ p ∈ uvList, p.2 ≠ none := by
              intro p hp
              simp only [List.any_eq_true, decide_eq_true_eq] at hany
              exact fun hc => hany ⟨p, hp, hc⟩
            refine ⟨by simp [map_repairedEntry_of_no_sentinel subt uvList hnon, ih1], ?_⟩
            intro q hq p hp hnone
            rcases List.mem_cons.mp hq with h2 | h2
            · cases h2
              exact absurd hnone (hnon p hp)
            · exact ih2 q h2 p hp hnone

/-! ## Claim theorems: C10, C9, C7, C4 -/

/-- C10: on save, the OS/2 Unicode-range and code-page-range bit sets are
set to the union of their pre-run values and the freshly recalculated
values, so every range bit that was set in the input font is still set in
the saved font — saving never clears a pre-existing range bit. -/
theorem c10_os2_range_monotonic (old recalculated : Finset Nat) (b : Nat)
    (hb : b ∈ old) : b ∈ saveRangeBits old recalculated := by
  exact Finset.mem_union_left _ hb

theorem c10_os2_range_monotonic_witness :
    57 ∈ ({57} : Finset Nat) ∧ 57 ∈ saveRangeBits {57} {3, 5} :=
  ⟨by decide, c10_os2_range_monotonic {57} {3, 5} 57 (by decide)⟩

/-- C9: when the Character Map Editor is constructed on a font whose
format-12 subtable is absent, a new format-12 subtable containing exactly
the format-4 subtable's entries is created (and marked as appended to the
cmap); when the font has neither subtable, construction fails fatally. -/
theorem c9_cmap_construction (sub4 : CMap) (h : (sub4.map Prod.fst).Nodup) :
    (∃ st : FontCMap, FontCMap.init (some sub4) none = .ok st ∧
        st.created12 = true ∧ st.sub4 = some sub4 ∧
        ∀ c, lookupKey st.subt c = lookupKey sub4 c) ∧
    FontCMap.init none none = .error "cmap subtable (format=4) not found" := by
  refine ⟨⟨_, rfl, rfl, rfl, ?_⟩, rfl⟩
  intro c
  show lookupKey (create_subt_from_sub4 sub4) c = lookupKey sub4 c
  rw [create_subt_from_sub4, lookupKey_updateKeys sub4 [] c h]
  simp

theorem c9_cmap_construction_witness :
    (([(65, "A"), (66, "B")] : CMap).map Prod.fst).Nodup ∧
    ((∃ st : FontCMap,
        FontCMap.init (some [(65, "A"), (66, "B")]) none = .ok st ∧
        st.created12 = true ∧ st.sub4 = some [(65, "A"), (66, "B")] ∧
        ∀ c, lookupKey st.subt c = lookupKey [(65, "A"), (66, "B")] c) ∧
      FontCMap.init none none = .error "cmap subtable (format=4) not found") :=
  ⟨by decide, c9_cmap_construction [(65, "A"), (66, "B")] (by decide)⟩

/-- C7: a variation-sequence entry newly created by the engine
(`FontVSCmap.add`) never stores the `None` sentinel — any flattened entry
of the updated `uvsDict` that was not already present is exactly
`(selector, base, some glyphname)` — and the `check_vs` repair pass
rewrites the `uvsDict` so that every sentinel entry is replaced by the
concrete glyph name of its base character and no sentinel remains. -/
theorem c7_vs_nondefault_invariant :
    (∀ (v : FontVSCmap) (base selector : Nat) (g : GlyphName)
        (x : Nat × Nat × Option GlyphName),
        x ∈ flattenUVS ((v.add base selector g).uvsDict) →
        x ∉ flattenUVS v.uvsDict → x = (selector, base, some g)) ∧
    (∀ (subt : CMap) (uvs uvs2 : UVSDict),
        check_vs_repair subt uvs = .ok uvs2 →
        uvs2 = uvs.map (fun q => (q.1, q.2.map (repairedEntry subt))) ∧
        ∀ x ∈ flattenUVS uvs2, x.2.2 ≠ none) := by
  constructor
  · intro v base selector g x hx hnot
    simp only [FontVSCmap.add] at hx
    rcases (mem_flattenUVS_uvsAppend v.uvsDict selector (base, some g) x).mp hx
      with h | h
    · exact absurd h hnot
    · exact h
  · intro subt uvs uvs2 hok
    obtain ⟨heq, hsome⟩ := check_vs_repair_ok subt uvs uvs2 hok
    refine ⟨heq, ?_⟩
    intro x hx
    subst heq
    rw [flattenUVS, List.mem_flatten] at hx
    obtain ⟨l, hl, hxl⟩ := hx
    rw [List.mem_map] at hl
    obtain ⟨q, hq, rfl⟩ := hl
    rw [List.mem_map] at hq
    obtain ⟨q0, hq0, rfl⟩ := hq
    rw [List.mem_map] at hxl
    obtain ⟨p, hp, rfl⟩ := hxl
    simp only at hp
    rw [List.mem_map] at hp
    obtain ⟨p0, hp0, rfl⟩ := hp
    obtain ⟨b, gopt⟩ := p0
    cases gopt with
    | some gname => simp [repairedEntry]
    | none =>
        have := hsome q0 hq0 (b, none) hp0 rfl
        simp only [repairedEntry]
        cases hlk : lookupKey subt b with
        | none => rw [hlk] at this; simp at this
        | some w => simp [hlk]

theorem c7_vs_nondefault_invariant_witness :
    check_vs_repair [(0x4E00, "uni4E00")] [(0xE0100, [(0x4E00, none)])] =
      .ok [(0xE0100, [(0x4E00, some "uni4E00")])] ∧
    ([(0xE0100, [(0x4E00, none)])] : UVSDict).map
        (fun q => (q.1, q.2.map (repairedEntry [(0x4E00, "uni4E00")]))) =
      [(0xE0100, [(0x4E00, some "uni4E00")])] ∧
    ∀ x ∈ flattenUVS [(0xE0100, [(0x4E00, some "uni4E00")])], x.2.2 ≠ none := by
  have happ : check_vs_repair [(0x4E00, "uni4E00")] [(0xE0100, [(0x4E00, none)])] =
      .ok [(0xE0100, [(0x4E00, some "uni4E00")])] := rfl
  have h2 := (c7_vs_nondefault_invariant.2 [(0x4E00, "uni4E00")]
    [(0xE0100, [(0x4E00, none)])] [(0xE0100, [(0x4E00, some "uni4E00")])] happ)
  exact ⟨happ, h2.1.symm, h2.2⟩

/-- C4 counterexample: a font whose BMP subtable already maps U+3400 to
`gOld` while the (existing) format-12 subtable does not contain U+3400.
`add_glyph 0x3400` then adds the codepoint during the run, the BMP subtable
exists, yet afterwards the BMP subtable maps it to `gOld` while the
full-repertoire subtable maps it to `uni3400` — the two disagree, because
`FontCMap.add` uses first-writer-wins `setdefault` on the BMP subtable. -/
theorem c4_cmap_consistency_cex :
    lookupKey
      (((Handler.add_glyph
          { cmap := { sub4 := some [(0x3400, "gOld")], subt := [],
                      created12 := false },
            vscmap := none, glyphOrder := ["gOld"], addedCount := 0 }
          0x3400).1.cmap.sub4.getD []) : CMap) 0x3400 = some "gOld" ∧
    lookupKey
      ((Handler.add_glyph
          { cmap := { sub4 := some [(0x3400, "gOld")], subt := [],
                      created12 := false },
            vscmap := none, glyphOrder := ["gOld"], addedCount := 0 }
          0x3400).1.cmap.subt) 0x3400 = some "uni3400" ∧
    ("gOld" : GlyphName) ≠ "uni3400" := by
  refine ⟨?_, ?_, by decide⟩ <;> decide

/-- C4 amended: for a codepoint `c < 0x10000` that is added during a run
(i.e. `_ensure_glyph` reports it as newly added), when the BMP subtable
exists, the full-repertoire subtable afterwards maps `c` to the generated
glyph name, and the BMP subtable maps `c` to its pre-run BMP value when
one existed, else to the same glyph name as the full-repertoire subtable
(first-writer-wins).  In particular the two subtables agree on `c`
whenever `c` was not already present in the BMP subtable before the run. -/
theorem c4_cmap_consistency_amended (h : Handler) (cp : Nat) (d : String)
    (m4 : CMap) (h4 : h.cmap.sub4 = some m4) (hlt : cp < 0x10000) :
    ∃ m4_after : CMap, (h.ensure_glyph cp d).1.cmap.sub4 = some m4_after ∧
      ((h.ensure_glyph cp d).2.2.2 = true →
        lookupKey (h.ensure_glyph cp d).1.cmap.subt cp =
            some (generate_glyphname cp) ∧
        lookupKey m4_after cp =
            some ((lookupKey m4 cp).getD (generate_glyphname cp)) ∧
        (lookupKey m4 cp = none →
          lookupKey m4_after cp = lookupKey (h.ensure_glyph cp d).1.cmap.subt cp)) := by
  cases hlook : h.cmap.lookup_glyphname cp with
  | some g =>
      refine ⟨m4, ?_, ?_⟩
      · simp [Handler.ensure_glyph, hlook, h4]
      · intro hadded
        exfalso
        simp [Handler.ensure_glyph, hlook] at hadded
  | none =>
      refine ⟨setdefaultKey m4 cp (generate_glyphname cp), ?_, ?_⟩
      · simp [Handler.ensure_glyph, hlook, FontCMap.add, Handler.add_blank_glyph,
          h4, hlt]
      · intro _
        refine ⟨?_, ?_, ?_⟩
        · simp [Handler.ensure_glyph, hlook, FontCMap.add, Handler.add_blank_glyph,
            lookupKey_insertKey_self]
        · cases hm4 : lookupKey m4 cp with
          | some w =>
              rw [lookupKey_setdefaultKey_present m4 cp _ w hm4]
              simp [hm4]
          | none =>
              rw [lookupKey_setdefaultKey_absent m4 cp _ hm4]
              simp
        · intro hm4
          rw [lookupKey_setdefaultKey_absent m4 cp _ hm4]
          simp [Handler.ensure_glyph, hlook, FontCMap.add, Handler.add_blank_glyph,
            lookupKey_insertKey_self]

theorem c4_cmap_consistency_amended_witness :
    ({ cmap := { sub4 := some [], subt := [], created12 := false },
       vscmap := none, glyphOrder := [], addedCount := 0 } : Handler).cmap.sub4 =
        some [] ∧ 0x3400 < 0x10000 ∧
    ∃ m4_after : CMap,
      (Handler.ensure_glyph
        { cmap := { sub4 := some [], subt := [], created12 := false },
          vscmap := none, glyphOrder := [], addedCount := 0 } 0x3400 "x").1.cmap.sub4 =
          some m4_after ∧
      ((Handler.ensure_glyph
        { cmap := { sub4 := some [], subt := [], created12 := false },
          vscmap := none, glyphOrder := [], addedCount := 0 } 0x3400 "x").2.2.2 = true →
        lookupKey (Handler.ensure_glyph
          { cmap := { sub4 := some [], subt := [], created12 := false },
            vscmap := none, glyphOrder := [], addedCount := 0 } 0x3400 "x").1.cmap.subt
            0x3400 = some (generate_glyphname 0x3400) ∧
        lookupKey m4_after 0x3400 =
            some ((lookupKey ([] : CMap) 0x3400).getD (generate_glyphname 0x3400)) ∧
        (lookupKey ([] : CMap) 0x3400 = none →
          lookupKey m4_after 0x3400 =
            lookupKey (Handler.ensure_glyph
              { cmap := { sub4 := some [], subt := [], created12 := false },
                vscmap := none, glyphOrder := [], addedCount := 0 } 0x3400 "x").1.cmap.subt
              0x3400)) :=
  ⟨rfl, by decide,
   c4_cmap_consistency_amended
     { cmap := { sub4 := some [], subt := [], created12 := false },
       vscmap := none, glyphOrder := [], addedCount := 0 } 0x3400 "x" [] rfl
     (by decide)⟩

/-! ## GSUB data model (`gsub.py`, `main.py`)

The OpenType layout hierarchy as far as the engine inspects it.  All
Python-side `...Count` fields that fontTools keeps in sync with their list
(`ScriptCount`, `FeatureCount`, `LookupCount`, `SubTableCount`) are
modelled as the list lengths. -/

/-- GSUB subtables.  Nested `List Nat` leaves are the `LookupListIndex`
fields of the `SubstLookupRecord` lists of one context rule. -/
inductive GSubTable where
  /-- `SingleSubst` with its `mapping` dict -/
  | single (mapping : List (GlyphName × GlyphName))
  /-- `AlternateSubst` with its `alternates` dict -/
  | alternate (alternates : List (GlyphName × List GlyphName))
  /-- `ContextSubst` format 1: `SubRuleSet / SubRule / SubstLookupRecord` -/
  | contextFmt1 (subRuleSets : List (List (List Nat)))
  /-- `ContextSubst` format 2: `SubClassSet / SubClassRule / SubstLookupRecord` -/
  | contextFmt2 (subClassSets : List (List (List Nat)))
  /-- `ContextSubst` format 3: direct `SubstLookupRecord` list -/
  | contextFmt3 (records : List Nat)
  /-- `ChainContextSubst` format 1 -/
  | chainFmt1 (chainSubRuleSets : List (List (List Nat)))
  /-- `ChainContextSubst` format 2 -/
  | chainFmt2 (chainSubClassSets : List (List (List Nat)))
  /-- `ChainContextSubst` format 3 -/
  | chainFmt3 (records : List Nat)
  /-- `ExtensionSubst` wrapping another subtable -/
  | extensionSubst (extensionLookupType : Nat) (ext : GSubTable)
  /-- any other subtable kind (opaque to the engine) -/
  | unsupported
  deriving Repr, DecidableEq

/-- A GSUB `Lookup`.  `markFilteringSet` is `none` when the Python object
has no `MarkFilteringSet` attribute. -/
structure Lookup where
  lookupType : Nat
  lookupFlag : Nat
  markFilteringSet : Option Nat
  subTable : List GSubTable
  deriving Repr, DecidableEq

/-- A GSUB `Feature`.  `featureParams` is `some ()` when `FeatureParams`
is not `None`. -/
structure Feature where
  featureParams : Option Unit
  lookupListIndex : List Nat
  deriving Repr, DecidableEq

structure FeatureRecord where
  featureTag : String
  feature : Feature
  deriving Repr, DecidableEq

structure LangSys where
  lookupOrder : Option Unit
  reqFeatureIndex : Nat
  featureIndex : List Nat
  deriving Repr, DecidableEq

structure LangSysRecord where
  langSysTag : String
  langSys : LangSys
  deriving Repr, DecidableEq

structure ScriptRecord where
  scriptTag : String
  defaultLangSys : Option LangSys
  langSysRecord : List LangSysRecord
  deriving Repr, DecidableEq

/-- The GSUB table.  `featureVariationsFeatures` flattens the
`FeatureVariations / FeatureVariationRecord / FeatureTableSubstitution /
SubstitutionRecord` nesting down to the per-record `Feature` objects (the
only part the engine rewrites); `none` models a table without a
`FeatureVariations` attribute. -/
structure GSUB where
  scriptRecord : List ScriptRecord
  featureRecord : List FeatureRecord
  lookups : List Lookup
  featureVariationsFeatures : Option (List Feature)
  deriving Repr, DecidableEq

/-- The list-comprehension pattern
`[DefaultLangSys, *(lsr.LangSys for lsr in LangSysRecord)] if not None`
ranging over all scripts (main.py:189-199 and gsub.py:477-488). -/
def langSysList (g : GSUB) : List LangSys :=
  (g.scriptRecord.map (fun sr =>
    sr.defaultLangSys.toList ++ sr.langSysRecord.map (fun lsr => lsr.langSys))).flatten

/-! ## Legacy Compatibility Migrator (`undo_gsub_win7_fix`, main.py:145-207) -/

/-- The per-script dummy pattern test of `undo_gsub_win7_fix`: returns the
matched feature index, `none` when the script does not match, and an error
for the uncaught `IndexError` when the single feature index is out of
range. -/
def isDummyCandidate (g : GSUB) (sr : ScriptRecord) : Except String (Option Nat) :=
  if sr.scriptTag ≠ "hani" then .ok none
  else if sr.langSysRecord.length ≠ 0 then .ok none
  else
    match sr.defaultLangSys with
    | none => .ok none
    | some ls =>
        if ls.lookupOrder.isSome then .ok none
        else if ls.reqFeatureIndex ≠ 0xFFFF then .ok none
        else
          match ls.featureIndex with
          | [fi] =>
              match g.featureRecord.get? fi with
              | none => .error "IndexError: FeatureRecord"
              | some fr =>
                  if fr.featureTag ≠ "aalt" then .ok none
                  else if fr.feature.featureParams.isSome then .ok none
                  else if fr.feature.lookupListIndex.length ≠ 0 then .ok none
                  else .ok (some fi)
          | _ => .ok none

/-- The `for ... else` search over the script list: first matching script
index together with its dummy feature index. -/
def findDummy (g : GSUB) : List ScriptRecord → Nat → Except String (Option (Nat × Nat))
  | [], _ => .ok none
  | sr :: rest, i => do
      match ← isDummyCandidate g sr with
      | some fi => .ok (some (i, fi))
      | none => findDummy g rest (i + 1)

/-- `undo_gsub_win7_fix` (main.py:145-207): delete the first matching dummy
script; afterwards delete the referenced feature record only when no
remaining language system still references its index. -/
def undo_gsub_win7_fix (g : GSUB) : Except String GSUB := do
  match ← findDummy g g.scriptRecord 0 with
  | none => .ok g
  | some (si, fi) =>
      let g1 : GSUB := { g with scriptRecord := g.scriptRecord.eraseIdx si }
      if (langSysList g1).any (fun ls => ls.featureIndex.contains fi) then
        .ok g1
      else
        .ok { g1 with featureRecord := g1.featureRecord.eraseIdx fi }

theorem get?_eraseIdx_of_lt {α : Type} (l : List α) (i j : Nat) (h : j < i) :
    (l.eraseIdx i).get? j = l.get? j := by
  induction l generalizing i j with
  | nil => simp [List.eraseIdx]
  | cons x xs ih =>
      cases i with
      | zero => exact absurd h (Nat.not_lt_zero j)
      | succ i2 =>
          cases j with
          | zero => simp [List.eraseIdx]
          | succ j2 =>
              simp only [List.eraseIdx, List.get?_cons_succ]
              exact ih i2 j2 (Nat.lt_of_succ_lt_succ h)

/-- C6 counterexample fixture: a font whose GSUB has the legacy dummy
(`hani` script pointing at an empty `aalt` feature at index 0) plus a
second script whose language system references feature index 1. -/
def c6Gsub : GSUB :=
  { scriptRecord :=
      [ { scriptTag := "hani",
          defaultLangSys := some
            { lookupOrder := none, reqFeatureIndex := 0xFFFF, featureIndex := [0] },
          langSysRecord := [] },
        { scriptTag := "latn",
          defaultLangSys := some
            { lookupOrder := none, reqFeatureIndex := 0xFFFF, featureIndex := [1] },
          langSysRecord := [] } ],
    featureRecord :=
      [ { featureTag := "aalt",
          feature := { featureParams := none, lookupListIndex := [] } },
        { featureTag := "liga",
          feature := { featureParams := none, lookupListIndex := [] } },
        { featureTag := "kern",
          feature := { featureParams := none, lookupListIndex := [] } } ],
    lookups := [],
    featureVariationsFeatures := none }

/-- The state `undo_gsub_win7_fix` leaves `c6Gsub` in. -/
def c6GsubAfter : GSUB :=
  { scriptRecord :=
      [ { scriptTag := "latn",
          defaultLangSys := some
            { lookupOrder := none, reqFeatureIndex := 0xFFFF, featureIndex := [1] },
          langSysRecord := [] } ],
    featureRecord :=
      [ { featureTag := "liga",
          feature := { featureParams := none, lookupListIndex := [] } },
        { featureTag := "kern",
          feature := { featureParams := none, lookupListIndex := [] } } ],
    lookups := [],
    featureVariationsFeatures := none }

/-- C6 counterexample: `undo_gsub_win7_fix` deletes the dummy feature
record at index 0 (the guard only checks that index 0 itself is
unreferenced), which shifts every later feature record down by one: the
surviving language system still stores feature index 1, which denoted the
`liga` record before the call but denotes the `kern` record afterwards —
a shifted feature reference, contradicting the claim that every referenced
feature index still denotes the same feature record. -/
theorem c6_legacy_migrator_cex :
    undo_gsub_win7_fix c6Gsub = .ok c6GsubAfter ∧
    (langSysList c6GsubAfter).any (fun ls => ls.featureIndex.contains 1) = true ∧
    (c6Gsub.featureRecord.get? 1).map (fun fr => fr.featureTag) = some "liga" ∧
    (c6GsubAfter.featureRecord.get? 1).map (fun fr => fr.featureTag) = some "kern" ∧
    ("liga" : String) ≠ "kern" :=
  ⟨rfl, rfl, rfl, rfl, by decide⟩

/-- A trivial empty GSUB table, fixture for the C6 witness. -/
def c6Empty : GSUB :=
  { scriptRecord := [], featureRecord := [], lookups := [],
    featureVariationsFeatures := none }

/-- C6 amended: `undo_gsub_win7_fix` deletes the matched dummy feature
record only when, after the dummy script has been removed, no remaining
language system references that feature's index; and afterwards either the
feature list is unchanged (so every referenced feature index denotes the
same record as before), or exactly the matched record at some index `fi`
was deleted, in which case every feature index *smaller than* `fi` still
denotes the same feature record it denoted before the call (indices above
`fi` shift down by one). -/
theorem c6_legacy_migrator_amended (g g2 : GSUB)
    (h : undo_gsub_win7_fix g = .ok g2) :
    g2.featureRecord = g.featureRecord ∨
    ∃ fi : Nat,
      g2.featureRecord = g.featureRecord.eraseIdx fi ∧
      (∀ ls ∈ langSysList g2, ls.featureIndex.contains fi = false) ∧
      ∀ j < fi, g2.featureRecord.get? j = g.featureRecord.get? j := by
  rw [undo_gsub_win7_fix] at h
  cases hfind : findDummy g g.scriptRecord 0 with
  | error e => rw [hfind] at h; simp [Bind.bind, Except.bind] at h
  | ok r =>
      rw [hfind] at h
      simp only [Bind.bind, Except.bind] at h
      split at h
      · cases h
        exact Or.inl rfl
      · rename_i si fi
        split at h
        · cases h
          exact Or.inl rfl
        · rename_i hany
          cases h
          refine Or.inr ⟨fi, rfl, ?_, ?_⟩
          · intro ls hls
            have hmem : ls ∈ langSysList
                { g with scriptRecord := g.scriptRecord.eraseIdx si } := by
              simpa [langSysList] using hls
            by_contra hc
            apply hany
            rw [List.any_eq_true]
            exact ⟨ls, hmem, by
              cases hb : ls.featureIndex.contains fi with
              | false => exact absurd hb hc
              | true => rfl⟩
          · intro j hj
            exact get?_eraseIdx_of_lt g.featureRecord fi j hj

theorem c6_legacy_migrator_amended_witness :
    undo_gsub_win7_fix c6Empty = .ok c6Empty ∧
    (c6Empty.featureRecord = c6Empty.featureRecord ∨
    ∃ fi : Nat,
      c6Empty.featureRecord = c6Empty.featureRecord.eraseIdx fi ∧
      (∀ ls ∈ langSysList c6Empty, ls.featureIndex.contains fi = false) ∧
      ∀ j < fi, c6Empty.featureRecord.get? j = c6Empty.featureRecord.get? j) :=
  ⟨rfl, c6_legacy_migrator_amended c6Empty c6Empty rfl⟩

/-! ## Substitution Rule Engine (`gsub.py`)

Errors split the way the code does: `GSUBInvariantViolation` (a reported,
per-rule-recoverable configuration error) versus hard crashes
(`AssertionError`, `AttributeError`, `IndexError`), which abort the run. -/

inductive EngineError where
  /-- `GSUBInvariantViolation` (gsub.py:23-24) -/
  | invariant (msg : String)
  /-- an uncaught Python exception -/
  | fatal (msg : String)
  deriving Repr, DecidableEq

/-- `dict.fromkeys(right)`: order-preserving de-duplication keeping the
first occurrence. -/
def dedupFirstAux {α : Type} [DecidableEq α] (seen : List α) : List α → List α
  | [] => []
  | x :: rest =>
      if x ∈ seen then dedupFirstAux seen rest
      else x :: dedupFirstAux (x :: seen) rest

def dedupFirst {α : Type} [DecidableEq α] (l : List α) : List α :=
  dedupFirstAux [] l

/-- `_merge_alternates` (gsub.py:27-28):
`left + [e for e in dict.fromkeys(right) if e not in left]`. -/
def merge_alternates (left right : List GlyphName) : List GlyphName :=
  left ++ (dedupFirst right).filter (fun e => e ∉ left)

/-- A `SingleSubst.mapping` dict. -/
abbrev SingleMapping := List (GlyphName × GlyphName)

/-- An `AlternateSubst.alternates` dict. -/
abbrev AltMapping := List (GlyphName × List GlyphName)

/-- First subtable of the scan that contains `target`, returning its
stored value (gsub.py:76-79 and 127-130 scan over subtables in order and
return inside the loop at the first hit). -/
def findFirstValue {α : Type} : List (List (GlyphName × α)) → GlyphName → Option α
  | [], _ => none
  | m :: rest, t =>
      match lookupKey m t with
      | some v => some v
      | none => findFirstValue rest t

/-- `GSUBSingleSubstRuleAdder.try_add_rule` (gsub.py:69-96) acting on the
list of single-substitution subtable mappings of a lookup.  Returns the
success flag, the updated mappings and the log entries. -/
def singleTryAddRule (tag : String) (st : List SingleMapping)
    (target : GlyphName) (replacements : List GlyphName) :
    Bool × List SingleMapping × List LogEntry :=
  if replacements.length > 1 then (false, st, [])
  else
    match replacements with
    | [] => (true, st, [])
    | r :: _ =>
        match findFirstValue st target with
        | some existing =>
            let merged := merge_alternates [existing] replacements
            if merged = [existing] then
              (true, st, [.alreadyRule tag target merged])
            else
              (false, st, [])
        | none =>
            match st with
            | [] => (true, [insertKey [] target r],
                     [.addedRule tag target replacements])
            | m0 :: rest => (true, insertKey m0 target r :: rest,
                     [.addedRule tag target replacements])

/-- `GSUBSingleSubstRuleAdder.get_merged_mapping` (gsub.py:98-102):
`mapping.update` over the reversed subtable list, so earlier subtables
take precedence. -/
def get_merged_mapping (st : List SingleMapping) : SingleMapping :=
  st.reverse.foldl (fun acc m => updateKeys acc m) []

/-- The scan-and-update loop of
`GSUBAlternateSubstRuleAdder.try_add_rule` (gsub.py:126-138): the first
subtable containing `target` has its entry merged in place. -/
def altScanUpdate (tag : String) (target : GlyphName)
    (replacements : List GlyphName) :
    List AltMapping → Option (List AltMapping × List LogEntry)
  | [] => none
  | m :: rest =>
      match lookupKey m target with
      | some existing =>
          let newAlternates := merge_alternates existing replacements
          let entry : LogEntry :=
            if existing ≠ newAlternates then .addedRule tag target newAlternates
            else .alreadyRule tag target newAlternates
          some (insertKey m target newAlternates :: rest, [entry])
      | none =>
          (altScanUpdate tag target replacements rest).map
            (fun p => (m :: p.1, p.2))

/-- `GSUBAlternateSubstRuleAdder.try_add_rule` (gsub.py:120-149); always
succeeds. -/
def alternateTryAddRule (tag : String) (st : List AltMapping)
    (target : GlyphName) (replacements : List GlyphName) :
    List AltMapping × List LogEntry :=
  match replacements with
  | [] => (st, [])
  | _ =>
      match altScanUpdate tag target replacements st with
      | some r => r
      | none =>
          match st with
          | [] => ([insertKey [] target replacements],
                   [.addedRule tag target replacements])
          | m0 :: rest => (insertKey m0 target replacements :: rest,
                   [.addedRule tag target replacements])

/-- The concrete adder class chosen for a lookup by
`GSUBFeatureRuleAdder.__init__` (gsub.py:272-300). -/
inductive AdderKind where
  | type1
  | type3
  | type7single
  | type7alternate
  deriving Repr, DecidableEq

/-- `GSUBLookupType1RuleAdder._get_subtables` (gsub.py:157-163): every
subtable must be a `SingleSubst` (`assert isinstance`). -/
def lookupSingleMappings (lk : Lookup) : Except EngineError (List SingleMapping) :=
  lk.subTable.mapM fun st =>
    match st with
    | .single m => .ok m
    | _ => .error (.fatal "AssertionError: SingleSubst expected")

/-- `GSUBLookupType3RuleAdder._get_subtables` (gsub.py:198-204). -/
def lookupAltMappings (lk : Lookup) : Except EngineError (List AltMapping) :=
  lk.subTable.mapM fun st =>
    match st with
    | .alternate a => .ok a
    | _ => .error (.fatal "AssertionError: AlternateSubst expected")

/-- Write a type-1 lookup's subtables back (mutating `lookup.SubTable` in
place keeps all other lookup attributes). -/
def setSingleMappings (lk : Lookup) (ms : List SingleMapping) : Lookup :=
  { lk with subTable := ms.map GSubTable.single }

def setAltMappings (lk : Lookup) (ms : List AltMapping) : Lookup :=
  { lk with subTable := ms.map GSubTable.alternate }

/-- Replace the lookup stored at index `li` (the Python code mutates the
shared lookup object or overwrites `LookupList.Lookup[idx]`). -/
def setLookupAt (g : GSUB) (li : Nat) (lk : Lookup) : GSUB :=
  { g with lookups := g.lookups.set li lk }

/-- Locator for the langsys object held in `self._dflt_langsys`: the first
script with `scriptTag`, then its default langsys (`none`) or the first
langsys record with the given tag. -/
structure LangsysLoc where
  scriptTag : String
  langSysTag : Option String
  deriving Repr, DecidableEq

/-- State of a `GSUBRuleAdder` (gsub.py:356-371) together with the cached
per-feature and per-lookup adder objects. -/
structure RuleAdderState where
  gsub : GSUB
  /-- `_feature_indices_by_tag` -/
  featureIndicesByTag : List (String × List Nat)
  /-- `_feature_adders`: feature index to the adder's `(_lookup_index,
  _feature_tag)` -/
  featureAdderCache : List (Nat × (Nat × String))
  /-- `_lookup_adders`: lookup index to the adder class chosen for it -/
  lookupAdders : List (Nat × AdderKind)
  /-- where `self._dflt_langsys` points -/
  dfltLangSys : LangsysLoc
  /-- `_initial_lookup_count` -/
  initialLookupCount : Nat
  deriving Repr, DecidableEq

/-- The adder-class dispatch of `GSUBFeatureRuleAdder.__init__`
(gsub.py:269-300), including the `lookup_adders` cache check. -/
def dispatchAdder (st : RuleAdderState) (li : Nat) (lk : Lookup) (tag : String) :
    Except EngineError RuleAdderState :=
  if (lookupKey st.lookupAdders li).isSome then .ok st
  else do
    let kind ←
      if lk.lookupType = 1 then .ok AdderKind.type1
      else if lk.lookupType = 3 then .ok AdderKind.type3
      else if lk.lookupType = 7 then do
        let extType ←
          match lk.subTable with
          | [] => .ok 1
          | st0 :: _ =>
              match st0 with
              | .extensionSubst t _ => .ok t
              | _ => .error (.fatal "AttributeError: ExtensionLookupType")
        if extType = 1 then
          if lk.subTable.all (fun s =>
              match s with
              | .extensionSubst t _ => t = 1
              | _ => false) then
            .ok AdderKind.type7single
          else .error (.fatal "AssertionError: ExtensionLookupType == 1")
        else if extType = 3 then
          if lk.subTable.all (fun s =>
              match s with
              | .extensionSubst t _ => t = 3
              | _ => false) then
            .ok AdderKind.type7alternate
          else .error (.fatal "AssertionError: ExtensionLookupType == 3")
        else
          .error (.invariant
            ("feature " ++ tag ++ " has lookup of unsupported type "
              ++ toString extType))
      else
        .error (.invariant
          ("feature " ++ tag ++ " has lookup of unsupported type "
            ++ toString lk.lookupType))
    .ok { st with lookupAdders := insertKey st.lookupAdders li kind }

/-- `GSUBFeatureRuleAdder.__init__` (gsub.py:234-300): reject features with
more than one lookup, find the single lookup or lazily create a type-1
lookup, then dispatch the adder class.  Returns the adder's
`(_lookup_index, _feature_tag)`. -/
def featureAdderInit (st : RuleAdderState) (fi : Nat) :
    Except EngineError (RuleAdderState × Nat × String) := do
  let fr ←
    match st.gsub.featureRecord.get? fi with
    | some fr => .ok fr
    | none => .error (.fatal "IndexError: FeatureRecord")
  let tag := fr.featureTag
  if fr.feature.lookupListIndex.length > 1 then
    .error (.invariant ("feature " ++ tag ++ " has multiple lookups"))
  else
    match fr.feature.lookupListIndex with
    | [li] => do
        let lk ←
          match st.gsub.lookups.get? li with
          | some lk => .ok lk
          | none => .error (.fatal "IndexError: Lookup")
        let st2 ← dispatchAdder st li lk tag
        .ok (st2, li, tag)
    | _ => do
        let lk : Lookup :=
          { lookupType := 1, lookupFlag := 0, markFilteringSet := none,
            subTable := [] }
        let li := st.gsub.lookups.length
        let g2 : GSUB :=
          { st.gsub with
            lookups := st.gsub.lookups ++ [lk],
            featureRecord := st.gsub.featureRecord.set fi
              { fr with feature :=
                { fr.feature with
                  lookupListIndex := fr.feature.lookupListIndex ++ [li] } } }
        let st2 ← dispatchAdder { st with gsub := g2 } li lk tag
        .ok (st2, li, tag)

/-- `GSUBRuleAdder._get_feature_adder` (gsub.py:525-530): construct the
feature adder once per feature index (nothing is cached when construction
raises). -/
def getFeatureAdder (st : RuleAdderState) (fi : Nat) :
    Except EngineError (RuleAdderState × Nat × String) :=
  match lookupKey st.featureAdderCache fi with
  | some (li, tag) => .ok (st, li, tag)
  | none => do
      let (st2, li, tag) ← featureAdderInit st fi
      .ok ({ st2 with
              featureAdderCache := insertKey st2.featureAdderCache fi (li, tag) },
           li, tag)

/-- `try_add_rule` dispatched through the adder class of lookup `li`
(gsub.py:344-345 via the `GSUBLookupRuleAdder` subclasses).  The broken
type-7 adders read `self._lookup.Subtable` (gsub.py:177 and 218) — the
attribute is spelled `SubTable` on fontTools lookups — so any type-7 path
that reaches `_get_subtables` raises `AttributeError`. -/
def lookupTryAddRule (g : GSUB) (kind : AdderKind) (li : Nat) (tag : String)
    (target : GlyphName) (reps : List GlyphName) :
    Except EngineError (Bool × GSUB × List LogEntry) := do
  let lk ←
    match g.lookups.get? li with
    | some lk => .ok lk
    | none => .error (.fatal "IndexError: Lookup")
  match kind with
  | .type1 =>
      if reps.length > 1 then .ok (false, g, [])
      else if reps.isEmpty then .ok (true, g, [])
      else do
        let ms ← lookupSingleMappings lk
        let (ok, ms2, log) := singleTryAddRule tag ms target reps
        .ok (ok, setLookupAt g li (setSingleMappings lk ms2), log)
  | .type3 =>
      if reps.isEmpty then .ok (true, g, [])
      else do
        let ms ← lookupAltMappings lk
        let (ms2, log) := alternateTryAddRule tag ms target reps
        .ok (true, setLookupAt g li (setAltMappings lk ms2), log)
  | .type7single =>
      if reps.length > 1 then .ok (false, g, [])
      else if reps.isEmpty then .ok (true, g, [])
      else .error (.fatal "AttributeError: Subtable")
  | .type7alternate =>
      if reps.isEmpty then .ok (true, g, [])
      else .error (.fatal "AttributeError: Subtable")

/-- `GSUBFeatureRuleAdder._upgrade_lookup_to_alternate` (gsub.py:302-340).
For a (type-1) single-substitution lookup: read the merged mapping,
rebuild it one-to-many, and replace the lookup with a type-3 lookup
carrying the same `LookupFlag` and, when flag bit 0x0010 is set, the same
`MarkFilteringSet`.  A type-7 single adder crashes inside
`get_merged_mapping` (the `Subtable` typo) before any mutation. -/
def upgradeLookupToAlternate (st : RuleAdderState) (li : Nat) :
    Except EngineError RuleAdderState := do
  let kind ←
    match lookupKey st.lookupAdders li with
    | some k => .ok k
    | none => .error (.fatal "KeyError: lookup_adders")
  let lk ←
    match st.gsub.lookups.get? li with
    | some lk => .ok lk
    | none => .error (.fatal "IndexError: Lookup")
  match kind with
  | .type3 => .error (.fatal "AssertionError: GSUBSingleSubstRuleAdder expected")
  | .type7alternate =>
      .error (.fatal "AssertionError: GSUBSingleSubstRuleAdder expected")
  | .type7single => .error (.fatal "AttributeError: Subtable")
  | .type1 => do
      let ms ← lookupSingleMappings lk
      let mapping := get_merged_mapping ms
      let newSub : GSubTable :=
        .alternate (mapping.map (fun p => (p.1, [p.2])))
      if lk.lookupType = 1 then do
        let mfs ←
          if lk.lookupFlag &&& 0x10 ≠ 0 then
            match lk.markFilteringSet with
            | some m => .ok (some m)
            | none => .error (.fatal "AttributeError: MarkFilteringSet")
          else .ok none
        let newLk : Lookup :=
          { lookupType := 3, lookupFlag := lk.lookupFlag,
            markFilteringSet := mfs, subTable := [newSub] }
        .ok { st with
              gsub := setLookupAt st.gsub li newLk,
              lookupAdders := insertKey st.lookupAdders li .type3 }
      else if lk.lookupType = 7 then do
        let newLk : Lookup := { lk with subTable := [.extensionSubst 3 newSub] }
        .ok { st with
              gsub := setLookupAt st.gsub li newLk,
              lookupAdders := insertKey st.lookupAdders li .type7alternate }
      else .error (.fatal "AssertionError: unexpected lookup type")

/-- `GSUBFeatureRuleAdder.add_rule` (gsub.py:342-353): de-duplicate the
replacements, try the rule against the feature's lookup, upgrade the
lookup representation and retry when the single-substitution form cannot
represent it (the retry must succeed). -/
def featureAddRule (st0 : RuleAdderState) (fi : Nat) (target : GlyphName)
    (replacements0 : List GlyphName) :
    Except EngineError (RuleAdderState × List LogEntry) := do
  let reps := merge_alternates [] replacements0
  let (st1, li, tag) ← getFeatureAdder st0 fi
  let kind1 ←
    match lookupKey st1.lookupAdders li with
    | some k => .ok k
    | none => .error (.fatal "KeyError: lookup_adders")
  let (ok1, g2, log1) ← lookupTryAddRule st1.gsub kind1 li tag target reps
  let st2 := { st1 with gsub := g2 }
  if ok1 then .ok (st2, log1)
  else do
    let st3 ← upgradeLookupToAlternate st2 li
    let kind2 ←
      match lookupKey st3.lookupAdders li with
      | some k => .ok k
      | none => .error (.fatal "KeyError: lookup_adders")
    let (ok2, g3, log2) ← lookupTryAddRule st3.gsub kind2 li tag target reps
    if ok2 then .ok ({ st3 with gsub := g3 }, log1 ++ log2)
    else .error (.fatal "AssertionError: retry after upgrade failed")

theorem lookupKey_map_snd {α β : Type} (l : List (GlyphName × α)) (f : α → β)
    (k : GlyphName) :
    lookupKey (l.map (fun p => (p.1, f p.2))) k = (lookupKey l k).map f := by
  induction l with
  | nil => rfl
  | cons p rest ih =>
      obtain ⟨k1, v1⟩ := p
      by_cases h : k1 = k <;> simp [lookupKey, h, ih]

theorem lookupKey_map_singleton {α : Type} (l : List (GlyphName × α))
    (k : GlyphName) :
    lookupKey (l.map (fun p => (p.1, [p.2]))) k =
      (lookupKey l k).map (fun v => [v]) := by
  induction l with
  | nil => rfl
  | cons p rest ih =>
      obtain ⟨k1, v1⟩ := p
      by_cases h : k1 = k <;> simp [lookupKey, h, ih]

theorem get?_set_self_of_lt {α : Type} (l : List α) (i : Nat) (a : α)
    (h : i < l.length) : (l.set i a).get? i = some a := by
  induction l generalizing i with
  | nil => simp at h
  | cons x xs ih =>
      cases i with
      | zero => rfl
      | succ i2 =>
          simp only [List.set_cons_succ, List.get?_cons_succ]
          exact ih i2 (Nat.lt_of_succ_lt_succ h)

theorem merge_alternates_nil_pair (x z : GlyphName) (h : x ≠ z) :
    merge_alternates [] [x, z] = [x, z] := by
  simp [merge_alternates, dedupFirst, dedupFirstAux, Ne.symm h]

theorem merge_alternates_single_pair (x z : GlyphName) (h : x ≠ z) :
    merge_alternates [x] [x, z] = [x, z] := by
  simp [merge_alternates, dedupFirst, dedupFirstAux, Ne.symm h]

/-- C2: for a feature whose single lookup is a type-1 Single-Substitution
lookup whose merged mapping sends `A` to `X` and `B` to `Y`, calling
`add_rule` with `(A, [X, Z])` converts the lookup into an
Alternate-Substitution lookup whose alternates map `A` to `[X, Z]` and `B`
to `[Y]`, with the same `LookupFlag` and — when flag bit 0x0010 is set —
the same `MarkFilteringSet`. -/
theorem c2_lookup_upgrade (st : RuleAdderState) (fi li : Nat)
    (fr : FeatureRecord) (lk : Lookup) (ms : List SingleMapping)
    (A B X Y Z : GlyphName)
    (h1 : st.gsub.featureRecord.get? fi = some fr)
    (h2 : fr.feature.lookupListIndex = [li])
    (h3 : st.gsub.lookups.get? li = some lk)
    (h4 : lk.lookupType = 1)
    (h5 : lookupSingleMappings lk = .ok ms)
    (h6 : lookupKey (get_merged_mapping ms) A = some X)
    (h7 : lookupKey (get_merged_mapping ms) B = some Y)
    (h8 : A ≠ B) (h9 : X ≠ Z)
    (h10 : lookupKey st.featureAdderCache fi = none)
    (h11 : lookupKey st.lookupAdders li = none)
    (h12 : lk.lookupFlag &&& 0x10 ≠ 0 → lk.markFilteringSet.isSome) :
    ∃ (st2 : RuleAdderState) (log : List LogEntry) (lk2 : Lookup)
      (ms2 : List AltMapping),
      featureAddRule st fi A [X, Z] = .ok (st2, log) ∧
      st2.gsub.lookups.get? li = some lk2 ∧
      lk2.lookupType = 3 ∧
      lk2.lookupFlag = lk.lookupFlag ∧
      (lk.lookupFlag &&& 0x10 ≠ 0 → lk2.markFilteringSet = lk.markFilteringSet) ∧
      lookupAltMappings lk2 = .ok ms2 ∧
      findFirstValue ms2 A = some [X, Z] ∧
      findFirstValue ms2 B = some [Y] := by
  have hlen : li < st.gsub.lookups.length := by
    rcases List.get?_eq_some.mp h3 with ⟨hlt, _⟩
    exact hlt
  have hreps : merge_alternates [] [X, Z] = [X, Z] :=
    merge_alternates_nil_pair X Z h9
  -- the state after feature-adder construction
  set st1 : RuleAdderState :=
    { st with
      lookupAdders := insertKey st.lookupAdders li .type1,
      featureAdderCache :=
        insertKey st.featureAdderCache fi (li, fr.featureTag) } with hst1
  have hB : getFeatureAdder st fi = .ok (st1, li, fr.featureTag) := by
    rw [getFeatureAdder, h10]
    rw [featureAdderInit, h1]
    simp only [Bind.bind, Except.bind, h2, List.length_cons, List.length_nil]
    rw [if_neg (by norm_num)]
    rw [h3]
    unfold dispatchAdder
    rw [h11]
    simp only [Option.isSome_none, Bool.false_eq_true, if_false, h4]
    rfl
  have hkind1 : lookupKey st1.lookupAdders li = some AdderKind.type1 := by
    rw [hst1]
    exact lookupKey_insertKey_self st.lookupAdders li .type1
  have htry1 : lookupTryAddRule st.gsub .type1 li fr.featureTag A [X, Z] =
      .ok (false, st.gsub, []) := by
    rw [lookupTryAddRule, h3]
    simp [Bind.bind, Except.bind]
  -- the upgraded lookup
  set mapping : SingleMapping := get_merged_mapping ms with hmapping
  set alts : AltMapping := mapping.map (fun p => (p.1, [p.2])) with halts
  set mfsv : Option Nat :=
    if lk.lookupFlag &&& 0x10 ≠ 0 then lk.markFilteringSet else none with hmfsv
  set newLk : Lookup :=
    { lookupType := 3, lookupFlag := lk.lookupFlag,
      markFilteringSet := mfsv, subTable := [.alternate alts] } with hnewLk
  set st3 : RuleAdderState :=
    { st1 with
      gsub := setLookupAt st.gsub li newLk,
      lookupAdders := insertKey st1.lookupAdders li .type3 } with hst3
  have hst1gsub : st1.gsub = st.gsub := rfl
  have hupg : upgradeLookupToAlternate st1 li = .ok st3 := by
    rw [upgradeLookupToAlternate, hkind1]
    simp only [Bind.bind, Except.bind, hst1gsub, h3, h5, h4]
    by_cases hbit : lk.lookupFlag &&& 0x10 ≠ 0
    · obtain ⟨m, hm⟩ := Option.isSome_iff_exists.mp (h12 hbit)
      simp only [hbit, if_true, hm]
      rw [hst3, hnewLk, hmfsv]
      simp [hbit, hm]
    · simp only [hbit, if_false]
      rw [hst3, hnewLk, hmfsv]
      simp [hbit]
  have hkind2 : lookupKey st3.lookupAdders li = some AdderKind.type3 := by
    rw [hst3]
    exact lookupKey_insertKey_self _ li AdderKind.type3
  -- the final lookup content
  set m2 : AltMapping := insertKey alts A [X, Z] with hm2
  set lk2 : Lookup := setAltMappings newLk [m2] with hlk2
  have hget3 : st3.gsub.lookups.get? li = some newLk := by
    rw [hst3]
    exact get?_set_self_of_lt st.gsub.lookups li newLk hlen
  have halook : lookupKey alts A = some [X] := by
    rw [halts, lookupKey_map_singleton, h6]
    rfl
  have hmerge2 : merge_alternates [X] [X, Z] = [X, Z] :=
    merge_alternates_single_pair X Z h9
  have htry2 : lookupTryAddRule st3.gsub .type3 li fr.featureTag A [X, Z] =
      .ok (true, setLookupAt st3.gsub li lk2,
           [.addedRule fr.featureTag A [X, Z]]) := by
    rw [lookupTryAddRule, hget3]
    simp only [Bind.bind, Except.bind]
    rw [if_neg (fun hc => Bool.noConfusion hc)]
    have hmapsok : lookupAltMappings newLk = Except.ok [alts] := by
      rw [hnewLk]
      rfl
    rw [hmapsok]
    simp only [Except.bind]
    rw [alternateTryAddRule]
    simp only [altScanUpdate, halook, hmerge2]
    have hne : ([X] : List GlyphName) ≠ [X, Z] := by
      intro hc
      exact absurd (congrArg List.length hc) (by simp)
    simp [hne, hlk2, hm2]
    exact fun hc => List.noConfusion hc
  refine ⟨{ st3 with gsub := setLookupAt st3.gsub li lk2 },
          [.addedRule fr.featureTag A [X, Z]], lk2, [m2], ?_, ?_, ?_, ?_, ?_, ?_, ?_, ?_⟩
  · rw [featureAddRule]
    simp only [hreps, Bind.bind, Except.bind, hB, hkind1, htry1]
    have hsteq : ({ st1 with gsub := st.gsub } : RuleAdderState) = st1 := rfl
    simp only [Bool.false_eq_true, if_false, hsteq, hupg, hkind2, htry2]
    rfl
  · show (st3.gsub.lookups.set li lk2).get? li = some lk2
    have : li < st3.gsub.lookups.length := by
      rw [hst3]
      simpa [setLookupAt] using hlen
    exact get?_set_self_of_lt _ li lk2 this
  · rfl
  · rfl
  · intro hbit
    rw [hlk2, hnewLk]
    show mfsv = lk.markFilteringSet
    rw [hmfsv, if_pos hbit]
  · rw [hlk2, hnewLk]
    rfl
  · simp only [findFirstValue, hm2, lookupKey_insertKey_self]
  · simp only [findFirstValue, hm2]
    rw [lookupKey_insertKey_other alts A B [X, Z] h8, halts,
      lookupKey_map_singleton, h7]
    rfl

/-- Fixture for the C2 witness: a type-1 single-substitution lookup with
flag 0x11, a mark-filtering set, and merged mapping `{A: X, B: Y}`. -/
def c2Lookup : Lookup :=
  { lookupType := 1, lookupFlag := 0x11, markFilteringSet := some 2,
    subTable := [.single [("A", "X"), ("B", "Y")]] }

/-- Fixture for the C2 witness: the `aalt` feature record owning lookup 0. -/
def c2FeatureRec : FeatureRecord :=
  { featureTag := "aalt",
    feature := { featureParams := none, lookupListIndex := [0] } }

/-- Fixture for the C2 witness: one `aalt` feature owning `c2Lookup`. -/
def c2State : RuleAdderState :=
  { gsub := { scriptRecord := [],
              featureRecord := [c2FeatureRec],
              lookups := [c2Lookup],
              featureVariationsFeatures := none },
    featureIndicesByTag := [], featureAdderCache := [], lookupAdders := [],
    dfltLangSys := { scriptTag := "DFLT", langSysTag := none },
    initialLookupCount := 1 }

theorem c2_lookup_upgrade_witness :
    ∃ (st2 : RuleAdderState) (log : List LogEntry) (lk2 : Lookup)
      (ms2 : List AltMapping),
      featureAddRule c2State 0 "A" ["X", "Z"] = .ok (st2, log) ∧
      st2.gsub.lookups.get? 0 = some lk2 ∧
      lk2.lookupType = 3 ∧
      lk2.lookupFlag = c2Lookup.lookupFlag ∧
      (c2Lookup.lookupFlag &&& 0x10 ≠ 0 →
        lk2.markFilteringSet = c2Lookup.markFilteringSet) ∧
      lookupAltMappings lk2 = .ok ms2 ∧
      findFirstValue ms2 "A" = some ["X", "Z"] ∧
      findFirstValue ms2 "B" = some ["Y"] :=
  c2_lookup_upgrade c2State 0 0 c2FeatureRec
    c2Lookup [[("A", "X"), ("B", "Y")]] "A" "B" "X" "Y" "Z"
    rfl rfl rfl rfl rfl (by decide) (by decide) (by decide) (by decide)
    rfl rfl (by decide)

/-! ## Feature resolution (`GSUBRuleAdder`, gsub.py:356-539) -/

/-- First script with the given tag. -/
def findScriptIdx (g : GSUB) (tag : String) : Option Nat :=
  g.scriptRecord.findIdx? (fun sr => sr.scriptTag = tag)

/-- Resolve the langsys object a `LangsysLoc` denotes. -/
def getLangSysAt (g : GSUB) (loc : LangsysLoc) : Option LangSys := do
  let si ← findScriptIdx g loc.scriptTag
  let sr ← g.scriptRecord.get? si
  match loc.langSysTag with
  | none => sr.defaultLangSys
  | some lt =>
      (sr.langSysRecord.find? (fun r => r.langSysTag = lt)).map
        (fun r => r.langSys)

def modifyFirstLSR (lt : String) (f : LangSys → LangSys) :
    List LangSysRecord → List LangSysRecord
  | [] => []
  | r :: rest =>
      if r.langSysTag = lt then { r with langSys := f r.langSys } :: rest
      else r :: modifyFirstLSR lt f rest

/-- Apply `f` to the langsys object the locator denotes (the Python code
simply mutates the object it holds a reference to). -/
def modifyLangSysAt (g : GSUB) (loc : LangsysLoc) (f : LangSys → LangSys) : GSUB :=
  match findScriptIdx g loc.scriptTag with
  | none => g
  | some si =>
      match g.scriptRecord.get? si with
      | none => g
      | some sr =>
          let sr2 :=
            match loc.langSysTag with
            | none => { sr with defaultLangSys := sr.defaultLangSys.map f }
            | some lt =>
                { sr with langSysRecord := modifyFirstLSR lt f sr.langSysRecord }
          { g with scriptRecord := g.scriptRecord.set si sr2 }

/-- The `for feature_index in langsys.FeatureIndex: if
FeatureRecord[feature_index].FeatureTag == tag` scan, short-circuiting and
raising `IndexError` on an out-of-range index. -/
def findTaggedIdx (features : List FeatureRecord) (tag : String) :
    List Nat → Except EngineError (Option Nat)
  | [] => .ok none
  | i :: rest =>
      match features.get? i with
      | none => .error (.fatal "IndexError: FeatureRecord")
      | some fr =>
          if fr.featureTag = tag then .ok (some i)
          else findTaggedIdx features tag rest

/-- One langsys of the "ensure that all langsys have the feature" loop
(gsub.py:476-498). -/
def ensureLangSysFeature (features : List FeatureRecord) (tag : String)
    (fi : Nat) (ls : LangSys) : Except EngineError LangSys := do
  match ← findTaggedIdx features tag ls.featureIndex with
  | some _ => .ok ls
  | none => .ok { ls with featureIndex := ls.featureIndex ++ [fi] }

/-- The same loop over every script's langsys objects. -/
def ensureScriptsFeature (features : List FeatureRecord) (tag : String)
    (fi : Nat) (scripts : List ScriptRecord) :
    Except EngineError (List ScriptRecord) :=
  scripts.mapM fun sr => do
    let dls ←
      match sr.defaultLangSys with
      | none => pure none
      | some ls => do
          let ls2 ← ensureLangSysFeature features tag fi ls
          pure (some ls2)
    let lsrs ← sr.langSysRecord.mapM fun r => do
      let ls2 ← ensureLangSysFeature features tag fi r.langSys
      pure { r with langSys := ls2 }
    pure { sr with defaultLangSys := dls, langSysRecord := lsrs }

/-- `GSUBRuleAdder._ensure_langsys_has_feature` (gsub.py:454-498): make the
canonical default langsys carry a feature with the tag (creating the
feature record when needed), then advertise that feature index to every
langsys that does not already reference the tag. -/
def ensure_langsys_has_feature (g : GSUB) (loc : LangsysLoc) (tag : String) :
    Except EngineError GSUB := do
  let dls ←
    match getLangSysAt g loc with
    | some ls => .ok ls
    | none => .error (.fatal "AttributeError: dflt langsys missing")
  let (g1, fi) ←
    match ← findTaggedIdx g.featureRecord tag dls.featureIndex with
    | some fi => pure (g, fi)
    | none =>
        let fr : FeatureRecord :=
          { featureTag := tag,
            feature := { featureParams := none, lookupListIndex := [] } }
        let fi := g.featureRecord.length
        let gA : GSUB := { g with featureRecord := g.featureRecord ++ [fr] }
        let gB := modifyLangSysAt gA loc
          (fun ls => { ls with featureIndex := ls.featureIndex ++ [fi] })
        pure (gB, fi)
  let scripts2 ← ensureScriptsFeature g1.featureRecord tag fi g1.scriptRecord
  .ok { g1 with scriptRecord := scripts2 }

/-- The filtering part of the `_get_feature_indices` set comprehension
(gsub.py:505-521). -/
def collectTagged (features : List FeatureRecord) (tag : String) :
    List Nat → Except EngineError (List Nat)
  | [] => .ok []
  | i :: rest => do
      let fr ←
        match features.get? i with
        | some fr => .ok fr
        | none => .error (.fatal "IndexError: FeatureRecord")
      let rest2 ← collectTagged features tag rest
      if fr.featureTag = tag then .ok (i :: rest2) else .ok rest2

/-- All feature indices with the tag reachable from any langsys.  The
Python `set` is modelled as first-occurrence de-duplication. -/
def collectAllTagged (g : GSUB) (tag : String) : Except EngineError (List Nat) := do
  let lists ← (langSysList g).mapM
    (fun ls => collectTagged g.featureRecord tag ls.featureIndex)
  .ok (dedupFirst lists.flatten)

/-- `GSUBRuleAdder._get_feature_indices` (gsub.py:500-523), with its
per-tag cache. -/
def get_feature_indices (st : RuleAdderState) (tag : String) :
    Except EngineError (RuleAdderState × List Nat) :=
  match lookupKey st.featureIndicesByTag tag with
  | some idxs => .ok (st, idxs)
  | none => do
      let g2 ← ensure_langsys_has_feature st.gsub st.dfltLangSys tag
      let idxs ← collectAllTagged g2 tag
      let st2 : RuleAdderState :=
        { st with
          gsub := g2,
          featureIndicesByTag := insertKey st.featureIndicesByTag tag idxs }
      .ok (st2, idxs)

/-- The per-feature loop of `GSUBRuleAdder.add_rule` (gsub.py:532-539).
Python mutations survive an exception, so the loop returns the state
reached so far together with the error, if any. -/
def addRuleFeaturesLoop (target : GlyphName) (reps : List GlyphName) :
    RuleAdderState → List Nat →
    RuleAdderState × List LogEntry × Option EngineError
  | st, [] => (st, [], none)
  | st, fi :: rest =>
      match featureAddRule st fi target reps with
      | .ok (st2, log) =>
          let (st3, log2, err) := addRuleFeaturesLoop target reps st2 rest
          (st3, log ++ log2, err)
      | .error e => (st, [], some e)

/-- `GSUBRuleAdder.add_rule` (gsub.py:532-539): resolve the feature indices
for the tag, then insert the rule into each.  Exceptions leave the
mutations already applied in place. -/
def adderAddRule (st : RuleAdderState) (tag : String) (target : GlyphName)
    (reps : List GlyphName) :
    RuleAdderState × List LogEntry × Option EngineError :=
  match get_feature_indices st tag with
  | .error e => (st, [], some e)
  | .ok (st1, idxs) => addRuleFeaturesLoop target reps st1 idxs

/-- Modelled from the spec: the orchestrator glue that invokes the
Substitution Rule Engine per requested rule is not under `src/` (only the
engine in `gsub.py` and an older inline variant in `main.py` are).  Per
spec sections 4.4 "Failure modes" and 7, a `GSUBInvariantViolation` is a
reported, non-fatal configuration error: the offending rule is skipped and
the run continues; any other exception is fatal and aborts the run. -/
def processRuleItem (st : RuleAdderState) (tag : String) (target : GlyphName)
    (reps : List GlyphName) :
    Except EngineError (RuleAdderState × List LogEntry) :=
  match adderAddRule st tag target reps with
  | (st2, log, none) => .ok (st2, log)
  | (st2, log, some (.invariant m)) => .ok (st2, log ++ [.skippedRule tag m])
  | (_, _, some (.fatal m)) => .error (.fatal m)

/-- Modelled from the spec: process the requested substitution rules in
order, with the per-rule error recovery of `processRuleItem`. -/
def processRuleItems :
    RuleAdderState → List (String × GlyphName × List GlyphName) →
    Except EngineError (RuleAdderState × List LogEntry)
  | st, [] => .ok (st, [])
  | st, (tag, target, reps) :: rest => do
      let (st2, log1) ← processRuleItem st tag target reps
      let (st3, log2) ← processRuleItems st2 rest
      .ok (st3, log1 ++ log2)

/-- C5: a feature that already references more than one lookup, or a
lookup of an unsupported kind, makes the engine raise
`GSUBInvariantViolation` (a configuration error, not a crash), and the
orchestrator-side recovery logs the rule as skipped and continues with the
remaining requested items — the overall run is not aborted. -/
theorem c5_invariant_nonfatal :
    (∀ (st : RuleAdderState) (fi : Nat) (fr : FeatureRecord),
        st.gsub.featureRecord.get? fi = some fr →
        fr.feature.lookupListIndex.length > 1 →
        featureAdderInit st fi =
          .error (.invariant
            ("feature " ++ fr.featureTag ++ " has multiple lookups"))) ∧
    (∀ (st : RuleAdderState) (fi li : Nat) (fr : FeatureRecord) (lk : Lookup),
        st.gsub.featureRecord.get? fi = some fr →
        fr.feature.lookupListIndex = [li] →
        st.gsub.lookups.get? li = some lk →
        lookupKey st.lookupAdders li = none →
        lk.lookupType ≠ 1 → lk.lookupType ≠ 3 → lk.lookupType ≠ 7 →
        featureAdderInit st fi =
          .error (.invariant
            ("feature " ++ fr.featureTag ++ " has lookup of unsupported type "
              ++ toString lk.lookupType))) ∧
    (∀ (st : RuleAdderState) (tag : String) (target : GlyphName)
        (reps : List GlyphName)
        (rest : List (String × GlyphName × List GlyphName))
        (st2 : RuleAdderState) (log : List LogEntry) (m : String),
        adderAddRule st tag target reps = (st2, log, some (.invariant m)) →
        processRuleItems st ((tag, target, reps) :: rest) =
          (processRuleItems st2 rest).map
            (fun r => (r.1, (log ++ [.skippedRule tag m]) ++ r.2))) := by
  refine ⟨?_, ?_, ?_⟩
  · intro st fi fr h1 hgt
    rw [featureAdderInit, h1]
    simp only [Bind.bind, Except.bind]
    rw [if_pos hgt]
  · intro st fi li fr lk h1 h2 h3 hcache hne1 hne3 hne7
    rw [featureAdderInit, h1]
    simp only [Bind.bind, Except.bind, h2, List.length_cons, List.length_nil]
    rw [if_neg (by norm_num)]
    rw [h3]
    unfold dispatchAdder
    rw [hcache]
    simp only [Option.isSome_none, Bool.false_eq_true, if_false]
    rw [if_neg hne1, if_neg hne3, if_neg hne7]
    rfl
  · intro st tag target reps rest st2 log m h
    rw [processRuleItems]
    simp only [Bind.bind, Except.bind]
    rw [processRuleItem, h]
    cases hr : processRuleItems st2 rest with
    | error e => simp [hr, Except.map]
    | ok r => simp [hr, Except.map]

/-- Fixture for the C5 witness: a feature `test` owning two lookups. -/
def c5Lk : Lookup :=
  { lookupType := 1, lookupFlag := 0, markFilteringSet := none, subTable := [] }

def c5FeatureRec : FeatureRecord :=
  { featureTag := "test",
    feature := { featureParams := none, lookupListIndex := [0, 1] } }

def c5Script : ScriptRecord :=
  { scriptTag := "DFLT",
    defaultLangSys := some
      { lookupOrder := none, reqFeatureIndex := 0xFFFF, featureIndex := [0] },
    langSysRecord := [] }

def c5State : RuleAdderState :=
  { gsub := { scriptRecord := [c5Script], featureRecord := [c5FeatureRec],
              lookups := [c5Lk, c5Lk], featureVariationsFeatures := none },
    featureIndicesByTag := [], featureAdderCache := [], lookupAdders := [],
    dfltLangSys := { scriptTag := "DFLT", langSysTag := none },
    initialLookupCount := 2 }

def c5StateAfter : RuleAdderState :=
  { c5State with featureIndicesByTag := [("test", [0])] }

theorem c5_invariant_nonfatal_witness :
    adderAddRule c5State "test" "A" ["B"] =
      (c5StateAfter, [],
       some (.invariant "feature test has multiple lookups")) ∧
    processRuleItems c5State [("test", "A", ["B"]), ("test", "A", ["B"])] =
      (processRuleItems c5StateAfter [("test", "A", ["B"])]).map
        (fun r =>
          (r.1,
           (([] : List LogEntry) ++
             [.skippedRule "test" "feature test has multiple lookups"]) ++ r.2)) :=
  ⟨by decide,
   c5_invariant_nonfatal.2.2 c5State "test" "A" ["B"] [("test", "A", ["B"])]
     c5StateAfter [] "feature test has multiple lookups" (by decide)⟩

/-! ## Lookup Order Normalizer (`reorder_lookups`, gsub.py:541-644) -/

/-- The `while insertion_position - 1 in to_be_final_lookup_indices` loop
(gsub.py:558-560), counting down from `initial_lookup_count`. -/
def computeInsertPos (tbf : List Nat) : Nat → Nat
  | 0 => 0
  | k + 1 => if k ∈ tbf then computeInsertPos tbf k else k + 1

/-- The `index_mapping` dict built in gsub.py:576-579 for the slice
rotation `new = l[0:ip] ++ l[ic:len] ++ l[ip:ic]`; `none` models the
`KeyError` raised for a lookup index outside the old range. -/
def indexMapping (ip ic len i : Nat) : Option Nat :=
  if len ≤ i then none
  else if i < ip then some i
  else if i < ic then some (i + (len - ic))
  else some (ip + (i - ic))

/-- Remap one `SubstLookupRecord` list (gsub.py:625-626); a missing key is
the uncaught `KeyError`. -/
def remapSLRs (f : Nat → Option Nat) : List Nat → Except EngineError (List Nat)
  | [] => .ok []
  | i :: rest => do
      let j ←
        match f i with
        | some j => Except.ok j
        | none => Except.error (.fatal "KeyError: index_mapping")
      let rest2 ← remapSLRs f rest
      .ok (j :: rest2)

/-- Remap one (chain) context rule set. -/
def remapRuleSet (f : Nat → Option Nat) :
    List (List Nat) → Except EngineError (List (List Nat))
  | [] => .ok []
  | r :: rest => do
      let r2 ← remapSLRs f r
      let rest2 ← remapRuleSet f rest
      .ok (r2 :: rest2)

/-- Remap the doubly nested rule sets of format-1/2 (chain) context
subtables. -/
def remapNested (f : Nat → Option Nat) :
    List (List (List Nat)) → Except EngineError (List (List (List Nat)))
  | [] => .ok []
  | rs :: rest => do
      let rs2 ← remapRuleSet f rs
      let rest2 ← remapNested f rest
      .ok (rs2 :: rest2)

/-- The per-subtable remap of gsub.py:590-626 after the single extension
unwrap: only (chain) context subtables carry `SubstLookupRecord`s. -/
def remapSubTableInner (f : Nat → Option Nat) :
    GSubTable → Except EngineError GSubTable
  | .contextFmt1 s => (remapNested f s).map GSubTable.contextFmt1
  | .contextFmt2 s => (remapNested f s).map GSubTable.contextFmt2
  | .contextFmt3 r => (remapSLRs f r).map GSubTable.contextFmt3
  | .chainFmt1 s => (remapNested f s).map GSubTable.chainFmt1
  | .chainFmt2 s => (remapNested f s).map GSubTable.chainFmt2
  | .chainFmt3 r => (remapSLRs f r).map GSubTable.chainFmt3
  | st => .ok st

/-- `if isinstance(st, ExtensionSubst): st = st.ExtSubTable` — exactly one
unwrap (gsub.py:587-588). -/
def remapSubTableTop (f : Nat → Option Nat) :
    GSubTable → Except EngineError GSubTable
  | .extensionSubst t inner => (remapSubTableInner f inner).map (.extensionSubst t)
  | st => remapSubTableInner f st

/-- Remap the subtables of one lookup (the objects are mutated in place in
Python; the lookup keeps all its other attributes). -/
def remapSubTables (f : Nat → Option Nat) :
    List GSubTable → Except EngineError (List GSubTable)
  | [] => .ok []
  | s :: rest => do
      let s2 ← remapSubTableTop f s
      let rest2 ← remapSubTables f rest
      .ok (s2 :: rest2)

def remapLookups (f : Nat → Option Nat) :
    List Lookup → Except EngineError (List Lookup)
  | [] => .ok []
  | lk :: rest => do
      let sts ← remapSubTables f lk.subTable
      let rest2 ← remapLookups f rest
      .ok ({ lk with subTable := sts } :: rest2)

/-- Remap every feature record's `LookupListIndex` (gsub.py:628-644). -/
def remapFeatures (f : Nat → Option Nat) :
    List FeatureRecord → Except EngineError (List FeatureRecord)
  | [] => .ok []
  | fr :: rest => do
      let idx2 ← remapSLRs f fr.feature.lookupListIndex
      let rest2 ← remapFeatures f rest
      .ok ({ fr with feature := { fr.feature with lookupListIndex := idx2 } } :: rest2)

/-- Remap the feature-variation substitution features. -/
def remapFeatureList (f : Nat → Option Nat) :
    List Feature → Except EngineError (List Feature)
  | [] => .ok []
  | ft :: rest => do
      let idx2 ← remapSLRs f ft.lookupListIndex
      let rest2 ← remapFeatureList f rest
      .ok ({ ft with lookupListIndex := idx2 } :: rest2)

/-- `GSUBRuleAdder.reorder_lookups` (gsub.py:541-644). -/
def reorder_lookups (st : RuleAdderState) : Except EngineError RuleAdderState :=
  let g := st.gsub
  let ic := st.initialLookupCount
  let len := g.lookups.length
  if len = ic then .ok st
  else
    let tbf :=
      ((g.featureRecord.filter (fun fr =>
          fr.featureTag = "vert" ∨ fr.featureTag = "vrt2")).map
        (fun fr => fr.feature.lookupListIndex)).flatten
    let ip := computeInsertPos tbf ic
    if ip = ic then .ok st
    else do
      let f := indexMapping ip ic len
      let newLookups :=
        g.lookups.take ip ++ g.lookups.drop ic ++
          (g.lookups.drop ip).take (ic - ip)
      let newLookups2 ← remapLookups f newLookups
      let newFeatures ← remapFeatures f g.featureRecord
      let newFV ←
        match g.featureVariationsFeatures with
        | none => pure none
        | some fs => do
            let fs2 ← remapFeatureList f fs
            pure (some fs2)
      let g2 : GSUB :=
        { g with
          lookups := newLookups2,
          featureRecord := newFeatures,
          featureVariationsFeatures := newFV }
      .ok { st with gsub := g2, lookupAdders := [] }

/-! ### Specification functions and lemmas for reordering safety -/

/-- Totalized index map: defined entries of the `index_mapping` dict, and
the identity elsewhere (where the dict would raise; a successful reorder
never hits that case). -/
def mapRef (f : Nat → Option Nat) (j : Nat) : Nat := (f j).getD j

/-- Total counterpart of `remapSubTableInner`. -/
def mapSubTableInnerSpec (f : Nat → Nat) : GSubTable → GSubTable
  | .contextFmt1 s => .contextFmt1 (s.map (fun rs => rs.map (fun r => r.map f)))
  | .contextFmt2 s => .contextFmt2 (s.map (fun rs => rs.map (fun r => r.map f)))
  | .contextFmt3 r => .contextFmt3 (r.map f)
  | .chainFmt1 s => .chainFmt1 (s.map (fun rs => rs.map (fun r => r.map f)))
  | .chainFmt2 s => .chainFmt2 (s.map (fun rs => rs.map (fun r => r.map f)))
  | .chainFmt3 r => .chainFmt3 (r.map f)
  | st => st

/-- Total counterpart of `remapSubTableTop`. -/
def mapSubTableTopSpec (f : Nat → Nat) : GSubTable → GSubTable
  | .extensionSubst t inner => .extensionSubst t (mapSubTableInnerSpec f inner)
  | st => mapSubTableInnerSpec f st

/-- Total counterpart of the per-lookup remap. -/
def mapLookupSpec (f : Nat → Nat) (lk : Lookup) : Lookup :=
  { lk with subTable := lk.subTable.map (mapSubTableTopSpec f) }

theorem computeInsertPos_le (tbf : List Nat) (k : Nat) :
    computeInsertPos tbf k ≤ k := by
  induction k with
  | zero => exact Nat.le_refl 0
  | succ k2 ih =>
      rw [computeInsertPos]
      by_cases h : k2 ∈ tbf
      · rw [if_pos h]
        exact Nat.le_succ_of_le ih
      · rw [if_neg h]

theorem remapSLRs_ok (f : Nat → Option Nat) (l l2 : List Nat)
    (h : remapSLRs f l = .ok l2) : l2 = l.map (mapRef f) := by
  induction l generalizing l2 with
  | nil => simp only [remapSLRs] at h; cases h; rfl
  | cons i rest ih =>
      simp only [remapSLRs] at h
      cases hf : f i with
      | none => rw [hf] at h; simp [Bind.bind, Except.bind] at h
      | some j =>
          rw [hf] at h
          simp only [Bind.bind, Except.bind] at h
          cases hrest : remapSLRs f rest with
          | error e => rw [hrest] at h; simp at h
          | ok r2 =>
              rw [hrest] at h
              cases h
              simp [List.map_cons, mapRef, hf, ih r2 hrest]

theorem remapRuleSet_ok (f : Nat → Option Nat) (l l2 : List (List Nat))
    (h : remapRuleSet f l = .ok l2) : l2 = l.map (fun r => r.map (mapRef f)) := by
  induction l generalizing l2 with
  | nil => simp only [remapRuleSet] at h; cases h; rfl
  | cons r rest ih =>
      simp only [remapRuleSet] at h
      cases hr : remapSLRs f r with
      | error e => rw [hr] at h; simp [Bind.bind, Except.bind] at h
      | ok r2 =>
          rw [hr] at h
          simp only [Bind.bind, Except.bind] at h
          cases hrest : remapRuleSet f rest with
          | error e => rw [hrest] at h; simp at h
          | ok rest2 =>
              rw [hrest] at h
              cases h
              simp [remapSLRs_ok f r r2 hr, ih rest2 hrest]

theorem remapNested_ok (f : Nat → Option Nat) (l l2 : List (List (List Nat)))
    (h : remapNested f l = .ok l2) :
    l2 = l.map (fun rs => rs.map (fun r => r.map (mapRef f))) := by
  induction l generalizing l2 with
  | nil => simp only [remapNested] at h; cases h; rfl
  | cons rs rest ih =>
      simp only [remapNested] at h
      cases hr : remapRuleSet f rs with
      | error e => rw [hr] at h; simp [Bind.bind, Except.bind] at h
      | ok rs2 =>
          rw [hr] at h
          simp only [Bind.bind, Except.bind] at h
          cases hrest : remapNested f rest with
          | error e => rw [hrest] at h; simp at h
          | ok rest2 =>
              rw [hrest] at h
              cases h
              simp [remapRuleSet_ok f rs rs2 hr, ih rest2 hrest]

theorem remapSubTableInner_ok (f : Nat → Option Nat) (s s2 : GSubTable)
    (h : remapSubTableInner f s = .ok s2) :
    s2 = mapSubTableInnerSpec (mapRef f) s := by
  cases s <;> simp only [remapSubTableInner, mapSubTableInnerSpec] at h ⊢ <;>
    first
    | (cases h; rfl)
    | (rename_i arg
       cases har : remapNested f arg with
       | error e => rw [har] at h; simp [Except.map] at h
       | ok a2 =>
           rw [har] at h
           simp only [Except.map] at h
           cases h
           rw [remapNested_ok f arg a2 har])
    | (rename_i arg
       cases har : remapSLRs f arg with
       | error e => rw [har] at h; simp [Except.map] at h
       | ok a2 =>
           rw [har] at h
           simp only [Except.map] at h
           cases h
           rw [remapSLRs_ok f arg a2 har])

theorem remapSubTableTop_ok (f : Nat → Option Nat) (s s2 : GSubTable)
    (h : remapSubTableTop f s = .ok s2) :
    s2 = mapSubTableTopSpec (mapRef f) s := by
  cases s with
  | extensionSubst t inner =>
      simp only [remapSubTableTop, mapSubTableTopSpec] at h ⊢
      cases har : remapSubTableInner f inner with
      | error e => rw [har] at h; simp [Except.map] at h
      | ok a2 =>
          rw [har] at h
          simp only [Except.map] at h
          cases h
          rw [remapSubTableInner_ok f inner a2 har]
  | single m => exact remapSubTableInner_ok f (GSubTable.single m) s2 h
  | alternate a => exact remapSubTableInner_ok f (GSubTable.alternate a) s2 h
  | contextFmt1 s0 => exact remapSubTableInner_ok f (GSubTable.contextFmt1 s0) s2 h
  | contextFmt2 s0 => exact remapSubTableInner_ok f (GSubTable.contextFmt2 s0) s2 h
  | contextFmt3 r => exact remapSubTableInner_ok f (GSubTable.contextFmt3 r) s2 h
  | chainFmt1 s0 => exact remapSubTableInner_ok f (GSubTable.chainFmt1 s0) s2 h
  | chainFmt2 s0 => exact remapSubTableInner_ok f (GSubTable.chainFmt2 s0) s2 h
  | chainFmt3 r => exact remapSubTableInner_ok f (GSubTable.chainFmt3 r) s2 h
  | unsupported => exact remapSubTableInner_ok f GSubTable.unsupported s2 h

theorem remapSubTables_ok (f : Nat → Option Nat) (l l2 : List GSubTable)
    (h : remapSubTables f l = .ok l2) :
    l2 = l.map (mapSubTableTopSpec (mapRef f)) := by
  induction l generalizing l2 with
  | nil => simp only [remapSubTables] at h; cases h; rfl
  | cons s rest ih =>
      simp only [remapSubTables] at h
      cases hs : remapSubTableTop f s with
      | error e => rw [hs] at h; simp [Bind.bind, Except.bind] at h
      | ok s2 =>
          rw [hs] at h
          simp only [Bind.bind, Except.bind] at h
          cases hrest : remapSubTables f rest with
          | error e => rw [hrest] at h; simp at h
          | ok rest2 =>
              rw [hrest] at h
              cases h
              simp [remapSubTableTop_ok f s s2 hs, ih rest2 hrest]

theorem remapLookups_ok (f : Nat → Option Nat) (l l2 : List Lookup)
    (h : remapLookups f l = .ok l2) :
    l2 = l.map (mapLookupSpec (mapRef f)) := by
  induction l generalizing l2 with
  | nil => simp only [remapLookups] at h; cases h; rfl
  | cons lk rest ih =>
      simp only [remapLookups] at h
      cases hs : remapSubTables f lk.subTable with
      | error e => rw [hs] at h; simp [Bind.bind, Except.bind] at h
      | ok sts =>
          rw [hs] at h
          simp only [Bind.bind, Except.bind] at h
          cases hrest : remapLookups f rest with
          | error e => rw [hrest] at h; simp at h
          | ok rest2 =>
              rw [hrest] at h
              cases h
              simp [mapLookupSpec, remapSubTables_ok f lk.subTable sts hs,
                ih rest2 hrest]

theorem remapFeatures_ok (f : Nat → Option Nat) (l l2 : List FeatureRecord)
    (h : remapFeatures f l = .ok l2) :
    l2 = l.map (fun fr =>
      { fr with feature :=
        { fr.feature with
          lookupListIndex := fr.feature.lookupListIndex.map (mapRef f) } }) := by
  induction l generalizing l2 with
  | nil => simp only [remapFeatures] at h; cases h; rfl
  | cons fr rest ih =>
      simp only [remapFeatures] at h
      cases hs : remapSLRs f fr.feature.lookupListIndex with
      | error e => rw [hs] at h; simp [Bind.bind, Except.bind] at h
      | ok idx2 =>
          rw [hs] at h
          simp only [Bind.bind, Except.bind] at h
          cases hrest : remapFeatures f rest with
          | error e => rw [hrest] at h; simp at h
          | ok rest2 =>
              rw [hrest] at h
              cases h
              simp [remapSLRs_ok f _ idx2 hs, ih rest2 hrest]

theorem remapFeatureList_ok (f : Nat → Option Nat) (l l2 : List Feature)
    (h : remapFeatureList f l = .ok l2) :
    l2 = l.map (fun ft =>
      { ft with lookupListIndex := ft.lookupListIndex.map (mapRef f) }) := by
  induction l generalizing l2 with
  | nil => simp only [remapFeatureList] at h; cases h; rfl
  | cons ft rest ih =>
      simp only [remapFeatureList] at h
      cases hs : remapSLRs f ft.lookupListIndex with
      | error e => rw [hs] at h; simp [Bind.bind, Except.bind] at h
      | ok idx2 =>
          rw [hs] at h
          simp only [Bind.bind, Except.bind] at h
          cases hrest : remapFeatureList f rest with
          | error e => rw [hrest] at h; simp at h
          | ok rest2 =>
              rw [hrest] at h
              cases h
              simp [remapSLRs_ok f _ idx2 hs, ih rest2 hrest]

theorem get?_append_left2 {α : Type} (a b : List α) (n : Nat)
    (h : n < a.length) : (a ++ b).get? n = a.get? n := by
  induction a generalizing n with
  | nil => simp at h
  | cons x xs ih =>
      cases n with
      | zero => rfl
      | succ n2 =>
          simp only [List.cons_append, List.get?_cons_succ]
          exact ih n2 (Nat.lt_of_succ_lt_succ h)

theorem get?_append_right2 {α : Type} (a b : List α) (n : Nat)
    (h : a.length ≤ n) : (a ++ b).get? n = b.get? (n - a.length) := by
  induction a generalizing n with
  | nil => simp
  | cons x xs ih =>
      cases n with
      | zero => simp at h
      | succ n2 =>
          simp only [List.cons_append, List.get?_cons_succ, List.length_cons]
          rw [ih n2 (Nat.le_of_succ_le_succ h)]
          congr 1
          omega

theorem get?_take2 {α : Type} (l : List α) (m n : Nat) (h : n < m) :
    (l.take m).get? n = l.get? n := by
  induction l generalizing m n with
  | nil => simp
  | cons x xs ih =>
      cases m with
      | zero => exact absurd h (Nat.not_lt_zero n)
      | succ m2 =>
          cases n with
          | zero => rfl
          | succ n2 =>
              simp only [List.take_succ_cons, List.get?_cons_succ]
              exact ih m2 n2 (Nat.lt_of_succ_lt_succ h)

theorem get?_drop2 {α : Type} (l : List α) (m n : Nat) :
    (l.drop m).get? n = l.get? (m + n) := by
  induction l generalizing m with
  | nil => simp
  | cons x xs ih =>
      cases m with
      | zero => simp
      | succ m2 =>
          simp only [List.drop_succ_cons]
          rw [ih m2]
          have : m2 + 1 + n = (m2 + n) + 1 := by omega
          rw [this]
          rfl

theorem get?_map2 {α β : Type} (f : α → β) (l : List α) (n : Nat) :
    (l.map f).get? n = (l.get? n).map f := by
  induction l generalizing n with
  | nil => rfl
  | cons x xs ih =>
      cases n with
      | zero => rfl
      | succ n2 =>
          simp only [List.map_cons, List.get?_cons_succ]
          exact ih n2

theorem indexMapping_some_lt (ip ic len i : Nat) (hip : ip ≤ ic)
    (hi : i < len) :
    ∃ j, indexMapping ip ic len i = some j ∧ j < len := by
  unfold indexMapping
  rw [if_neg (by omega)]
  by_cases h1 : i < ip
  · exact ⟨i, by rw [if_pos h1], by omega⟩
  · rw [if_neg h1]
    by_cases h2 : i < ic
    · exact ⟨i + (len - ic), by rw [if_pos h2], by omega⟩
    · exact ⟨ip + (i - ic), by rw [if_neg h2], by omega⟩

theorem mapRef_indexMapping_inj (ip ic len i i2 : Nat) (hip : ip ≤ ic)
    (hi : i < len) (hi2 : i2 < len)
    (h : mapRef (indexMapping ip ic len) i = mapRef (indexMapping ip ic len) i2) :
    i = i2 := by
  unfold mapRef indexMapping at h
  split_ifs at h <;>
    first
    | omega
    | (simp only [Option.getD_some, Option.getD_none] at h; omega)

theorem mapRef_indexMapping_identity (ip ic len i : Nat) (hic : len ≤ ic)
    (hi : i < len) : mapRef (indexMapping ip ic len) i = i := by
  unfold mapRef indexMapping
  split_ifs <;>
    first
    | omega
    | (simp only [Option.getD_some, Option.getD_none]; try omega)

theorem newLookups_get {α : Type} (l : List α) (ip ic : Nat) (hip : ip ≤ ic)
    (hic : ic ≤ l.length) (i : Nat) (hi : i < l.length) :
    (l.take ip ++ l.drop ic ++ (l.drop ip).take (ic - ip)).get?
        (mapRef (indexMapping ip ic l.length) i) = l.get? i := by
  have hipl : ip ≤ l.length := Nat.le_trans hip hic
  have hA : (l.take ip).length = ip := by
    rw [List.length_take]
    omega
  have hB : (l.drop ic).length = l.length - ic := List.length_drop ic l
  have hAB : (l.take ip ++ l.drop ic).length = ip + (l.length - ic) := by
    rw [List.length_append, hA, hB]
  by_cases h1 : i < ip
  · have hf : mapRef (indexMapping ip ic l.length) i = i := by
      unfold mapRef indexMapping
      rw [if_neg (by omega), if_pos h1]
      rfl
    rw [hf]
    rw [get?_append_left2 _ _ i (by rw [hAB]; omega)]
    rw [get?_append_left2 _ _ i (by rw [hA]; omega)]
    exact get?_take2 l ip i h1
  · by_cases h2 : i < ic
    · have hf : mapRef (indexMapping ip ic l.length) i = i + (l.length - ic) := by
        unfold mapRef indexMapping
        rw [if_neg (by omega), if_neg h1, if_pos h2]
        rfl
      rw [hf]
      rw [get?_append_right2 _ _ _ (by rw [hAB]; omega)]
      rw [hAB]
      rw [get?_take2 _ _ _ (by omega)]
      rw [get?_drop2]
      congr 1
      omega
    · have hf : mapRef (indexMapping ip ic l.length) i = ip + (i - ic) := by
        unfold mapRef indexMapping
        rw [if_neg (by omega), if_neg h1, if_neg h2]
        rfl
      rw [hf]
      rw [get?_append_left2 _ _ _ (by rw [hAB]; omega)]
      rw [get?_append_right2 _ _ _ (by rw [hA]; omega)]
      rw [hA]
      rw [get?_drop2]
      congr 1
      omega

theorem mapSubTableInnerSpec_id (s : GSubTable) :
    mapSubTableInnerSpec (fun i => i) s = s := by
  cases s <;> first | rfl | simp [mapSubTableInnerSpec]

theorem mapSubTableTopSpec_id (s : GSubTable) :
    mapSubTableTopSpec (fun i => i) s = s := by
  cases s with
  | extensionSubst t inner =>
      show GSubTable.extensionSubst t (mapSubTableInnerSpec (fun i => i) inner) =
        GSubTable.extensionSubst t inner
      rw [mapSubTableInnerSpec_id]
  | single m => exact mapSubTableInnerSpec_id (GSubTable.single m)
  | alternate a => exact mapSubTableInnerSpec_id (GSubTable.alternate a)
  | contextFmt1 s0 => exact mapSubTableInnerSpec_id (GSubTable.contextFmt1 s0)
  | contextFmt2 s0 => exact mapSubTableInnerSpec_id (GSubTable.contextFmt2 s0)
  | contextFmt3 r => exact mapSubTableInnerSpec_id (GSubTable.contextFmt3 r)
  | chainFmt1 s0 => exact mapSubTableInnerSpec_id (GSubTable.chainFmt1 s0)
  | chainFmt2 s0 => exact mapSubTableInnerSpec_id (GSubTable.chainFmt2 s0)
  | chainFmt3 r => exact mapSubTableInnerSpec_id (GSubTable.chainFmt3 r)
  | unsupported => exact mapSubTableInnerSpec_id GSubTable.unsupported

theorem mapLookupSpec_id (lk : Lookup) : mapLookupSpec (fun i => i) lk = lk := by
  have h2 : lk.subTable.map (mapSubTableTopSpec (fun i => i)) = lk.subTable := by
    rw [List.map_congr_left (fun s _ => mapSubTableTopSpec_id s)]
    exact List.map_id lk.subTable
  rw [mapLookupSpec, h2]

/-- The identity choice of index map satisfies the reordering-safety
conclusion when the call leaves the state unchanged. -/
theorem c3_id_choice (st : RuleAdderState) :
    ∃ f : Nat → Nat,
      st.gsub.lookups.length = st.gsub.lookups.length ∧
      (∀ i, i < st.gsub.lookups.length → f i < st.gsub.lookups.length) ∧
      (∀ i j, i < st.gsub.lookups.length → j < st.gsub.lookups.length →
        f i = f j → i = j) ∧
      (∀ i, i < st.gsub.lookups.length →
        st.gsub.lookups.get? (f i) =
          (st.gsub.lookups.get? i).map (mapLookupSpec f)) ∧
      st.gsub.featureRecord = st.gsub.featureRecord.map
        (fun fr => { fr with feature :=
          { fr.feature with
            lookupListIndex := fr.feature.lookupListIndex.map f } }) ∧
      st.gsub.featureVariationsFeatures = st.gsub.featureVariationsFeatures.map
        (fun fs => fs.map (fun ft =>
          { ft with lookupListIndex := ft.lookupListIndex.map f })) := by
  refine ⟨fun i => i, rfl, fun i hi => hi, fun i j _ _ hij => hij, ?_, ?_, ?_⟩
  · intro i _
    cases hg : st.gsub.lookups.get? i with
    | none => rfl
    | some lk => simp [mapLookupSpec_id]
  · have h2 : ∀ fr : FeatureRecord,
        ({ fr with feature :=
          { fr.feature with
            lookupListIndex :=
              fr.feature.lookupListIndex.map (fun i => i) } }) = fr := by
      intro fr
      simp
    rw [List.map_congr_left (fun fr _ => h2 fr)]
    exact (List.map_id _).symm
  · cases hv : st.gsub.featureVariationsFeatures with
    | none => rfl
    | some fs =>
        simp only [Option.map_some']
        have h2 : ∀ ft : Feature,
            ({ ft with lookupListIndex := ft.lookupListIndex.map (fun i => i) })
              = ft := by
          intro ft
          simp
        rw [List.map_congr_left (fun ft _ => h2 ft)]
        simp

/-- C3: after `reorder_lookups` runs, the lookup list is a permutation of
the previous list (an injective position map `f` onto the same length
carries every old lookup to its new position, with its attributes intact
and only its nested lookup-index references rewritten by `f`), and every
lookup-index reference site — every Feature's `LookupListIndex`, every
feature-variation substitution record's feature, and every
`SubstLookupRecord` nested in any supported (chain) context subtable
format, including extension-wrapped ones — is rewritten by the same `f`,
so each reference resolves to the same lookup object it referenced before
the reorder. -/
theorem c3_reorder_safety (st st2 : RuleAdderState)
    (h : reorder_lookups st = .ok st2) :
    ∃ f : Nat → Nat,
      st2.gsub.lookups.length = st.gsub.lookups.length ∧
      (∀ i, i < st.gsub.lookups.length → f i < st.gsub.lookups.length) ∧
      (∀ i j, i < st.gsub.lookups.length → j < st.gsub.lookups.length →
        f i = f j → i = j) ∧
      (∀ i, i < st.gsub.lookups.length →
        st2.gsub.lookups.get? (f i) =
          (st.gsub.lookups.get? i).map (mapLookupSpec f)) ∧
      st2.gsub.featureRecord = st.gsub.featureRecord.map
        (fun fr => { fr with feature :=
          { fr.feature with
            lookupListIndex := fr.feature.lookupListIndex.map f } }) ∧
      st2.gsub.featureVariationsFeatures = st.gsub.featureVariationsFeatures.map
        (fun fs => fs.map (fun ft =>
          { ft with lookupListIndex := ft.lookupListIndex.map f })) := by
  simp only [reorder_lookups] at h
  by_cases hlen : st.gsub.lookups.length = st.initialLookupCount
  · rw [if_pos hlen] at h
    cases h
    exact c3_id_choice st
  · rw [if_neg hlen] at h
    set tbf :=
      ((st.gsub.featureRecord.filter (fun fr =>
          fr.featureTag = "vert" ∨ fr.featureTag = "vrt2")).map
        (fun fr => fr.feature.lookupListIndex)).flatten with htbf
    set ip := computeInsertPos tbf st.initialLookupCount with hip0
    by_cases hipic : ip = st.initialLookupCount
    · rw [if_pos hipic] at h
      cases h
      exact c3_id_choice st
    · rw [if_neg hipic] at h
      simp only [Bind.bind, Except.bind] at h
      set ic := st.initialLookupCount with hic0
      set len := st.gsub.lookups.length with hlen0
      set f0 := indexMapping ip ic len with hf0
      set newLookups :=
        st.gsub.lookups.take ip ++ st.gsub.lookups.drop ic ++
          (st.gsub.lookups.drop ip).take (ic - ip) with hnl
      cases hRL : remapLookups f0 newLookups with
      | error e => rw [hRL] at h; simp at h
      | ok nl2 =>
          rw [hRL] at h
          cases hRF : remapFeatures f0 st.gsub.featureRecord with
          | error e => rw [hRF] at h; simp at h
          | ok nf2 =>
              rw [hRF] at h
              have hipic2 : ip ≤ ic := computeInsertPos_le tbf ic
              have hnl2 : nl2 = newLookups.map (mapLookupSpec (mapRef f0)) :=
                remapLookups_ok f0 newLookups nl2 hRL
              have hnf2 := remapFeatures_ok f0 st.gsub.featureRecord nf2 hRF
              have hlenNew : newLookups.length = len := by
                rw [hnl]
                simp only [List.length_append, List.length_take,
                  List.length_drop]
                omega
              cases hfv : st.gsub.featureVariationsFeatures with
              | none =>
                  rw [hfv] at h
                  cases h
                  refine ⟨mapRef f0, ?_, ?_, ?_, ?_, ?_, ?_⟩
                  · simp [hnl2, hlenNew]
                  · intro i hi
                    obtain ⟨j, hj, hjlt⟩ :=
                      indexMapping_some_lt ip ic len i hipic2 hi
                    rw [mapRef, hf0, hj]
                    exact hjlt
                  · intro i j hi hj hf
                    exact mapRef_indexMapping_inj ip ic len i j hipic2 hi hj hf
                  · intro i hi
                    show nl2.get? (mapRef f0 i) = _
                    rw [hnl2, get?_map2]
                    by_cases hic2 : ic ≤ len
                    · rw [hnl, hf0]
                      rw [newLookups_get st.gsub.lookups ip ic hipic2 hic2 i hi]
                    · have hbig : len ≤ ic := by omega
                      have hnleq : newLookups = st.gsub.lookups := by
                        rw [hnl]
                        have hd : st.gsub.lookups.drop ic = [] :=
                          List.drop_eq_nil_of_le (by omega)
                        have ht : (st.gsub.lookups.drop ip).take (ic - ip) =
                            st.gsub.lookups.drop ip := by
                          apply List.take_of_length_le
                          rw [List.length_drop]
                          omega
                        rw [hd, ht, List.append_nil]
                        exact List.take_append_drop ip st.gsub.lookups
                      rw [hnleq, hf0,
                        mapRef_indexMapping_identity ip ic len i hbig hi]
                  · exact hnf2
                  · rfl
              | some fs =>
                  rw [hfv] at h
                  simp only [Bind.bind, Except.bind, pure, Except.pure] at h
                  cases hRV : remapFeatureList f0 fs with
                  | error e => rw [hRV] at h; simp at h
                  | ok fs2 =>
                      rw [hRV] at h
                      cases h
                      have hfs2 := remapFeatureList_ok f0 fs fs2 hRV
                      refine ⟨mapRef f0, ?_, ?_, ?_, ?_, ?_, ?_⟩
                      · simp [hnl2, hlenNew]
                      · intro i hi
                        obtain ⟨j, hj, hjlt⟩ :=
                          indexMapping_some_lt ip ic len i hipic2 hi
                        rw [mapRef, hf0, hj]
                        exact hjlt
                      · intro i j hi hj hf
                        exact mapRef_indexMapping_inj ip ic len i j hipic2 hi hj hf
                      · intro i hi
                        show nl2.get? (mapRef f0 i) = _
                        rw [hnl2, get?_map2]
                        by_cases hic2 : ic ≤ len
                        · rw [hnl, hf0]
                          rw [newLookups_get st.gsub.lookups ip ic hipic2 hic2 i hi]
                        · have hbig : len ≤ ic := by omega
                          have hnleq : newLookups = st.gsub.lookups := by
                            rw [hnl]
                            have hd : st.gsub.lookups.drop ic = [] :=
                              List.drop_eq_nil_of_le (by omega)
                            have ht : (st.gsub.lookups.drop ip).take (ic - ip) =
                                st.gsub.lookups.drop ip := by
                              apply List.take_of_length_le
                              rw [List.length_drop]
                              omega
                            rw [hd, ht, List.append_nil]
                            exact List.take_append_drop ip st.gsub.lookups
                          rw [hnleq, hf0,
                            mapRef_indexMapping_identity ip ic len i hbig hi]
                      · exact hnf2
                      · simp only [Option.map_some']
                        exact congrArg some hfs2

/-- Fixtures for the C3 witness: two lookups were appended after a font
whose two original lookups are both referenced by a `vert` feature, plus a
context lookup with nested and extension-wrapped lookup references. -/
def c3Lk (n : Nat) : Lookup :=
  { lookupType := 1, lookupFlag := n, markFilteringSet := none, subTable := [] }

def c3Ctx : Lookup :=
  { lookupType := 5, lookupFlag := 99, markFilteringSet := none,
    subTable := [.contextFmt1 [[[2], [0]]], .extensionSubst 6 (.chainFmt3 [3])] }

def c3Fr1 : FeatureRecord :=
  { featureTag := "vert",
    feature := { featureParams := none, lookupListIndex := [0, 1] } }

def c3Fr2 : FeatureRecord :=
  { featureTag := "liga",
    feature := { featureParams := none, lookupListIndex := [2] } }

def c3Fv : Feature := { featureParams := none, lookupListIndex := [3] }

def c3State : RuleAdderState :=
  { gsub := { scriptRecord := [],
              featureRecord := [c3Fr1, c3Fr2],
              lookups := [c3Lk 10, c3Ctx, c3Lk 12, c3Lk 13],
              featureVariationsFeatures := some [c3Fv] },
    featureIndicesByTag := [], featureAdderCache := [],
    lookupAdders := [(0, .type1)],
    dfltLangSys := { scriptTag := "DFLT", langSysTag := none },
    initialLookupCount := 2 }

def c3CtxAfter : Lookup :=
  { lookupType := 5, lookupFlag := 99, markFilteringSet := none,
    subTable := [.contextFmt1 [[[0], [2]]], .extensionSubst 6 (.chainFmt3 [1])] }

def c3Fr1After : FeatureRecord :=
  { featureTag := "vert",
    feature := { featureParams := none, lookupListIndex := [2, 3] } }

def c3Fr2After : FeatureRecord :=
  { featureTag := "liga",
    feature := { featureParams := none, lookupListIndex := [0] } }

def c3FvAfter : Feature := { featureParams := none, lookupListIndex := [1] }

def c3StateAfter : RuleAdderState :=
  { gsub := { scriptRecord := [],
              featureRecord := [c3Fr1After, c3Fr2After],
              lookups := [c3Lk 12, c3Lk 13, c3Lk 10, c3CtxAfter],
              featureVariationsFeatures := some [c3FvAfter] },
    featureIndicesByTag := [], featureAdderCache := [], lookupAdders := [],
    dfltLangSys := { scriptTag := "DFLT", langSysTag := none },
    initialLookupCount := 2 }

theorem c3_reorder_safety_witness :
    reorder_lookups c3State = .ok c3StateAfter ∧
    ∃ f : Nat → Nat,
      c3StateAfter.gsub.lookups.length = c3State.gsub.lookups.length ∧
      (∀ i, i < c3State.gsub.lookups.length →
        f i < c3State.gsub.lookups.length) ∧
      (∀ i j, i < c3State.gsub.lookups.length →
        j < c3State.gsub.lookups.length → f i = f j → i = j) ∧
      (∀ i, i < c3State.gsub.lookups.length →
        c3StateAfter.gsub.lookups.get? (f i) =
          (c3State.gsub.lookups.get? i).map (mapLookupSpec f)) ∧
      c3StateAfter.gsub.featureRecord = c3State.gsub.featureRecord.map
        (fun fr => { fr with feature :=
          { fr.feature with
            lookupListIndex := fr.feature.lookupListIndex.map f } }) ∧
      c3StateAfter.gsub.featureVariationsFeatures =
        c3State.gsub.featureVariationsFeatures.map
          (fun fs => fs.map (fun ft =>
            { ft with lookupListIndex := ft.lookupListIndex.map f })) :=
  ⟨rfl, c3_reorder_safety c3State c3StateAfter rfl⟩

/-! ## A whole run of the engine

The orchestrator `addglyph` (main.py:636-668) drives the phases in order:
Character Map Editor, Variation Map Editor, Legacy Compatibility Migrator
(only when substitution rules are queued), Substitution Rule Engine, and
finally save.  The `src/` orchestrator predates the `gsub.py` engine (its
inline rule adder takes no language-system list and has no per-rule error
recovery), so the composition below wires the `main.py` phases to the
`gsub.py` engine as the spec describes. -/

/-- A glyph spec of the orchestrator input: a raw glyph index, a bare
codepoint, or a (codepoint, selector) pair (main.py:30). -/
inductive GlyphSpec where
  | gid (glyphId : Nat)
  | char (base : Nat) (selector : Option Nat)
  deriving Repr, DecidableEq

/-- The parts of the loaded font that the engine reads and writes. -/
structure Font where
  sub4 : Option CMap
  sub12 : Option CMap
  sub14 : Option UVSDict
  glyphOrder : List GlyphName
  gsub : GSUB
  deriving Repr, DecidableEq

/-- One run's requested items (the parsed inputs of `addglyph`,
main.py:636-641), together with the startup language systems handed to
`GSUBRuleAdder`. -/
structure Request where
  chars : List Nat
  vs : List ((Nat × Nat) × Bool)
  gsubRules : List (String × List (GlyphSpec × GlyphSpec))
  languageSystems : List (String × String)
  deriving Repr, DecidableEq

/-- The `for char in chars` loop of `addglyph` (main.py:644-646). -/
def processChars : Handler → List Nat → Handler × List LogEntry
  | h, [] => (h, [])
  | h, cp :: rest =>
      let (h1, log1) := h.add_glyph cp
      let (h2, log2) := processChars h1 rest
      (h2, log1 ++ log2)

/-- The `for (base, selector), is_default in vs.items()` loop of
`addglyph` (main.py:647-648). -/
def processVS (sub14 : Option UVSDict) :
    Handler → List ((Nat × Nat) × Bool) → Handler × List LogEntry
  | h, [] => (h, [])
  | h, ((b, s), d) :: rest =>
      let (h1, log1) := h.add_vs_glyph sub14 b s d
      let (h2, log2) := processVS sub14 h1 rest
      (h2, log1 ++ log2)

/-- Stable insertion sort (`list.sort` with a key function is stable):
insert before the first strictly greater element. -/
def insortBy {α : Type} (le : α → α → Bool) (x : α) : List α → List α
  | [] => [x]
  | y :: rest => if le x y then x :: y :: rest else y :: insortBy le x rest

/-- Stable sort by folding `insortBy`. -/
def sortBy {α : Type} (le : α → α → Bool) : List α → List α
  | [] => []
  | x :: rest => insortBy le x (sortBy le rest)

/-- `create_langsys` (gsub.py:378-382). -/
def createLangsys : LangSys :=
  { lookupOrder := none, reqFeatureIndex := 0xFFFF, featureIndex := [] }

/-- Apply `f` to the first script record carrying the tag (the Python code
mutates the record its `for ... break` loop stopped at). -/
def modifyFirstScript (tag : String) (f : ScriptRecord → ScriptRecord) :
    List ScriptRecord → List ScriptRecord
  | [] => []
  | sr :: rest =>
      if sr.scriptTag = tag then f sr :: rest
      else sr :: modifyFirstScript tag f rest

/-- `ensure_langsys` (gsub.py:384-427): find or create the script record
(created records are appended and the script list re-sorted by tag), then
ensure the default or named langsys exists (created langsys records are
appended and the langsys list re-sorted by tag). -/
def ensure_langsys (g : GSUB) (script_tag langsys_tag : String) : GSUB :=
  let scripts :=
    if g.scriptRecord.any (fun sr => sr.scriptTag = script_tag) then
      g.scriptRecord
    else
      sortBy (fun a b => a.scriptTag ≤ b.scriptTag)
        (g.scriptRecord ++
          [({ scriptTag := script_tag, defaultLangSys := none,
              langSysRecord := [] } : ScriptRecord)])
  let scripts2 :=
    modifyFirstScript script_tag (fun sr =>
      if langsys_tag = "dflt" then
        match sr.defaultLangSys with
        | some _ => sr
        | none => { sr with defaultLangSys := some createLangsys }
      else if sr.langSysRecord.any (fun r => r.langSysTag = langsys_tag) then
        sr
      else
        { sr with
          langSysRecord :=
            sortBy (fun a b => a.langSysTag ≤ b.langSysTag)
              (sr.langSysRecord ++
                [({ langSysTag := langsys_tag,
                    langSys := createLangsys } : LangSysRecord)]) }) scripts
  { g with scriptRecord := scripts2 }

/-- `GSUBRuleAdder._get_dflt_langsys` (gsub.py:374-452): ensure every
startup (script, langsys) pair exists, then pick the langsys the adder
treats as canonical: the `DFLT` script's default langsys when a `DFLT`
script exists (asserting it is not `None`), else the langsys of the first
startup pair (an empty startup list raises `IndexError`).  The named-tag
fallbacks raise `KeyError`; a `dflt` fallback whose default langsys is
`None` surfaces later as the `AttributeError` modelled at the use site. -/
def get_dflt_langsys (g : GSUB) (langsys_tags : List (String × String)) :
    Except EngineError (GSUB × LangsysLoc) :=
  let g1 := langsys_tags.foldl (fun acc p => ensure_langsys acc p.1 p.2) g
  if g1.scriptRecord.any (fun sr => sr.scriptTag = "DFLT") then
    match getLangSysAt g1 { scriptTag := "DFLT", langSysTag := none } with
    | some _ => .ok (g1, { scriptTag := "DFLT", langSysTag := none })
    | none => .error (.fatal "AssertionError: dflt_langsys is not None")
  else
    match langsys_tags with
    | [] => .error (.fatal "IndexError: langsys_tags")
    | (s0, l0) :: _ =>
        match (g1.scriptRecord.find? (fun sr => sr.scriptTag = s0)) with
        | none => .error (.fatal "KeyError: script_tag")
        | some sr =>
            if l0 = "dflt" then
              .ok (g1, { scriptTag := s0, langSysTag := none })
            else if sr.langSysRecord.any (fun r => r.langSysTag = l0) then
              .ok (g1, { scriptTag := s0, langSysTag := some l0 })
            else .error (.fatal "KeyError: langsys_tag")

/-- `GSUBRuleAdder.__init__` (gsub.py:357-372): empty caches, the canonical
default langsys, and the initial lookup count snapshot. -/
def mkRuleAdder (g : GSUB) (langsys_tags : List (String × String)) :
    Except EngineError RuleAdderState := do
  let (g1, loc) ← get_dflt_langsys g langsys_tags
  .ok { gsub := g1, featureIndicesByTag := [], featureAdderCache := [],
        lookupAdders := [], dfltLangSys := loc,
        initialLookupCount := g1.lookups.length }

/-- `AddGlyphHandler.get_glyphname_from_gspec` (main.py:582-598).  A glyph
index is resolved against the glyph order (out of range raises inside
`TTFont.getGlyphName`); a bare codepoint goes through `_ensure_glyph`; a
(codepoint, selector) pair must already be mapped, else
`AddGlyphUserError` aborts the run. -/
def get_glyphname_from_gspec (sub14 : Option UVSDict) (h : Handler) :
    GlyphSpec → Except EngineError (Handler × List LogEntry × GlyphName)
  | .gid i =>
      match h.glyphOrder.get? i with
      | some n => .ok (h, [], n)
      | none => .error (.fatal "IndexError: glyphOrder")
  | .char b none =>
      let (h1, log, n, _) := h.ensure_glyph b ("U+" ++ hex4 b)
      .ok (h1, log, n)
  | .char b (some sel) =>
      let (h1, vcm) := h.get_font_vs_cmap sub14
      match vcm.lookup_glyphname b sel with
      | some n => .ok (h1, [], n)
      | none => .error (.fatal "AddGlyphUserError: Glyph not found")

/-- `alternate_by_input.setdefault(input_name, []).append(alternate_name)`
(main.py:657-658). -/
def appendAlt : List (GlyphName × List GlyphName) → GlyphName → GlyphName →
    List (GlyphName × List GlyphName)
  | [], k, v => [(k, [v])]
  | (k1, l) :: rest, k, v =>
      if k1 = k then (k1, l ++ [v]) :: rest
      else (k1, l) :: appendAlt rest k v

/-- The resolution and grouping loop run for one feature tag
(main.py:653-658). -/
def buildAlternateByInput (sub14 : Option UVSDict) :
    Handler → List (GlyphName × List GlyphName) →
    List (GlyphSpec × GlyphSpec) →
    Except EngineError
      (Handler × List LogEntry × List (GlyphName × List GlyphName))
  | h, acc, [] => .ok (h, [], acc)
  | h, acc, (i, a) :: rest => do
      let (h1, log1, iname) ← get_glyphname_from_gspec sub14 h i
      let (h2, log2, aname) ← get_glyphname_from_gspec sub14 h1 a
      let (h3, log3, grouped) ←
        buildAlternateByInput sub14 h2 (appendAlt acc iname aname) rest
      .ok (h3, log1 ++ log2 ++ log3, grouped)

/-- The lazily created `GSUBRuleAdder` together with the GSUB table as it
stood before creation (`AddGlyphHandler._gsub_adder`). -/
structure GsubHolder where
  raw : GSUB
  adder : Option RuleAdderState
  deriving Repr, DecidableEq

/-- The GSUB table as the holder currently sees it. -/
def GsubHolder.current (x : GsubHolder) : GSUB :=
  match x.adder with
  | some st => st.gsub
  | none => x.raw

/-- `AddGlyphHandler._get_gsub_adder` (main.py:601-604): construct the rule
adder on first use. -/
def getGsubAdder (x : GsubHolder) (langsys_tags : List (String × String)) :
    Except EngineError (GsubHolder × RuleAdderState) :=
  match x.adder with
  | some st => .ok (x, st)
  | none =>
      match mkRuleAdder x.raw langsys_tags with
      | .ok st => .ok ({ x with adder := some st }, st)
      | .error e => .error e

/-- Modelled from the spec: the grouped rule items of one feature tag are
handed to the Substitution Rule Engine one by one (main.py:659-662), with
the per-rule `GSUBInvariantViolation` recovery of `processRuleItem` (spec
sections 4.4 and 7). -/
def processItemsForTag (langsys_tags : List (String × String)) (tag : String) :
    GsubHolder → List (GlyphName × List GlyphName) →
    Except EngineError (GsubHolder × List LogEntry)
  | x, [] => .ok (x, [])
  | x, (target, alts) :: rest => do
      let (x1, st) ← getGsubAdder x langsys_tags
      let (st2, log1) ← processRuleItem st tag target alts
      let (x2, log2) ←
        processItemsForTag langsys_tags tag { x1 with adder := some st2 } rest
      .ok (x2, log1 ++ log2)

/-- Modelled from the spec: the per-tag loop of `addglyph`
(main.py:650-662) — resolve and group the pairs of each tag, then insert
the grouped rules. -/
def processRules (sub14 : Option UVSDict)
    (langsys_tags : List (String × String)) :
    Handler → GsubHolder → List (String × List (GlyphSpec × GlyphSpec)) →
    Except EngineError (Handler × GsubHolder × List LogEntry)
  | h, x, [] => .ok (h, x, [])
  | h, x, (tag, pairs) :: rest => do
      let (h1, log1, grouped) ← buildAlternateByInput sub14 h [] pairs
      let (x1, log2) ← processItemsForTag langsys_tags tag x grouped
      let (h2, x2, log3) ← processRules sub14 langsys_tags h1 x1 rest
      .ok (h2, x2, log1 ++ log2 ++ log3)

/-- Modelled from the spec (sections 2 and 5 fix the phase order): one
whole run over the loaded font — Character Map Editor, Variation Map
Editor, Legacy Compatibility Migrator (only when substitution rules are
queued, main.py:650-651), Substitution Rule Engine, Lookup Order
Normalizer — returning the final font state handed to save together with
the item-outcome log.  The phase bodies are the `src/` functions above;
only their composition follows the spec. -/
def runEngine (font : Font) (r : Request) :
    Except EngineError (Font × List LogEntry) := do
  let cm ←
    match FontCMap.init font.sub4 font.sub12 with
    | .ok cm => Except.ok cm
    | .error e => Except.error (EngineError.fatal e)
  let h0 : Handler :=
    { cmap := cm, vscmap := none, glyphOrder := font.glyphOrder,
      addedCount := 0 }
  let (h1, log1) := processChars h0 r.chars
  let (h2, log2) := processVS font.sub14 h1 r.vs
  let g1 ←
    if r.gsubRules.isEmpty then Except.ok font.gsub
    else
      match undo_gsub_win7_fix font.gsub with
      | .ok g => Except.ok g
      | .error e => Except.error (EngineError.fatal e)
  let (h3, x1, log3) ←
    processRules font.sub14 r.languageSystems h2
      { raw := g1, adder := none } r.gsubRules
  let x2 ←
    match x1.adder with
    | none => Except.ok x1
    | some st =>
        match reorder_lookups st with
        | .ok st2 => Except.ok { x1 with adder := some st2 }
        | .error e => Except.error e
  let font2 : Font :=
    { sub4 := h3.cmap.sub4,
      sub12 := some h3.cmap.subt,
      sub14 :=
        match h3.vscmap with
        | some v => some v.uvsDict
        | none => font.sub14,
      glyphOrder := h3.glyphOrder,
      gsub := x2.current }
  .ok (font2, log1 ++ log2 ++ log3)

/-- Log entries that report an item as already present. -/
def isAlreadyLog : LogEntry → Bool
  | .alreadyCodepoint _ => true
  | .alreadyVS _ _ => true
  | .alreadyRule _ _ _ => true
  | _ => false

/-- Log entries that report a skipped substitution rule. -/
def isSkipLog : LogEntry → Bool
  | .skippedRule _ _ => true
  | _ => false

/-! ### Merge and insertion lemmas shared by the run-level claims -/

theorem mem_dedupFirstAux {α : Type} [DecidableEq α] (l : List α) :
    ∀ (seen : List α) (x : α), x ∈ dedupFirstAux seen l ↔ (x ∈ l ∧ x ∉ seen) := by
  induction l with
  | nil => intro seen x; simp [dedupFirstAux]
  | cons a rest ih =>
      intro seen x
      by_cases ha : a ∈ seen
      · rw [dedupFirstAux, if_pos ha, ih]
        constructor
        · rintro ⟨hx, hns⟩
          exact ⟨List.mem_cons_of_mem a hx, hns⟩
        · rintro ⟨hx, hns⟩
          rcases List.mem_cons.mp hx with rfl | hx2
          · exact absurd ha hns
          · exact ⟨hx2, hns⟩
      · rw [dedupFirstAux, if_neg ha]
        constructor
        · intro hx
          rcases List.mem_cons.mp hx with rfl | hx2
          · exact ⟨List.mem_cons_self x rest, ha⟩
          · obtain ⟨h1, h2⟩ := (ih (a :: seen) x).mp hx2
            refine ⟨List.mem_cons_of_mem a h1, fun hc => h2 (List.mem_cons_of_mem a hc)⟩
        · rintro ⟨hx, hns⟩
          rcases List.mem_cons.mp hx with rfl | hx2
          · exact List.mem_cons_self x _
          · by_cases hxa : x = a
            · subst hxa; exact List.mem_cons_self x _
            · refine List.mem_cons_of_mem a ((ih (a :: seen) x).mpr ⟨hx2, ?_⟩)
              intro hc
              rcases List.mem_cons.mp hc with h | h
              · exact hxa h
              · exact hns h

theorem mem_dedupFirst {α : Type} [DecidableEq α] (l : List α) (x : α) :
    x ∈ dedupFirst l ↔ x ∈ l := by
  rw [dedupFirst, mem_dedupFirstAux]
  simp

theorem mem_merge_alternates (l r : List GlyphName) (x : GlyphName) :
    x ∈ merge_alternates l r ↔ (x ∈ l ∨ x ∈ r) := by
  rw [merge_alternates, List.mem_append]
  constructor
  · rintro (h | h)
    · exact Or.inl h
    · exact Or.inr ((mem_dedupFirst r x).mp (List.mem_of_mem_filter h))
  · rintro (h | h)
    · exact Or.inl h
    · by_cases hl : x ∈ l
      · exact Or.inl hl
      · refine Or.inr (List.mem_filter.mpr ⟨(mem_dedupFirst r x).mpr h, ?_⟩)
        simpa using hl

theorem merge_alternates_eq_self (l r : List GlyphName)
    (h : ∀ e ∈ r, e ∈ l) : merge_alternates l r = l := by
  rw [merge_alternates]
  have : (dedupFirst r).filter (fun e => e ∉ l) = [] := by
    rw [List.filter_eq_nil]
    intro a ha
    have := h a ((mem_dedupFirst r a).mp ha)
    simpa using this
  rw [this, List.append_nil]

theorem merge_alternates_idem (l r : List GlyphName) :
    merge_alternates (merge_alternates l r) r = merge_alternates l r :=
  merge_alternates_eq_self _ r
    (fun e he => (mem_merge_alternates l r e).mpr (Or.inr he))

theorem insertKey_self {κ α : Type} [DecidableEq κ] (m : List (κ × α))
    (k : κ) (v : α) (h : lookupKey m k = some v) : insertKey m k v = m := by
  induction m with
  | nil => simp [lookupKey] at h
  | cons p rest ih =>
      rw [lookupKey] at h
      rw [insertKey]
      by_cases hk : p.1 = k
      · rw [if_pos hk] at h ⊢
        injection h with h
        rw [← hk, ← h]
      · rw [if_neg hk] at h ⊢
        rw [ih h]

/-- Re-running `altScanUpdate` on its own output finds the target in the
same subtable with the already-merged alternates, so the state is returned
unchanged with an "already present" log entry. -/
theorem altScanUpdate_retry (tag : String) (target : GlyphName)
    (reps : List GlyphName) :
    ∀ (st st2 : List AltMapping) (log : List LogEntry),
      altScanUpdate tag target reps st = some (st2, log) →
      ∃ m, altScanUpdate tag target reps st2 =
        some (st2, [.alreadyRule tag target m]) := by
  intro st
  induction st with
  | nil => intro st2 log h; simp [altScanUpdate] at h
  | cons m rest ih =>
      intro st2 log h
      rw [altScanUpdate] at h
      cases hl : lookupKey m target with
      | some ex =>
          rw [hl] at h
          injection h with h
          injection h with h1 h2
          subst h1
          refine ⟨merge_alternates ex reps, ?_⟩
          simp only [altScanUpdate, lookupKey_insertKey_self,
            merge_alternates_idem, ne_eq, not_true_eq_false, if_false,
            insertKey_self _ _ _ (lookupKey_insertKey_self m target _)]
      | none =>
          rw [hl] at h
          cases hrec : altScanUpdate tag target reps rest with
          | none => rw [hrec] at h; simp at h
          | some p =>
              rw [hrec] at h
              simp only [Option.map_some'] at h
              injection h with h
              injection h with h1 h2
              obtain ⟨m2, hm2⟩ := ih p.1 p.2 hrec
              refine ⟨m2, ?_⟩
              subst h1
              rw [altScanUpdate, hl, hm2]
              rfl

/-- Re-running the single-substitution `try_add_rule` on the mappings it
produced succeeds with an "already present" log entry and no change. -/
theorem singleTryAddRule_retry (tag : String) (st : List SingleMapping)
    (target : GlyphName) (reps : List GlyphName) (ms2 : List SingleMapping)
    (log : List LogEntry) (hne : reps ≠ [])
    (h : singleTryAddRule tag st target reps = (true, ms2, log)) :
    ∃ m, singleTryAddRule tag ms2 target reps =
      (true, ms2, [.alreadyRule tag target m]) := by
  by_cases hlen : reps.length > 1
  · rw [singleTryAddRule.eq_def, if_pos hlen] at h
    simp at h
  · obtain ⟨r, rest, rfl⟩ : ∃ r rest, reps = r :: rest := by
      cases reps with
      | nil => exact absurd rfl hne
      | cons r rest => exact ⟨r, rest, rfl⟩
    have hrest : rest = [] := by
      cases rest with
      | nil => rfl
      | cons a t => simp [List.length_cons] at hlen
  
    subst hrest
    simp only [singleTryAddRule.eq_def, if_neg hlen] at h
    have hmerge : ∀ x : GlyphName, merge_alternates [x] [x] = [x] := by
      intro x
      exact merge_alternates_eq_self [x] [x] (fun e he => he)
    cases hf : findFirstValue st target with
    | some ex =>
        simp only [hf] at h
        by_cases hm : merge_alternates [ex] [r] = [ex]
        · rw [if_pos hm] at h
          injection h with e1 h
          injection h with e2 e3
          subst e2
          refine ⟨merge_alternates [ex] [r], ?_⟩
          simp only [singleTryAddRule.eq_def, if_neg hlen, hf, if_pos hm]
        · rw [if_neg hm] at h
          simp at h
    | none =>
        simp only [hf] at h
        cases st with
        | nil =>
            injection h with e1 h
            injection h with e2 e3
            subst e2
            refine ⟨[r], ?_⟩
            have hff : findFirstValue [insertKey [] target r] target = some r := by
              simp [findFirstValue, insertKey, lookupKey]
            simp only [singleTryAddRule.eq_def, if_neg hlen, hff,
              if_pos (hmerge r), hmerge, ite_true]
        | cons m0 rest0 =>
            injection h with e1 h
            injection h with e2 e3
            subst e2
            refine ⟨[r], ?_⟩
            have hff : findFirstValue (insertKey m0 target r :: rest0) target =
                some r := by
              rw [findFirstValue, lookupKey_insertKey_self]
            simp only [singleTryAddRule.eq_def, if_neg hlen, hff,
              if_pos (hmerge r), hmerge, ite_true]

theorem add_glyph_repeat (h : Handler) (cp : Nat) :
    ((h.add_glyph cp).1).add_glyph cp = ((h.add_glyph cp).1, [.alreadyCodepoint cp]) := by
  cases hl : h.cmap.lookup_glyphname cp with
  | some g =>
      simp [Handler.add_glyph, Handler.ensure_glyph, hl]
  | none =>
      have hl2 : lookupKey h.cmap.subt cp = none := by
        rw [← FontCMap.lookup_glyphname]; exact hl
      simp [Handler.add_glyph, Handler.ensure_glyph, hl, hl2,
        Handler.add_blank_glyph, FontCMap.lookup_glyphname, FontCMap.add,
        lookupKey_insertKey_self]

theorem FontVSCmap.lookup_add_self (v : FontVSCmap) (b s : Nat)
    (g : GlyphName) : (v.add b s g).lookup_glyphname b s = some g := by
  rw [FontVSCmap.lookup_glyphname, FontVSCmap.add]
  simp [lookupKey_insertKey_self]

theorem add_vs_glyph_repeat (h : Handler) (sub14 : Option UVSDict)
    (b s : Nat) (d : Bool) :
    ((h.add_vs_glyph sub14 b s d).1).add_vs_glyph sub14 b s d =
      ((h.add_vs_glyph sub14 b s d).1, [.alreadyVS b s]) := by
  cases hv : h.vscmap with
  | some v =>
      cases hlook : v.lookup_glyphname b s with
      | some g =>
          simp [Handler.add_vs_glyph, Handler.get_font_vs_cmap, hv, hlook]
      | none =>
          cases d with
          | false =>
              simp [Handler.add_vs_glyph, Handler.get_font_vs_cmap, hv, hlook,
                Handler.add_blank_glyph, FontVSCmap.lookup_add_self]
          | true =>
              rcases hEG : h.ensure_glyph b ("U+" ++ hex4 b ++ " (base of U+"
                  ++ hex4 b ++ " U+" ++ hex4 s ++ ")") with ⟨h2, lg, gname, ad⟩
              simp [Handler.add_vs_glyph, Handler.get_font_vs_cmap, hv, hlook,
                hEG, FontVSCmap.lookup_add_self]
  | none =>
      cases hlook : (FontVSCmap.init sub14).lookup_glyphname b s with
      | some g =>
          simp [Handler.add_vs_glyph, Handler.get_font_vs_cmap, hv, hlook]
      | none =>
          cases d with
          | false =>
              simp [Handler.add_vs_glyph, Handler.get_font_vs_cmap, hv, hlook,
                Handler.add_blank_glyph, FontVSCmap.lookup_add_self]
          | true =>
              rcases hEG : ({ h with vscmap := some (FontVSCmap.init sub14) } :
                    Handler).ensure_glyph b ("U+" ++ hex4 b ++ " (base of U+"
                  ++ hex4 b ++ " U+" ++ hex4 s ++ ")") with ⟨h2, lg, gname, ad⟩
              simp [Handler.add_vs_glyph, Handler.get_font_vs_cmap, hv, hlook,
                hEG, FontVSCmap.lookup_add_self]

theorem processChars_lookup (cps : List Nat) :
    ∀ (h : Handler) (cp : Nat),
      lookupKey (processChars h cps).1.cmap.subt cp =
        (lookupKey h.cmap.subt cp).or
          (if cp ∈ cps then some (generate_glyphname cp) else none) := by
  induction cps with
  | nil =>
      intro h cp
      simp only [processChars, List.not_mem_nil, if_false]
      cases lookupKey h.cmap.subt cp <;> rfl
  | cons c rest ih =>
      intro h cp
      have hfst : (processChars h (c :: rest)).1 =
          (processChars (h.add_glyph c).1 rest).1 := by
        rcases hAG : h.add_glyph c with ⟨h1, lg1⟩
        simp [processChars, hAG]
      rw [hfst, ih]
      cases hl : h.cmap.lookup_glyphname c with
      | some g =>
          have hl2 : lookupKey h.cmap.subt c = some g := by
            rw [← FontCMap.lookup_glyphname]; exact hl
          have hstate : (h.add_glyph c).1 = h := by
            simp [Handler.add_glyph, Handler.ensure_glyph, hl]
          rw [hstate]
          by_cases hc : cp = c
          · subst hc
            rw [hl2]
            rfl
          · by_cases hm : cp ∈ rest
            · rw [if_pos hm, if_pos (List.mem_cons_of_mem c hm)]
            · rw [if_neg hm,
                if_neg (fun hcc => (List.mem_cons.mp hcc).elim hc hm)]
      | none =>
          have hl2 : lookupKey h.cmap.subt c = none := by
            rw [← FontCMap.lookup_glyphname]; exact hl
          have hsub : (h.add_glyph c).1.cmap.subt =
              insertKey h.cmap.subt c (generate_glyphname c) := by
            simp [Handler.add_glyph, Handler.ensure_glyph, hl,
              Handler.add_blank_glyph, FontCMap.add]
          rw [hsub]
          by_cases hc : cp = c
          · subst hc
            rw [lookupKey_insertKey_self, hl2, if_pos (List.mem_cons_self cp rest)]
            rfl
          · rw [lookupKey_insertKey_other _ _ _ _ (fun hcc => hc hcc.symm)]
            by_cases hm : cp ∈ rest
            · rw [if_pos hm, if_pos (List.mem_cons_of_mem c hm)]
            · rw [if_neg hm,
                if_neg (fun hcc => (List.mem_cons.mp hcc).elim hc hm)]

/-! ### C1: whole-run idempotence -/

/-- A Win7-dummy default langsys referencing the single feature index
`fi`. -/
def c1Dls (fi : Nat) : LangSys :=
  { lookupOrder := none, reqFeatureIndex := 0xFFFF, featureIndex := [fi] }

/-- A GSUB table with two Win7-dummy `hani` scripts whose default langsys
reference distinct, in-range feature indices. -/
def c1Gsub : GSUB :=
  { scriptRecord :=
      [ { scriptTag := "hani", defaultLangSys := some (c1Dls 0),
          langSysRecord := [] },
        { scriptTag := "hani", defaultLangSys := some (c1Dls 1),
          langSysRecord := [] } ],
    featureRecord :=
      [ { featureTag := "aalt",
          feature := { featureParams := none, lookupListIndex := [] } },
        { featureTag := "kern",
          feature := { featureParams := none, lookupListIndex := [] } } ],
    lookups := [],
    featureVariationsFeatures := none }

def c1Font : Font :=
  { sub4 := none, sub12 := some [], sub14 := none, glyphOrder := [],
    gsub := c1Gsub }

/-- One codepoint, plus a queued (empty) substitution-rule tag so that the
Legacy Compatibility Migrator runs. -/
def c1Req : Request :=
  { chars := [0x3042], vs := [],
    gsubRules := [("liga", [])],
    languageSystems := [("DFLT", "dflt")] }

/-- The font produced by the first run: the first dummy script and the
feature it referenced are gone, so the surviving dummy's feature index 1
now dangles past the end of the shortened feature list. -/
def c1FontAfter : Font :=
  { sub4 := none, sub12 := some [(0x3042, "uni3042")], sub14 := none,
    glyphOrder := ["uni3042"],
    gsub :=
      { scriptRecord :=
          [ { scriptTag := "hani", defaultLangSys := some (c1Dls 1),
              langSysRecord := [] } ],
        featureRecord :=
          [ { featureTag := "kern",
              feature := { featureParams := none, lookupListIndex := [] } } ],
        lookups := [],
        featureVariationsFeatures := none } }

/-- C1 counterexample: the first run succeeds (no skipped items), but the
second run on its output aborts with an uncaught `IndexError` inside
`undo_gsub_win7_fix` instead of reporting every item as already present —
the migrator deleted a feature still referenced, at a shifted index, by a
second dummy script. -/
theorem c1_run_idempotence_cex :
    runEngine c1Font c1Req = .ok (c1FontAfter, [.addedGlyph "U+3042"]) ∧
    (∀ e ∈ [LogEntry.addedGlyph "U+3042"], isSkipLog e = false) ∧
    runEngine c1FontAfter c1Req =
      .error (.fatal "IndexError: FeatureRecord") :=
  ⟨by rfl, by decide, by rfl⟩

/-- C1 (amended): idempotence holds item-wise at the component level —
re-running `add_glyph` or `add_vs_glyph` on the state either call
produced reports "already in font" and leaves the state unchanged, and
re-trying a successfully inserted substitution rule against the subtable
mappings it produced succeeds with an "already present" log entry and no
change — but whole-run idempotence fails at the Legacy Compatibility
Migrator (see the counterexample). -/
theorem c1_run_idempotence_amended :
    (∀ (h h1 : Handler) (cp : Nat) (log : List LogEntry),
        h.add_glyph cp = (h1, log) →
        h1.add_glyph cp = (h1, [.alreadyCodepoint cp])) ∧
    (∀ (h h1 : Handler) (sub14 : Option UVSDict) (b s : Nat) (d : Bool)
        (log : List LogEntry),
        h.add_vs_glyph sub14 b s d = (h1, log) →
        h1.add_vs_glyph sub14 b s d = (h1, [.alreadyVS b s])) ∧
    (∀ (tag : String) (st : List SingleMapping) (target : GlyphName)
        (reps : List GlyphName) (ms2 : List SingleMapping)
        (log : List LogEntry),
        reps ≠ [] →
        singleTryAddRule tag st target reps = (true, ms2, log) →
        ∃ m, singleTryAddRule tag ms2 target reps =
          (true, ms2, [.alreadyRule tag target m])) ∧
    (∀ (tag : String) (st : List AltMapping) (target : GlyphName)
        (reps : List GlyphName) (ms2 : List AltMapping)
        (log : List LogEntry),
        reps ≠ [] →
        alternateTryAddRule tag st target reps = (ms2, log) →
        ∃ m, alternateTryAddRule tag ms2 target reps =
          (ms2, [.alreadyRule tag target m])) := by
  refine ⟨?_, ?_, ?_, ?_⟩
  · intro h h1 cp log heq
    have hrep := add_glyph_repeat h cp
    rw [heq] at hrep
    exact hrep
  · intro h h1 sub14 b s d log heq
    have hrep := add_vs_glyph_repeat h sub14 b s d
    rw [heq] at hrep
    exact hrep
  · intro tag st target reps ms2 log hne heq
    exact singleTryAddRule_retry tag st target reps ms2 log hne heq
  · intro tag st target reps ms2 log hne heq
    obtain ⟨r0, rrest, rfl⟩ : ∃ r0 rrest, reps = r0 :: rrest := by
      cases reps with
      | nil => exact absurd rfl hne
      | cons r0 rrest => exact ⟨r0, rrest, rfl⟩
    have hself := merge_alternates_eq_self (r0 :: rrest) (r0 :: rrest)
      (fun e he => he)
    cases hscan : altScanUpdate tag target (r0 :: rrest) st with
    | some p =>
        simp only [alternateTryAddRule, hscan] at heq
        obtain ⟨m, hm⟩ := altScanUpdate_retry tag target (r0 :: rrest)
          st ms2 log (by rw [hscan, heq])
        refine ⟨m, ?_⟩
        simp only [alternateTryAddRule, hm]
    | none =>
        cases st with
        | nil =>
            simp only [alternateTryAddRule, hscan] at heq
            injection heq with e1 e2
            subst e1
            refine ⟨r0 :: rrest, ?_⟩
            simp only [alternateTryAddRule, altScanUpdate,
              lookupKey_insertKey_self, hself, ne_eq, not_true_eq_false,
              if_false,
              insertKey_self _ _ _ (lookupKey_insertKey_self [] target _)]
        | cons m0 rest0 =>
            simp only [alternateTryAddRule, hscan] at heq
            injection heq with e1 e2
            subst e1
            refine ⟨r0 :: rrest, ?_⟩
            simp only [alternateTryAddRule, altScanUpdate,
              lookupKey_insertKey_self, hself, ne_eq, not_true_eq_false,
              if_false,
              insertKey_self _ _ _ (lookupKey_insertKey_self m0 target _)]

def c1WH0 : Handler :=
  { cmap := { sub4 := none, subt := [], created12 := false },
    vscmap := none, glyphOrder := [], addedCount := 0 }

def c1WH1 : Handler :=
  { cmap := { sub4 := none, subt := [(65, "uni0041")], created12 := false },
    vscmap := none, glyphOrder := ["uni0041"], addedCount := 1 }

def c1WH2 : Handler :=
  { cmap := { sub4 := none, subt := [(65, "uni0041")], created12 := false },
    vscmap := some
      { uvsDict := [(65024, [(66, some "u0042uFE00")])],
        vs_in_font := [((66, 65024), some "u0042uFE00")],
        created14 := true },
    glyphOrder := ["uni0041", "u0042uFE00"], addedCount := 2 }

theorem c1_run_idempotence_amended_witness :
    c1WH1.add_glyph 65 = (c1WH1, [.alreadyCodepoint 65]) ∧
    c1WH2.add_vs_glyph none 66 0xFE00 false = (c1WH2, [.alreadyVS 66 0xFE00]) ∧
    (∃ m, singleTryAddRule "aalt" [[("A", "X")]] "A" ["X"] =
      (true, [[("A", "X")]], [.alreadyRule "aalt" "A" m])) ∧
    (∃ m, alternateTryAddRule "aalt" [[("A", ["X", "Y"])]] "A" ["X", "Y"] =
      ([[("A", ["X", "Y"])]], [.alreadyRule "aalt" "A" m])) :=
  ⟨c1_run_idempotence_amended.1 c1WH0 c1WH1 65 [.addedGlyph "U+0041"]
     (by rfl),
   c1_run_idempotence_amended.2.1 c1WH1 c1WH2 none 66 0xFE00 false
     [.addedGlyph "U+0042 U+FE00 as non-default"] (by rfl),
   c1_run_idempotence_amended.2.2.1 "aalt" [] "A" ["X"] [[("A", "X")]]
     [.addedRule "aalt" "A" ["X"]] (by decide) (by rfl),
   c1_run_idempotence_amended.2.2.2 "aalt" [] "A" ["X", "Y"]
     [[("A", ["X", "Y"])]] [.addedRule "aalt" "A" ["X", "Y"]]
     (by decide) (by rfl)⟩

/-! ### C8: per-item order commutativity -/

def c8Font : Font :=
  { sub4 := none, sub12 := some [(65, "A"), (88, "X"), (89, "Y")],
    sub14 := none, glyphOrder := ["A", "X", "Y"],
    gsub := { scriptRecord := [], featureRecord := [], lookups := [],
              featureVariationsFeatures := none } }

def c8Pairs : List (GlyphSpec × GlyphSpec) :=
  [(.char 65 none, .char 88 none), (.char 65 none, .char 89 none)]

def c8Req1 : Request :=
  { chars := [], vs := [], gsubRules := [("aalt", c8Pairs)],
    languageSystems := [("DFLT", "dflt")] }

def c8Req2 : Request :=
  { chars := [], vs := [], gsubRules := [("aalt", c8Pairs.reverse)],
    languageSystems := [("DFLT", "dflt")] }

def c8Lookup (alts : List GlyphName) : Lookup :=
  { lookupType := 3, lookupFlag := 0, markFilteringSet := none,
    subTable := [.alternate [("A", alts)]] }

def c8FontAfter (alts : List GlyphName) : Font :=
  { sub4 := none, sub12 := some [(65, "A"), (88, "X"), (89, "Y")],
    sub14 := none, glyphOrder := ["A", "X", "Y"],
    gsub :=
      { scriptRecord :=
          [ { scriptTag := "DFLT",
              defaultLangSys := some
                { lookupOrder := none, reqFeatureIndex := 0xFFFF,
                  featureIndex := [0] },
              langSysRecord := [] } ],
        featureRecord :=
          [ { featureTag := "aalt",
              feature := { featureParams := none, lookupListIndex := [0] } } ],
        lookups := [c8Lookup alts],
        featureVariationsFeatures := none } }

/-- C8 counterexample: the two requests ask for the same substitution
rules — the pair list of the one tag merely reversed — yet the two runs
produce different GSUB tables: the alternate list for target `A` keeps
insertion order, `[X, Y]` versus `[Y, X]`. -/
theorem c8_order_commutativity_cex :
    c8Req2.chars = c8Req1.chars ∧ c8Req2.vs = c8Req1.vs ∧
    c8Req2.languageSystems = c8Req1.languageSystems ∧
    c8Req1.gsubRules = [("aalt", c8Pairs)] ∧
    c8Req2.gsubRules = [("aalt", c8Pairs.reverse)] ∧
    runEngine c8Font c8Req1 =
      .ok (c8FontAfter ["X", "Y"], [.addedRule "aalt" "A" ["X", "Y"]]) ∧
    runEngine c8Font c8Req2 =
      .ok (c8FontAfter ["Y", "X"], [.addedRule "aalt" "A" ["Y", "X"]]) ∧
    (c8FontAfter ["X", "Y"]).gsub ≠ (c8FontAfter ["Y", "X"]).gsub :=
  ⟨rfl, rfl, rfl, rfl, rfl, by rfl, by rfl, by decide⟩


/-! ### Observers for the run-level order-commutativity claim -/

/-- The codepoint-to-glyph mapping denoted by a saved full-repertoire
(format-12) subtable. -/
def cmapLookup12 (f : Font) (cp : Nat) : Option GlyphName :=
  f.sub12.bind (fun m => lookupKey m cp)

/-- The codepoint-to-glyph mapping denoted by a saved BMP (format-4)
subtable. -/
def cmapLookup4 (f : Font) (cp : Nat) : Option GlyphName :=
  f.sub4.bind (fun m => lookupKey m cp)

/-- The BMP lookup on a handler state. -/
def sub4L (h : Handler) (cp : Nat) : Option GlyphName :=
  h.cmap.sub4.bind (fun m => lookupKey m cp)

/-- The (base, selector) lookup an `add_vs_glyph` call observes on the
handler: the lazily created variation-map editor state when it exists,
else what the first call would build from the font's format-14 subtable. -/
def vsObserved (sub14 : Option UVSDict) (h : Handler) (b s : Nat) :
    Option GlyphName :=
  match h.vscmap with
  | some v => v.lookup_glyphname b s
  | none => (FontVSCmap.init sub14).lookup_glyphname b s

/-- The format-14 `uvsDict` content the handler state denotes. -/
def effUVS (sub14 : Option UVSDict) (h : Handler) : UVSDict :=
  match h.vscmap with
  | some v => v.uvsDict
  | none => sub14.getD []

/-- The `_vs_in_font` index the handler state denotes. -/
def vsFI (sub14 : Option UVSDict) (h : Handler) :
    List ((Nat × Nat) × Option GlyphName) :=
  match h.vscmap with
  | some v => v.vs_in_font
  | none => vsIndexOf (sub14.getD [])

/-- The glyph name an absent variation-sequence item stores, as a function
of the state before the item: the base's existing glyph name (default
items), the generated base name when the base is absent, or the generated
(base, selector) name (non-default items). -/
def vsItemValue (h : Handler) (b s : Nat) (d : Bool) : GlyphName :=
  if d then (lookupKey h.cmap.subt b).getD (generate_glyphname b)
  else generate_glyphname b (some s)

theorem option_or_none {α : Type} (o : Option α) : o.or none = o := by
  cases o <;> rfl

theorem getD_or_if_gen (o : Option GlyphName) (C : Prop) [Decidable C]
    (b : Nat) :
    ((o.or (if C then some (generate_glyphname b) else none)).getD
      (generate_glyphname b)) = o.getD (generate_glyphname b) := by
  cases o <;> by_cases hC : C <;> simp [hC, Option.or]

theorem or_if_merge {α : Type} (o : Option α) (C1 C2 : Prop) [Decidable C1]
    [Decidable C2] (v : α) :
    ((o.or (if C1 then some v else none)).or (if C2 then some v else none)) =
      o.or (if C1 ∨ C2 then some v else none) := by
  cases o <;> by_cases h1 : C1 <;> by_cases h2 : C2 <;>
    simp [h1, h2, Option.or]

theorem if_some_eq_none_iff {α : Type} (C : Prop) [Decidable C] (v : α) :
    ((if C then some v else none) = none) ↔ ¬C := by
  by_cases h : C <;> simp [h]

theorem or_eq_none_iff {α : Type} (o o2 : Option α) :
    (o.or o2 = none) ↔ (o = none ∧ o2 = none) := by
  cases o <;> simp [Option.or]

theorem lookupKey_eq_none_of_not_mem_keys {κ α : Type} [DecidableEq κ]
    (l : List (κ × α)) (k : κ) (h : k ∉ l.map Prod.fst) :
    lookupKey l k = none := by
  cases hl : lookupKey l k with
  | none => rfl
  | some v => exact absurd (mem_keys_of_lookupKey_eq_some l k v hl) h

/-! ### The `_vs_in_font` index as a last-wins fold over the flattening -/

theorem vsIndexOf_eq_foldl_aux (d : UVSDict) :
    ∀ (acc : List ((Nat × Nat) × Option GlyphName)),
      d.foldl (fun a e => e.2.foldl (fun a2 p => insertKey a2 (p.1, e.1) p.2) a)
          acc =
        (flattenUVS d).foldl
          (fun a e => insertKey a (e.2.1, e.1) e.2.2) acc := by
  induction d with
  | nil => intro acc; simp [flattenUVS]
  | cons hd tl ih =>
      intro acc
      obtain ⟨s0, l0⟩ := hd
      rw [List.foldl_cons, ih, flattenUVS_cons, List.foldl_append,
        List.foldl_map]

theorem vsIndexOf_eq_foldl (d : UVSDict) :
    vsIndexOf d =
      (flattenUVS d).foldl (fun a e => insertKey a (e.2.1, e.1) e.2.2) [] :=
  vsIndexOf_eq_foldl_aux d []

theorem lookupKey_foldl_insertKey (l : List (Nat × Nat × Option GlyphName)) :
    ∀ (init : List ((Nat × Nat) × Option GlyphName)) (k : Nat × Nat),
      lookupKey (l.foldl (fun a e => insertKey a (e.2.1, e.1) e.2.2) init) k =
        match l.reverse.find? (fun e => (e.2.1, e.1) = k) with
        | some e => some e.2.2
        | none => lookupKey init k := by
  induction l with
  | nil => intro init k; simp
  | cons e rest ih =>
      intro init k
      rw [List.foldl_cons, ih, List.reverse_cons, List.find?_append]
      cases hf : rest.reverse.find? (fun e => decide ((e.2.1, e.1) = k)) with
      | some e2 => simp [hf]
      | none =>
          by_cases hk : (e.2.1, e.1) = k
          · simp [hf, hk, lookupKey_insertKey_self]
          · simp [hf, hk, lookupKey_insertKey_other _ _ _ _ hk]

theorem mem_flattenUVS_selector (d : UVSDict)
    (x : Nat × Nat × Option GlyphName) (hx : x ∈ flattenUVS d) :
    x.1 ∈ d.map Prod.fst := by
  induction d with
  | nil => simp [flattenUVS] at hx
  | cons hd tl ih =>
      obtain ⟨s0, l0⟩ := hd
      rw [flattenUVS_cons] at hx
      rcases List.mem_append.mp hx with h | h
      · obtain ⟨p, -, rfl⟩ := List.mem_map.mp h
        simp
      · simpa using Or.inr (ih h)

/-- `uvsAppend` splices the new pair right after the (unique) segment of
its selector; everything flattened after it carries another selector. -/
theorem flattenUVS_uvsAppend_decomp (d : UVSDict) (s : Nat)
    (e : Nat × Option GlyphName) (hnd : (d.map Prod.fst).Nodup) :
    ∃ A B, flattenUVS d = A ++ B ∧
      flattenUVS (uvsAppend d s e) = A ++ (s, e.1, e.2) :: B ∧
      (∀ x ∈ B, x.1 ≠ s) := by
  induction d with
  | nil =>
      refine ⟨[], [], rfl, ?_, by simp⟩
      simp [uvsAppend, flattenUVS]
  | cons hd tl ih =>
      obtain ⟨s0, l0⟩ := hd
      by_cases hs : s0 = s
      · subst hs
        have hrw : uvsAppend ((s0, l0) :: tl) s0 e = (s0, l0 ++ [e]) :: tl := by
          simp [uvsAppend]
        refine ⟨l0.map (fun p => (s0, p.1, p.2)), flattenUVS tl,
          flattenUVS_cons _ _ _, ?_, ?_⟩
        · rw [hrw, flattenUVS_cons]
          simp
        · intro x hx
          have hsel := mem_flattenUVS_selector tl x hx
          have hnd2 := hnd
          rw [List.map_cons] at hnd2
          have hs0 : s0 ∉ tl.map Prod.fst := (List.nodup_cons.mp hnd2).1
          intro hc
          rw [hc] at hsel
          exact hs0 hsel
      · have hrw : uvsAppend ((s0, l0) :: tl) s e =
            (s0, l0) :: uvsAppend tl s e := by
          simp [uvsAppend, hs]
        have hnd2 := hnd
        rw [List.map_cons] at hnd2
        obtain ⟨A, B, h1, h2, h3⟩ := ih (List.nodup_cons.mp hnd2).2
        refine ⟨l0.map (fun p => (s0, p.1, p.2)) ++ A, B, ?_, ?_, h3⟩
        · rw [flattenUVS_cons, h1, List.append_assoc]
        · rw [hrw, flattenUVS_cons, h2]
          simp

theorem find?_eq_none_of_all {α : Type} (l : List α) (p : α → Bool)
    (h : ∀ x ∈ l, p x = false) : l.find? p = none := by
  induction l with
  | nil => rfl
  | cons a rest ih =>
      rw [List.find?_cons, h a (List.mem_cons_self a rest)]
      exact ih (fun x hx => h x (List.mem_cons_of_mem a hx))

/-- Appending `(base, glyph)` under `selector` updates the last-wins index
exactly like `dict.__setitem__` on the `(base, selector)` key, provided
the `uvsDict` has no duplicate selector entries. -/
theorem find?_middle {α : Type} (A B : List α) (m : α) (p : α → Bool)
    (hB : ∀ x ∈ B, p x = false) (hm : p m = true) :
    (A ++ m :: B).reverse.find? p = some m := by
  rw [List.reverse_append, List.reverse_cons, List.find?_append,
    List.find?_append]
  have hBr : B.reverse.find? p = none :=
    find?_eq_none_of_all _ _ (fun x hx => hB x (List.mem_reverse.mp hx))
  rw [hBr]
  simp [List.find?, hm, Option.orElse]

theorem find?_middle_skip {α : Type} (A B : List α) (m : α) (p : α → Bool)
    (hm : p m = false) :
    (A ++ m :: B).reverse.find? p = (A ++ B).reverse.find? p := by
  rw [List.reverse_append, List.reverse_cons, List.find?_append,
    List.find?_append, List.reverse_append, List.find?_append]
  have hms : [m].find? p = none := by
    simp [List.find?, hm]
  rw [hms]
  cases B.reverse.find? p <;> simp [Option.orElse]

/-- Appending `(base, glyph)` under `selector` updates the last-wins index
exactly like `dict.__setitem__` on the `(base, selector)` key, provided
the `uvsDict` has no duplicate selector entries. -/
theorem vsIndexOf_uvsAppend (d : UVSDict) (s : Nat)
    (e : Nat × Option GlyphName) (hnd : (d.map Prod.fst).Nodup)
    (k : Nat × Nat) :
    lookupKey (vsIndexOf (uvsAppend d s e)) k =
      lookupKey (insertKey (vsIndexOf d) (e.1, s) e.2) k := by
  obtain ⟨A, B, h1, h2, h3⟩ := flattenUVS_uvsAppend_decomp d s e hnd
  rw [vsIndexOf_eq_foldl, lookupKey_foldl_insertKey, h2]
  by_cases hk : (e.1, s) = k
  · rw [← hk, lookupKey_insertKey_self]
    rw [find?_middle A B _ _ ?_ ?_]
    · intro x hx
      simp only [decide_eq_false_iff_not]
      intro hc
      exact h3 x hx (congrArg Prod.snd hc)
    · simp
  · rw [lookupKey_insertKey_other _ _ _ _ hk,
      find?_middle_skip A B _ _ (by simpa using hk), vsIndexOf_eq_foldl,
      lookupKey_foldl_insertKey, h1]

theorem uvsAppend_keys (d : UVSDict) (s : Nat) (e : Nat × Option GlyphName) :
    (uvsAppend d s e).map Prod.fst =
      if s ∈ d.map Prod.fst then d.map Prod.fst else d.map Prod.fst ++ [s] := by
  induction d with
  | nil => simp [uvsAppend]
  | cons hd tl ih =>
      obtain ⟨s1, l1⟩ := hd
      by_cases hs : s1 = s
      · subst hs
        simp [uvsAppend]
      · have hrw : uvsAppend ((s1, l1) :: tl) s e =
            (s1, l1) :: uvsAppend tl s e := by
          simp [uvsAppend, hs]
        rw [hrw]
        by_cases hm : s ∈ tl.map Prod.fst
        · simp [ih, hm, Ne.symm hs]
        · simp [ih, hm, Ne.symm hs]

theorem uvsAppend_keys_nodup (d : UVSDict) (s : Nat)
    (e : Nat × Option GlyphName) (hnd : (d.map Prod.fst).Nodup) :
    ((uvsAppend d s e).map Prod.fst).Nodup := by
  rw [uvsAppend_keys]
  by_cases hm : s ∈ d.map Prod.fst
  · rw [if_pos hm]; exact hnd
  · rw [if_neg hm]
    simp [List.nodup_append, hnd, hm]

theorem uvsAppend_lookup (d : UVSDict) (s : Nat) (e : Nat × Option GlyphName)
    (sel : Nat) :
    lookupKey (uvsAppend d s e) sel =
      if sel = s then some ((lookupKey d s).getD [] ++ [e])
      else lookupKey d sel := by
  induction d with
  | nil =>
      by_cases hs : sel = s
      · subst hs
        simp [uvsAppend, lookupKey]
      · rw [if_neg hs]
        simp only [uvsAppend, lookupKey, if_neg (fun h : s = sel => hs h.symm)]
  | cons hd tl ih =>
      obtain ⟨s1, l1⟩ := hd
      by_cases hs1 : s1 = s
      · subst hs1
        have hrw : uvsAppend ((s1, l1) :: tl) s1 e = (s1, l1 ++ [e]) :: tl := by
          simp [uvsAppend]
        rw [hrw]
        by_cases hsel : sel = s1
        · subst hsel
          simp [lookupKey]
        · rw [if_neg hsel]
          simp only [lookupKey, if_neg (fun h : s1 = sel => hsel h.symm)]
      · have hrw : uvsAppend ((s1, l1) :: tl) s e =
            (s1, l1) :: uvsAppend tl s e := by
          simp [uvsAppend, hs1]
        rw [hrw]
        by_cases hsel : sel = s1
        · subst hsel
          rw [if_neg hs1]
          simp [lookupKey]
        · simp only [lookupKey, if_neg (fun h : s1 = sel => hsel h.symm),
            if_neg hs1]
          exact ih

/-! ### Step effects of `_ensure_glyph` and `add_vs_glyph` on the observers -/

theorem ensure_glyph_subt (h : Handler) (cp : Nat) (descr : String)
    (cp2 : Nat) :
    lookupKey (h.ensure_glyph cp descr).1.cmap.subt cp2 =
      (lookupKey h.cmap.subt cp2).or
        (if cp2 = cp then some (generate_glyphname cp2) else none) := by
  cases hl : h.cmap.lookup_glyphname cp with
  | some g =>
      have hl2 : lookupKey h.cmap.subt cp = some g := by
        rw [← FontCMap.lookup_glyphname]; exact hl
      simp only [Handler.ensure_glyph, hl]
      by_cases hc : cp2 = cp
      · subst hc
        rw [hl2]
        rfl
      · rw [if_neg hc, option_or_none]
  | none =>
      have hl2 : lookupKey h.cmap.subt cp = none := by
        rw [← FontCMap.lookup_glyphname]; exact hl
      simp only [Handler.ensure_glyph, hl, Handler.add_blank_glyph,
        FontCMap.add]
      by_cases hc : cp2 = cp
      · subst hc
        rw [lookupKey_insertKey_self, hl2, if_pos rfl]
        rfl
      · rw [lookupKey_insertKey_other _ _ _ _ (fun h2 => hc h2.symm),
          if_neg hc, option_or_none]

theorem ensure_glyph_sub4 (h : Handler) (cp : Nat) (descr : String)
    (cp2 : Nat) :
    sub4L (h.ensure_glyph cp descr).1 cp2 =
      (sub4L h cp2).or
        (if cp2 = cp ∧ lookupKey h.cmap.subt cp = none ∧ cp2 < 0x10000 ∧
            h.cmap.sub4.isSome = true
         then some (generate_glyphname cp2) else none) := by
  cases hl : h.cmap.lookup_glyphname cp with
  | some g =>
      have hl2 : lookupKey h.cmap.subt cp = some g := by
        rw [← FontCMap.lookup_glyphname]; exact hl
      simp only [Handler.ensure_glyph, hl, hl2]
      simp [option_or_none]
  | none =>
      have hl2 : lookupKey h.cmap.subt cp = none := by
        rw [← FontCMap.lookup_glyphname]; exact hl
      simp only [Handler.ensure_glyph, hl, Handler.add_blank_glyph,
        FontCMap.add, sub4L, hl2]
      cases hs4 : h.cmap.sub4 with
      | none => simp [option_or_none]
      | some m4 =>
          by_cases hlt : cp < 0x10000
          · rw [if_pos hlt]
            simp only [Option.map_some', Option.some_bind]
            by_cases hc : cp2 = cp
            · subst hc
              by_cases hin : (lookupKey m4 cp2).isSome
              · obtain ⟨v4, hv4⟩ := Option.isSome_iff_exists.mp hin
                rw [lookupKey_setdefaultKey_present _ _ _ _ hv4, hv4]
                rfl
              · have hnone : lookupKey m4 cp2 = none :=
                  Option.not_isSome_iff_eq_none.mp (by simpa using hin)
                rw [lookupKey_setdefaultKey_absent _ _ _ hnone, hnone]
                simp [hlt, Option.or]
            · rw [lookupKey_setdefaultKey_other _ _ _ _
                (fun h2 => hc h2.symm)]
              simp [hc, option_or_none]
          · rw [if_neg hlt]
            simp only [Option.map_some', Option.some_bind]
            by_cases hc : cp2 = cp
            · subst hc
              simp [hlt, option_or_none]
            · simp [hc, option_or_none]

theorem ensure_glyph_vscmap (h : Handler) (cp : Nat) (descr : String) :
    (h.ensure_glyph cp descr).1.vscmap = h.vscmap := by
  cases hl : h.cmap.lookup_glyphname cp <;>
    simp [Handler.ensure_glyph, hl, Handler.add_blank_glyph]

theorem ensure_glyph_sub4_isSome (h : Handler) (cp : Nat) (descr : String) :
    (h.ensure_glyph cp descr).1.cmap.sub4.isSome = h.cmap.sub4.isSome := by
  cases hl : h.cmap.lookup_glyphname cp with
  | some g => simp [Handler.ensure_glyph, hl]
  | none =>
      simp only [Handler.ensure_glyph, hl, Handler.add_blank_glyph,
        FontCMap.add]
      cases hs4 : h.cmap.sub4 <;> by_cases hlt : cp < 0x10000 <;>
        simp [hlt]

theorem ensure_glyph_name (h : Handler) (cp : Nat) (descr : String) :
    (h.ensure_glyph cp descr).2.2.1 =
      (lookupKey h.cmap.subt cp).getD (generate_glyphname cp) := by
  cases hl : h.cmap.lookup_glyphname cp with
  | some g =>
      have hl2 : lookupKey h.cmap.subt cp = some g := by
        rw [← FontCMap.lookup_glyphname]; exact hl
      simp [Handler.ensure_glyph, hl, hl2]
  | none =>
      have hl2 : lookupKey h.cmap.subt cp = none := by
        rw [← FontCMap.lookup_glyphname]; exact hl
      simp [Handler.ensure_glyph, hl, hl2, Handler.add_blank_glyph]

/-- The variation-map editor state an `add_vs_glyph` call operates on. -/
def vcmOf (sub14 : Option UVSDict) (h : Handler) : FontVSCmap :=
  match h.vscmap with
  | some v => v
  | none => FontVSCmap.init sub14

theorem get_font_vs_cmap_eq (h : Handler) (sub14 : Option UVSDict) :
    h.get_font_vs_cmap sub14 =
      ({ h with vscmap := some (vcmOf sub14 h) }, vcmOf sub14 h) := by
  obtain ⟨c, vs, go, ac⟩ := h
  cases vs <;> rfl

theorem vsObserved_eq_vcmOf (sub14 : Option UVSDict) (h : Handler)
    (b s : Nat) :
    vsObserved sub14 h b s = (vcmOf sub14 h).lookup_glyphname b s := by
  cases hv : h.vscmap <;> simp [vsObserved, vcmOf, hv]

theorem effUVS_eq_vcmOf (sub14 : Option UVSDict) (h : Handler) :
    effUVS sub14 h = (vcmOf sub14 h).uvsDict := by
  cases hv : h.vscmap with
  | some v => simp [effUVS, vcmOf, hv]
  | none =>
      cases sub14 <;> simp [effUVS, vcmOf, hv, FontVSCmap.init]

theorem vsFI_eq_vcmOf (sub14 : Option UVSDict) (h : Handler) :
    vsFI sub14 h = (vcmOf sub14 h).vs_in_font := by
  cases hv : h.vscmap with
  | some v => simp [vsFI, vcmOf, hv]
  | none =>
      cases sub14 <;> simp [vsFI, vcmOf, hv, FontVSCmap.init, vsIndexOf]

theorem add_vs_vsObserved (h : Handler) (sub14 : Option UVSDict)
    (b s : Nat) (d : Bool) (b2 s2 : Nat) :
    vsObserved sub14 (h.add_vs_glyph sub14 b s d).1 b2 s2 =
      if (b2, s2) = (b, s) then
        (vsObserved sub14 h b s).or (some (vsItemValue h b s d))
      else vsObserved sub14 h b2 s2 := by
  rw [Handler.add_vs_glyph, get_font_vs_cmap_eq]
  rw [vsObserved_eq_vcmOf sub14 h, vsObserved_eq_vcmOf sub14 h b2 s2]
  cases hlook : (vcmOf sub14 h).lookup_glyphname b s with
  | some g =>
      simp only [hlook]
      by_cases hp : (b2, s2) = (b, s)
      · obtain ⟨hb, hs⟩ := Prod.mk.injEq .. ▸ hp
        subst hb; subst hs
        simp [vsObserved, hlook, Option.or]
      · simp [vsObserved, hp]
  | none =>
      cases d with
      | true =>
          simp only [hlook]
          rcases hEG : ({ h with vscmap := some (vcmOf sub14 h) } :
              Handler).ensure_glyph b ("U+" ++ hex4 b ++ " (base of U+"
                ++ hex4 b ++ " U+" ++ hex4 s ++ ")")
            with ⟨h2, lg, gname, ad⟩
          have hname := ensure_glyph_name
            ({ h with vscmap := some (vcmOf sub14 h) }) b
            ("U+" ++ hex4 b ++ " (base of U+" ++ hex4 b ++ " U+" ++ hex4 s
              ++ ")")
          rw [hEG] at hname
          simp only at hname
          by_cases hp : (b2, s2) = (b, s)
          · obtain ⟨hb, hs⟩ := Prod.mk.injEq .. ▸ hp
            subst hb; subst hs
            simp [vsObserved, FontVSCmap.add, FontVSCmap.lookup_glyphname,
              lookupKey_insertKey_self, hlook, Option.or, hname,
              vsItemValue]
          · rw [if_neg hp]
            simp only [hEG, ite_true, vsObserved, FontVSCmap.add,
              FontVSCmap.lookup_glyphname]
            rw [lookupKey_insertKey_other _ _ _ _
              (fun hc => hp hc.symm)]
      | false =>
          simp only [hlook]
          by_cases hp : (b2, s2) = (b, s)
          · obtain ⟨hb, hs⟩ := Prod.mk.injEq .. ▸ hp
            subst hb; subst hs
            simp [vsObserved, Handler.add_blank_glyph, FontVSCmap.add,
              FontVSCmap.lookup_glyphname, lookupKey_insertKey_self,
              hlook, Option.or, vsItemValue]
          · rw [if_neg hp]
            simp only [Bool.false_eq_true, if_false, ite_false, vsObserved,
              Handler.add_blank_glyph, FontVSCmap.add,
              FontVSCmap.lookup_glyphname]
            rw [lookupKey_insertKey_other _ _ _ _
              (fun hc => hp hc.symm)]

theorem add_vs_subt (h : Handler) (sub14 : Option UVSDict) (b s : Nat)
    (d : Bool) (cp : Nat) :
    lookupKey (h.add_vs_glyph sub14 b s d).1.cmap.subt cp =
      (lookupKey h.cmap.subt cp).or
        (if cp = b ∧ d = true ∧ vsObserved sub14 h b s = none
         then some (generate_glyphname cp) else none) := by
  rw [Handler.add_vs_glyph, get_font_vs_cmap_eq, vsObserved_eq_vcmOf]
  cases hlook : (vcmOf sub14 h).lookup_glyphname b s with
  | some g =>
      simp only [hlook]
      rw [if_neg (fun hc => Option.noConfusion hc.2.2), option_or_none]
  | none =>
      cases d with
      | true =>
          simp only [hlook]
          rcases hEG : ({ h with vscmap := some (vcmOf sub14 h) } :
              Handler).ensure_glyph b ("U+" ++ hex4 b ++ " (base of U+"
                ++ hex4 b ++ " U+" ++ hex4 s ++ ")")
            with ⟨h2, lg, gname, ad⟩
          have hsub := ensure_glyph_subt
            ({ h with vscmap := some (vcmOf sub14 h) }) b
            ("U+" ++ hex4 b ++ " (base of U+" ++ hex4 b ++ " U+" ++ hex4 s
              ++ ")") cp
          rw [hEG] at hsub
          simp only at hsub
          simp only [hEG, ite_true]
          rw [hsub]
          simp
      | false =>
          simp only [hlook, Bool.false_eq_true, ite_false,
            Handler.add_blank_glyph]
          rw [if_neg (fun hc => hc.2.1), option_or_none]

theorem add_vs_sub4 (h : Handler) (sub14 : Option UVSDict) (b s : Nat)
    (d : Bool) (cp : Nat) :
    sub4L (h.add_vs_glyph sub14 b s d).1 cp =
      (sub4L h cp).or
        (if cp = b ∧ d = true ∧ vsObserved sub14 h b s = none ∧
            lookupKey h.cmap.subt b = none ∧ cp < 0x10000 ∧
            h.cmap.sub4.isSome = true
         then some (generate_glyphname cp) else none) := by
  rw [Handler.add_vs_glyph, get_font_vs_cmap_eq, vsObserved_eq_vcmOf]
  cases hlook : (vcmOf sub14 h).lookup_glyphname b s with
  | some g =>
      simp only [hlook]
      rw [if_neg (fun hc => Option.noConfusion hc.2.2.1), option_or_none]
      rfl
  | none =>
      cases d with
      | true =>
          simp only [hlook]
          rcases hEG : ({ h with vscmap := some (vcmOf sub14 h) } :
              Handler).ensure_glyph b ("U+" ++ hex4 b ++ " (base of U+"
                ++ hex4 b ++ " U+" ++ hex4 s ++ ")")
            with ⟨h2, lg, gname, ad⟩
          have hsub := ensure_glyph_sub4
            ({ h with vscmap := some (vcmOf sub14 h) }) b
            ("U+" ++ hex4 b ++ " (base of U+" ++ hex4 b ++ " U+" ++ hex4 s
              ++ ")") cp
          rw [hEG] at hsub
          simp only at hsub
          simp only [hEG, ite_true, sub4L]
          rw [show ({ h2 with vscmap := some ((vcmOf sub14 h).add b s gname)} :
              Handler).cmap = h2.cmap from rfl]
          rw [show (sub4L h2 cp = h2.cmap.sub4.bind (fun m => lookupKey m cp))
              from rfl] at hsub
          rw [hsub]
          simp [sub4L]
      | false =>
          simp only [hlook, Bool.false_eq_true, ite_false,
            Handler.add_blank_glyph, sub4L]
          rw [if_neg (fun hc => hc.2.1), option_or_none]

theorem vcmOf_vscmap_some (sub14 : Option UVSDict) (h : Handler)
    (v : FontVSCmap) :
    vcmOf sub14 ({ h with vscmap := some v }) = v := rfl

theorem effUVS_init (sub14 : Option UVSDict) :
    (FontVSCmap.init sub14).uvsDict = sub14.getD [] := by
  cases sub14 <;> rfl

theorem vsFI_init (sub14 : Option UVSDict) :
    (FontVSCmap.init sub14).vs_in_font = vsIndexOf (sub14.getD []) := by
  cases sub14 <;> rfl

theorem add_vs_effUVS (h : Handler) (sub14 : Option UVSDict) (b s : Nat)
    (d : Bool) :
    effUVS sub14 (h.add_vs_glyph sub14 b s d).1 =
      if vsObserved sub14 h b s = none
      then uvsAppend (effUVS sub14 h) s (b, some (vsItemValue h b s d))
      else effUVS sub14 h := by
  cases hv : h.vscmap with
  | some v =>
      cases hlook : v.lookup_glyphname b s with
      | some g =>
          simp [Handler.add_vs_glyph, Handler.get_font_vs_cmap, hv, hlook,
            vsObserved, effUVS]
      | none =>
          cases d with
          | true =>
              rcases hEG : h.ensure_glyph b ("U+" ++ hex4 b ++ " (base of U+"
                  ++ hex4 b ++ " U+" ++ hex4 s ++ ")")
                with ⟨h2, lg, gname, ad⟩
              have hname := ensure_glyph_name h b ("U+" ++ hex4 b
                ++ " (base of U+" ++ hex4 b ++ " U+" ++ hex4 s ++ ")")
              rw [hEG] at hname
              simp only at hname
              simp [Handler.add_vs_glyph, Handler.get_font_vs_cmap, hv, hlook,
                hEG, vsObserved, effUVS, FontVSCmap.add, vsItemValue, hname]
          | false =>
              simp [Handler.add_vs_glyph, Handler.get_font_vs_cmap, hv, hlook,
                vsObserved, effUVS, FontVSCmap.add, vsItemValue,
                Handler.add_blank_glyph]
  | none =>
      cases hlook : (FontVSCmap.init sub14).lookup_glyphname b s with
      | some g =>
          simp [Handler.add_vs_glyph, Handler.get_font_vs_cmap, hv, hlook,
            vsObserved, effUVS, effUVS_init]
      | none =>
          cases d with
          | true =>
              rcases hEG : ({ h with vscmap := some (FontVSCmap.init sub14) } :
                  Handler).ensure_glyph b ("U+" ++ hex4 b ++ " (base of U+"
                  ++ hex4 b ++ " U+" ++ hex4 s ++ ")")
                with ⟨h2, lg, gname, ad⟩
              have hname := ensure_glyph_name
                ({ h with vscmap := some (FontVSCmap.init sub14) }) b
                ("U+" ++ hex4 b ++ " (base of U+" ++ hex4 b ++ " U+"
                  ++ hex4 s ++ ")")
              rw [hEG] at hname
              simp only at hname
              simp [Handler.add_vs_glyph, Handler.get_font_vs_cmap, hv, hlook,
                hEG, vsObserved, effUVS, FontVSCmap.add, vsItemValue, hname,
                effUVS_init]
          | false =>
              simp [Handler.add_vs_glyph, Handler.get_font_vs_cmap, hv, hlook,
                vsObserved, effUVS, FontVSCmap.add, vsItemValue,
                Handler.add_blank_glyph, effUVS_init]

theorem add_vs_vsFI (h : Handler) (sub14 : Option UVSDict) (b s : Nat)
    (d : Bool) :
    vsFI sub14 (h.add_vs_glyph sub14 b s d).1 =
      if vsObserved sub14 h b s = none
      then insertKey (vsFI sub14 h) (b, s) (some (vsItemValue h b s d))
      else vsFI sub14 h := by
  cases hv : h.vscmap with
  | some v =>
      cases hlook : v.lookup_glyphname b s with
      | some g =>
          simp [Handler.add_vs_glyph, Handler.get_font_vs_cmap, hv, hlook,
            vsObserved, vsFI]
      | none =>
          cases d with
          | true =>
              rcases hEG : h.ensure_glyph b ("U+" ++ hex4 b ++ " (base of U+"
                  ++ hex4 b ++ " U+" ++ hex4 s ++ ")")
                with ⟨h2, lg, gname, ad⟩
              have hname := ensure_glyph_name h b ("U+" ++ hex4 b
                ++ " (base of U+" ++ hex4 b ++ " U+" ++ hex4 s ++ ")")
              rw [hEG] at hname
              simp only at hname
              simp [Handler.add_vs_glyph, Handler.get_font_vs_cmap, hv, hlook,
                hEG, vsObserved, vsFI, FontVSCmap.add, vsItemValue, hname]
          | false =>
              simp [Handler.add_vs_glyph, Handler.get_font_vs_cmap, hv, hlook,
                vsObserved, vsFI, FontVSCmap.add, vsItemValue,
                Handler.add_blank_glyph]
  | none =>
      cases hlook : (FontVSCmap.init sub14).lookup_glyphname b s with
      | some g =>
          simp [Handler.add_vs_glyph, Handler.get_font_vs_cmap, hv, hlook,
            vsObserved, vsFI, vsFI_init]
      | none =>
          cases d with
          | true =>
              rcases hEG : ({ h with vscmap := some (FontVSCmap.init sub14) } :
                  Handler).ensure_glyph b ("U+" ++ hex4 b ++ " (base of U+"
                  ++ hex4 b ++ " U+" ++ hex4 s ++ ")")
                with ⟨h2, lg, gname, ad⟩
              have hname := ensure_glyph_name
                ({ h with vscmap := some (FontVSCmap.init sub14) }) b
                ("U+" ++ hex4 b ++ " (base of U+" ++ hex4 b ++ " U+"
                  ++ hex4 s ++ ")")
              rw [hEG] at hname
              simp only at hname
              simp [Handler.add_vs_glyph, Handler.get_font_vs_cmap, hv, hlook,
                hEG, vsObserved, vsFI, FontVSCmap.add, vsItemValue, hname,
                vsFI_init]
          | false =>
              simp [Handler.add_vs_glyph, Handler.get_font_vs_cmap, hv, hlook,
                vsObserved, vsFI, FontVSCmap.add, vsItemValue,
                Handler.add_blank_glyph, vsFI_init]

theorem add_vs_sub4_isSome (h : Handler) (sub14 : Option UVSDict)
    (b s : Nat) (d : Bool) :
    (h.add_vs_glyph sub14 b s d).1.cmap.sub4.isSome = h.cmap.sub4.isSome := by
  rw [Handler.add_vs_glyph, get_font_vs_cmap_eq]
  cases hlook : (vcmOf sub14 h).lookup_glyphname b s with
  | some g => simp [hlook]
  | none =>
      cases d with
      | true =>
          simp only [hlook]
          rcases hEG : ({ h with vscmap := some (vcmOf sub14 h) } :
              Handler).ensure_glyph b ("U+" ++ hex4 b ++ " (base of U+"
                ++ hex4 b ++ " U+" ++ hex4 s ++ ")")
            with ⟨h2, lg, gname, ad⟩
          have hiss := ensure_glyph_sub4_isSome
            ({ h with vscmap := some (vcmOf sub14 h) }) b
            ("U+" ++ hex4 b ++ " (base of U+" ++ hex4 b ++ " U+" ++ hex4 s
              ++ ")")
          rw [hEG] at hiss
          simp only at hiss
          simp only [hEG, ite_true]
          exact hiss
      | false =>
          simp [hlook, Handler.add_blank_glyph]

theorem add_vs_vsItemValue (h : Handler) (sub14 : Option UVSDict)
    (b s : Nat) (d : Bool) (b2 s2 : Nat) (d2 : Bool) :
    vsItemValue (h.add_vs_glyph sub14 b s d).1 b2 s2 d2 =
      vsItemValue h b2 s2 d2 := by
  cases d2 with
  | false => rfl
  | true =>
      simp only [vsItemValue, ite_true, add_vs_subt]
      rw [getD_or_if_gen]

theorem vsObserved_eq_vsFI (sub14 : Option UVSDict) (h : Handler)
    (b s : Nat) :
    vsObserved sub14 h b s = (lookupKey (vsFI sub14 h) (b, s)).bind id := by
  cases hv : h.vscmap with
  | some v => simp [vsObserved, vsFI, hv, FontVSCmap.lookup_glyphname]
  | none =>
      simp [vsObserved, vsFI, hv, FontVSCmap.lookup_glyphname, vsFI_init]

theorem add_glyph_fst (h : Handler) (cp : Nat) :
    (h.add_glyph cp).1 = (h.ensure_glyph cp ("U+" ++ hex4 cp)).1 := by
  cases hl : h.cmap.lookup_glyphname cp <;>
    simp [Handler.add_glyph, Handler.ensure_glyph, hl,
      Handler.add_blank_glyph]

theorem processChars_vscmap (cps : List Nat) :
    ∀ h : Handler, (processChars h cps).1.vscmap = h.vscmap := by
  induction cps with
  | nil => intro h; rfl
  | cons c rest ih =>
      intro h
      rcases hAG : h.add_glyph c with ⟨h1, lg⟩
      have h1v : h1.vscmap = h.vscmap := by
        have := add_glyph_fst h c
        rw [hAG] at this
        simp only at this
        rw [this]
        exact ensure_glyph_vscmap h c _
      simp only [processChars, hAG]
      rcases hrest : processChars h1 rest with ⟨h2, lg2⟩
      have := ih h1
      rw [hrest] at this
      simp only at this
      simp [this, h1v]

theorem processChars_sub4_isSome (cps : List Nat) :
    ∀ h : Handler,
      (processChars h cps).1.cmap.sub4.isSome = h.cmap.sub4.isSome := by
  induction cps with
  | nil => intro h; rfl
  | cons c rest ih =>
      intro h
      rcases hAG : h.add_glyph c with ⟨h1, lg⟩
      have h1v : h1.cmap.sub4.isSome = h.cmap.sub4.isSome := by
        have := add_glyph_fst h c
        rw [hAG] at this
        simp only at this
        rw [this]
        exact ensure_glyph_sub4_isSome h c _
      simp only [processChars, hAG]
      rcases hrest : processChars h1 rest with ⟨h2, lg2⟩
      have := ih h1
      rw [hrest] at this
      simp only at this
      simp [this, h1v]

theorem processChars_sub4 (cps : List Nat) :
    ∀ (h : Handler) (cp : Nat),
      sub4L (processChars h cps).1 cp =
        (sub4L h cp).or
          (if cp ∈ cps ∧ lookupKey h.cmap.subt cp = none ∧ cp < 0x10000 ∧
              h.cmap.sub4.isSome = true
           then some (generate_glyphname cp) else none) := by
  induction cps with
  | nil =>
      intro h cp
      simp only [processChars, List.not_mem_nil, false_and, if_false]
      rw [option_or_none]
  | cons c rest ih =>
      intro h cp
      have hfst : (processChars h (c :: rest)).1 =
          (processChars (h.add_glyph c).1 rest).1 := by
        rcases hAG : h.add_glyph c with ⟨h1, lg1⟩
        simp [processChars, hAG]
      rw [hfst, ih, add_glyph_fst, ensure_glyph_sub4,
        ensure_glyph_subt, ensure_glyph_sub4_isSome, or_if_merge]
      have hiff :
          ((cp = c ∧ lookupKey h.cmap.subt c = none ∧ cp < 0x10000 ∧
              h.cmap.sub4.isSome = true) ∨
           (cp ∈ rest ∧
              ((lookupKey h.cmap.subt cp).or
                (if cp = c then some (generate_glyphname cp) else none)
                = none) ∧
              cp < 0x10000 ∧ h.cmap.sub4.isSome = true)) ↔
          (cp ∈ c :: rest ∧ lookupKey h.cmap.subt cp = none ∧ cp < 0x10000 ∧
            h.cmap.sub4.isSome = true) := by
      
        rw [or_eq_none_iff, if_some_eq_none_iff]
        constructor
        · rintro (⟨rfl, hn, hlt, hs⟩ | ⟨hm, ⟨hn, hnc⟩, hlt, hs⟩)
          · exact ⟨List.mem_cons_self _ _, hn, hlt, hs⟩
          · exact ⟨List.mem_cons_of_mem _ hm, hn, hlt, hs⟩
        · rintro ⟨hm, hn, hlt, hs⟩
          rcases List.mem_cons.mp hm with rfl | hm2
          · exact Or.inl ⟨rfl, hn, hlt, hs⟩
          · by_cases hc : cp = c
            · subst hc
              exact Or.inl ⟨rfl, hn, hlt, hs⟩
            · exact Or.inr ⟨hm2, ⟨hn, hc⟩, hlt, hs⟩
      rw [if_congr hiff rfl rfl]

theorem processVS_fst (sub14 : Option UVSDict) (h : Handler) (b s : Nat)
    (d : Bool) (rest : List ((Nat × Nat) × Bool)) :
    (processVS sub14 h (((b, s), d) :: rest)).1 =
      (processVS sub14 (h.add_vs_glyph sub14 b s d).1 rest).1 := by
  rcases hAG : h.add_vs_glyph sub14 b s d with ⟨h1, lg1⟩
  simp [processVS, hAG]

theorem processVS_vsObserved (sub14 : Option UVSDict)
    (items : List ((Nat × Nat) × Bool)) :
    ∀ h : Handler, (items.map Prod.fst).Nodup → ∀ b s,
      vsObserved sub14 (processVS sub14 h items).1 b s =
        (vsObserved sub14 h b s).or
          ((lookupKey items (b, s)).map (fun d => vsItemValue h b s d)) := by
  induction items with
  | nil =>
      intro h _ b s
      simp only [processVS, lookupKey, Option.map_none']
      rw [option_or_none]
  | cons it rest ih =>
      obtain ⟨⟨b0, s0⟩, d0⟩ := it
      intro h hnd b s
      have hnd2 : (rest.map Prod.fst).Nodup := by
        rw [List.map_cons] at hnd
        exact (List.nodup_cons.mp hnd).2
      have hnotin : (b0, s0) ∉ rest.map Prod.fst := by
        rw [List.map_cons] at hnd
        exact (List.nodup_cons.mp hnd).1
      rw [processVS_fst, ih _ hnd2]
      by_cases hk : (b, s) = (b0, s0)
      · obtain ⟨hb, hs⟩ : b = b0 ∧ s = s0 := by
          exact Prod.mk.injEq .. ▸ hk
        subst hb; subst hs
        have hrest : lookupKey rest (b, s) = none :=
          lookupKey_eq_none_of_not_mem_keys _ _ hnotin
        rw [hrest, add_vs_vsObserved, if_pos rfl]
        simp only [Option.map_none']
        rw [option_or_none]
        have hcons : lookupKey (((b, s), d0) :: rest) (b, s) = some d0 := by
          simp [lookupKey]
        rw [hcons]
        rfl
      · rw [add_vs_vsObserved, if_neg hk]
        have hcons : lookupKey (((b0, s0), d0) :: rest) (b, s) =
            lookupKey rest (b, s) := by
          simp only [lookupKey,
            if_neg (fun hc : (b0, s0) = (b, s) => hk hc.symm)]
        rw [hcons]
        cases hlr : lookupKey rest (b, s) with
        | none => rfl
        | some d2 =>
            simp only [Option.map_some']
            rw [add_vs_vsItemValue]

theorem processVS_subt (sub14 : Option UVSDict)
    (items : List ((Nat × Nat) × Bool)) :
    ∀ h : Handler, (items.map Prod.fst).Nodup → ∀ cp : Nat,
      lookupKey (processVS sub14 h items).1.cmap.subt cp =
        (lookupKey h.cmap.subt cp).or
          (if ∃ p ∈ items, p.1.1 = cp ∧ p.2 = true ∧
              vsObserved sub14 h cp p.1.2 = none
           then some (generate_glyphname cp) else none) := by
  induction items with
  | nil =>
      intro h _ cp
      simp only [processVS, List.not_mem_nil, false_and, exists_false,
        exists_prop, if_false]
      rw [option_or_none]
  | cons it rest ih =>
      obtain ⟨⟨b0, s0⟩, d0⟩ := it
      intro h hnd cp
      have hnd2 : (rest.map Prod.fst).Nodup := by
        rw [List.map_cons] at hnd
        exact (List.nodup_cons.mp hnd).2
      have hnotin : (b0, s0) ∉ rest.map Prod.fst := by
        rw [List.map_cons] at hnd
        exact (List.nodup_cons.mp hnd).1
      have hkeyne : ∀ p ∈ rest, p.1.1 = cp → ((cp : Nat), p.1.2) ≠ (b0, s0) := by
        intro p hp hcp hc
        apply hnotin
        have hpk : p.1 = (b0, s0) := by
          rw [← hc, ← hcp]
        exact List.mem_map.mpr ⟨p, hp, hpk⟩
      have htrans : ∀ p ∈ rest, p.1.1 = cp →
          (vsObserved sub14 (h.add_vs_glyph sub14 b0 s0 d0).1 cp p.1.2 =
           vsObserved sub14 h cp p.1.2) := by
        intro p hp hcp
        rw [add_vs_vsObserved, if_neg (hkeyne p hp hcp)]
      rw [processVS_fst, ih _ hnd2, add_vs_subt, or_if_merge]
      have hiff :
          ((cp = b0 ∧ d0 = true ∧ vsObserved sub14 h b0 s0 = none) ∨
           (∃ p ∈ rest, p.1.1 = cp ∧ p.2 = true ∧
             vsObserved sub14 (h.add_vs_glyph sub14 b0 s0 d0).1 cp p.1.2 =
               none)) ↔
          (∃ p ∈ ((b0, s0), d0) :: rest, p.1.1 = cp ∧ p.2 = true ∧
            vsObserved sub14 h cp p.1.2 = none) := by
        constructor
        · rintro (⟨rfl, hd, hobs⟩ | ⟨p, hp, hcp, hd, hobs⟩)
          · exact ⟨((cp, s0), d0), List.mem_cons_self _ _, rfl, hd, hobs⟩
          · refine ⟨p, List.mem_cons_of_mem _ hp, hcp, hd, ?_⟩
            rw [← htrans p hp hcp]
            exact hobs
        · rintro ⟨p, hp, hcp, hd, hobs⟩
          rcases List.mem_cons.mp hp with rfl | hp2
          · exact Or.inl ⟨hcp.symm, hd, by rw [← hcp] at hobs; exact hobs⟩
          · refine Or.inr ⟨p, hp2, hcp, hd, ?_⟩
            rw [htrans p hp2 hcp]
            exact hobs
      rw [if_congr hiff rfl rfl]

theorem processVS_sub4 (sub14 : Option UVSDict)
    (items : List ((Nat × Nat) × Bool)) :
    ∀ h : Handler, (items.map Prod.fst).Nodup → ∀ cp : Nat,
      sub4L (processVS sub14 h items).1 cp =
        (sub4L h cp).or
          (if (∃ p ∈ items, p.1.1 = cp ∧ p.2 = true ∧
                vsObserved sub14 h cp p.1.2 = none) ∧
              lookupKey h.cmap.subt cp = none ∧ cp < 0x10000 ∧
              h.cmap.sub4.isSome = true
           then some (generate_glyphname cp) else none) := by
  induction items with
  | nil =>
      intro h _ cp
      simp only [processVS, List.not_mem_nil, false_and, exists_false,
        exists_prop, false_and, if_false]
      rw [option_or_none]
  | cons it rest ih =>
      obtain ⟨⟨b0, s0⟩, d0⟩ := it
      intro h hnd cp
      have hnd2 : (rest.map Prod.fst).Nodup := by
        rw [List.map_cons] at hnd
        exact (List.nodup_cons.mp hnd).2
      have hnotin : (b0, s0) ∉ rest.map Prod.fst := by
        rw [List.map_cons] at hnd
        exact (List.nodup_cons.mp hnd).1
      have hkeyne : ∀ p ∈ rest, p.1.1 = cp → ((cp : Nat), p.1.2) ≠ (b0, s0) := by
        intro p hp hcp hc
        apply hnotin
        have hpk : p.1 = (b0, s0) := by
          rw [← hc, ← hcp]
        exact List.mem_map.mpr ⟨p, hp, hpk⟩
      have htrans : ∀ p ∈ rest, p.1.1 = cp →
          (vsObserved sub14 (h.add_vs_glyph sub14 b0 s0 d0).1 cp p.1.2 =
           vsObserved sub14 h cp p.1.2) := by
        intro p hp hcp
        rw [add_vs_vsObserved, if_neg (hkeyne p hp hcp)]
      have hsubtN :
          (lookupKey (h.add_vs_glyph sub14 b0 s0 d0).1.cmap.subt cp = none) ↔
          (lookupKey h.cmap.subt cp = none ∧
           ¬(cp = b0 ∧ d0 = true ∧ vsObserved sub14 h b0 s0 = none)) := by
        rw [add_vs_subt, or_eq_none_iff, if_some_eq_none_iff]
      rw [processVS_fst, ih _ hnd2, add_vs_sub4, or_if_merge]
      have hiff :
          ((cp = b0 ∧ d0 = true ∧ vsObserved sub14 h b0 s0 = none ∧
              lookupKey h.cmap.subt b0 = none ∧ cp < 0x10000 ∧
              h.cmap.sub4.isSome = true) ∨
           ((∃ p ∈ rest, p.1.1 = cp ∧ p.2 = true ∧
               vsObserved sub14 (h.add_vs_glyph sub14 b0 s0 d0).1 cp p.1.2 =
                 none) ∧
            lookupKey (h.add_vs_glyph sub14 b0 s0 d0).1.cmap.subt cp = none ∧
            cp < 0x10000 ∧
            (h.add_vs_glyph sub14 b0 s0 d0).1.cmap.sub4.isSome = true)) ↔
          ((∃ p ∈ ((b0, s0), d0) :: rest, p.1.1 = cp ∧ p.2 = true ∧
              vsObserved sub14 h cp p.1.2 = none) ∧
           lookupKey h.cmap.subt cp = none ∧ cp < 0x10000 ∧
           h.cmap.sub4.isSome = true) := by
        rw [hsubtN, add_vs_sub4_isSome]
        constructor
        · rintro (⟨rfl, hd, hobs, hsn, hlt, hss⟩ |
                  ⟨⟨p, hp, hcp, hd, hobs⟩, ⟨hsn, hnc⟩, hlt, hss⟩)
          · exact ⟨⟨((cp, s0), d0), List.mem_cons_self _ _, rfl, hd, hobs⟩,
              hsn, hlt, hss⟩
          · refine ⟨⟨p, List.mem_cons_of_mem _ hp, hcp, hd, ?_⟩, hsn, hlt, hss⟩
            rw [← htrans p hp hcp]
            exact hobs
        · rintro ⟨⟨p, hp, hcp, hd, hobs⟩, hsn, hlt, hss⟩
          rcases List.mem_cons.mp hp with rfl | hp2
          · have hcp2 : b0 = cp := hcp
            subst hcp2
            exact Or.inl ⟨rfl, hd, hobs, hsn, hlt, hss⟩
          · by_cases hit : cp = b0 ∧ d0 = true ∧
                vsObserved sub14 h b0 s0 = none
            · obtain ⟨rfl, hd0, hobs0⟩ := hit
              exact Or.inl ⟨rfl, hd0, hobs0, hsn, hlt, hss⟩
            · refine Or.inr ⟨⟨p, hp2, hcp, hd, ?_⟩, ⟨hsn, hit⟩, hlt, hss⟩
              rw [htrans p hp2 hcp]
              exact hobs
      rw [if_congr hiff rfl rfl]

theorem processVS_flat (sub14 : Option UVSDict)
    (items : List ((Nat × Nat) × Bool)) :
    ∀ h : Handler, (items.map Prod.fst).Nodup →
      ∀ x : Nat × Nat × Option GlyphName,
      (x ∈ flattenUVS (effUVS sub14 (processVS sub14 h items).1) ↔
        (x ∈ flattenUVS (effUVS sub14 h) ∨
         ∃ p ∈ items, vsObserved sub14 h p.1.1 p.1.2 = none ∧
           x = (p.1.2, p.1.1, some (vsItemValue h p.1.1 p.1.2 p.2)))) := by
  induction items with
  | nil =>
      intro h _ x
      simp [processVS]
  | cons it rest ih =>
      obtain ⟨⟨b0, s0⟩, d0⟩ := it
      intro h hnd x
      have hnd2 : (rest.map Prod.fst).Nodup := by
        rw [List.map_cons] at hnd
        exact (List.nodup_cons.mp hnd).2
      have hnotin : (b0, s0) ∉ rest.map Prod.fst := by
        rw [List.map_cons] at hnd
        exact (List.nodup_cons.mp hnd).1
      have hkeyne : ∀ p ∈ rest, (p.1.1, p.1.2) ≠ ((b0 : Nat), s0) := by
        intro p hp hc
        apply hnotin
        exact List.mem_map.mpr ⟨p, hp, hc⟩
      have htrans : ∀ p ∈ rest,
          (vsObserved sub14 (h.add_vs_glyph sub14 b0 s0 d0).1 p.1.1 p.1.2 =
           vsObserved sub14 h p.1.1 p.1.2) := by
        intro p hp
        rw [add_vs_vsObserved, if_neg (hkeyne p hp)]
      have hval : ∀ p ∈ rest, ∀ d2 : Bool,
          vsItemValue (h.add_vs_glyph sub14 b0 s0 d0).1 p.1.1 p.1.2 d2 =
            vsItemValue h p.1.1 p.1.2 d2 := by
        intro p hp d2
        exact add_vs_vsItemValue h sub14 b0 s0 d0 p.1.1 p.1.2 d2
      have hrestiff :
          (∃ p ∈ rest,
            vsObserved sub14 (h.add_vs_glyph sub14 b0 s0 d0).1 p.1.1 p.1.2 =
              none ∧
            x = (p.1.2, p.1.1,
              some (vsItemValue (h.add_vs_glyph sub14 b0 s0 d0).1 p.1.1
                p.1.2 p.2))) ↔
          (∃ p ∈ rest, vsObserved sub14 h p.1.1 p.1.2 = none ∧
            x = (p.1.2, p.1.1, some (vsItemValue h p.1.1 p.1.2 p.2))) := by
        constructor
        · rintro ⟨p, hp, hobs, hx⟩
          refine ⟨p, hp, ?_, ?_⟩
          · rw [← htrans p hp]; exact hobs
          · rw [← hval p hp p.2]; exact hx
        · rintro ⟨p, hp, hobs, hx⟩
          refine ⟨p, hp, ?_, ?_⟩
          · rw [htrans p hp]; exact hobs
          · rw [hval p hp p.2]; exact hx
      rw [processVS_fst, ih _ hnd2, hrestiff, add_vs_effUVS]
      by_cases hobs : vsObserved sub14 h b0 s0 = none
      · rw [if_pos hobs, mem_flattenUVS_uvsAppend]
        constructor
        · rintro ((hmem | hnew) | hrest)
          · exact Or.inl hmem
          · exact Or.inr ⟨((b0, s0), d0), List.mem_cons_self _ _, hobs, hnew⟩
          · obtain ⟨p, hp, h1, h2⟩ := hrest
            exact Or.inr ⟨p, List.mem_cons_of_mem _ hp, h1, h2⟩
        · rintro (hmem | ⟨p, hp, h1, h2⟩)
          · exact Or.inl (Or.inl hmem)
          · rcases List.mem_cons.mp hp with rfl | hp2
            · exact Or.inl (Or.inr h2)
            · exact Or.inr ⟨p, hp2, h1, h2⟩
      · rw [if_neg hobs]
        constructor
        · rintro (hmem | ⟨p, hp, h1, h2⟩)
          · exact Or.inl hmem
          · exact Or.inr ⟨p, List.mem_cons_of_mem _ hp, h1, h2⟩
        · rintro (hmem | ⟨p, hp, h1, h2⟩)
          · exact Or.inl hmem
          · rcases List.mem_cons.mp hp with rfl | hp2
            · exact absurd h1 hobs
            · exact Or.inr ⟨p, hp2, h1, h2⟩

theorem processVS_extension (sub14 : Option UVSDict)
    (items : List ((Nat × Nat) × Bool)) :
    ∀ (h : Handler) (sel : Nat) (l0 : UVSList),
      lookupKey (effUVS sub14 h) sel = some l0 →
      ∃ t, lookupKey (effUVS sub14 (processVS sub14 h items).1) sel =
        some (l0 ++ t) := by
  induction items with
  | nil =>
      intro h sel l0 hl
      exact ⟨[], by simpa [processVS] using hl⟩
  | cons it rest ih =>
      obtain ⟨⟨b0, s0⟩, d0⟩ := it
      intro h sel l0 hl
      rw [processVS_fst]
      by_cases hobs : vsObserved sub14 h b0 s0 = none
      · have hstep : lookupKey
            (effUVS sub14 (h.add_vs_glyph sub14 b0 s0 d0).1) sel =
            if sel = s0
            then some (l0 ++ [(b0, some (vsItemValue h b0 s0 d0))])
            else some l0 := by
          rw [add_vs_effUVS, if_pos hobs, uvsAppend_lookup]
          by_cases hsel : sel = s0
          · subst hsel
            rw [if_pos rfl, if_pos rfl, hl]
            rfl
          · rw [if_neg hsel, if_neg hsel, hl]
        by_cases hsel : sel = s0
        · rw [if_pos hsel] at hstep
          obtain ⟨t, ht⟩ := ih _ sel _ hstep
          exact ⟨[(b0, some (vsItemValue h b0 s0 d0))] ++ t,
            by rw [ht, List.append_assoc]⟩
        · rw [if_neg hsel] at hstep
          exact ih _ sel _ hstep
      · have hstep : lookupKey
            (effUVS sub14 (h.add_vs_glyph sub14 b0 s0 d0).1) sel =
            some l0 := by
          rw [add_vs_effUVS, if_neg hobs, hl]
        exact ih _ sel _ hstep

theorem lookupKey_insertKey_congr {κ α : Type} [DecidableEq κ]
    (A B : List (κ × α)) (hAB : ∀ k, lookupKey A k = lookupKey B k)
    (kk : κ) (v : α) (k : κ) :
    lookupKey (insertKey A kk v) k = lookupKey (insertKey B kk v) k := by
  by_cases hk : kk = k
  · subst hk
    rw [lookupKey_insertKey_self, lookupKey_insertKey_self]
  · rw [lookupKey_insertKey_other _ _ _ _ hk,
      lookupKey_insertKey_other _ _ _ _ hk]
    exact hAB k

theorem processVS_inv (sub14 : Option UVSDict)
    (items : List ((Nat × Nat) × Bool)) :
    ∀ h : Handler,
      ((effUVS sub14 h).map Prod.fst).Nodup →
      (∀ k, lookupKey (vsFI sub14 h) k =
        lookupKey (vsIndexOf (effUVS sub14 h)) k) →
      (((effUVS sub14 (processVS sub14 h items).1).map Prod.fst).Nodup ∧
       ∀ k, lookupKey (vsFI sub14 (processVS sub14 h items).1) k =
         lookupKey (vsIndexOf (effUVS sub14 (processVS sub14 h items).1)) k)
    := by
  induction items with
  | nil =>
      intro h hnd hinv
      exact ⟨hnd, hinv⟩
  | cons it rest ih =>
      obtain ⟨⟨b0, s0⟩, d0⟩ := it
      intro h hnd hinv
      rw [processVS_fst]
      by_cases hobs : vsObserved sub14 h b0 s0 = none
      · refine ih _ ?_ ?_
        · rw [add_vs_effUVS, if_pos hobs]
          exact uvsAppend_keys_nodup _ _ _ hnd
        · intro k
          rw [add_vs_vsFI, if_pos hobs, add_vs_effUVS, if_pos hobs]
          rw [lookupKey_insertKey_congr (vsFI sub14 h)
            (vsIndexOf (effUVS sub14 h)) hinv (b0, s0)
            (some (vsItemValue h b0 s0 d0)) k]
          rw [vsIndexOf_uvsAppend _ _ _ hnd k]
      · refine ih _ ?_ ?_
        · rw [add_vs_effUVS, if_neg hobs]
          exact hnd
        · intro k
          rw [add_vs_vsFI, if_neg hobs, add_vs_effUVS, if_neg hobs]
          exact hinv k

theorem processChars_vsObserved (sub14 : Option UVSDict) (cps : List Nat)
    (h : Handler) (b s : Nat) :
    vsObserved sub14 (processChars h cps).1 b s = vsObserved sub14 h b s := by
  simp only [vsObserved, processChars_vscmap]

theorem processChars_effUVS (sub14 : Option UVSDict) (cps : List Nat)
    (h : Handler) :
    effUVS sub14 (processChars h cps).1 = effUVS sub14 h := by
  simp only [effUVS, processChars_vscmap]

theorem processChars_vsFI (sub14 : Option UVSDict) (cps : List Nat)
    (h : Handler) :
    vsFI sub14 (processChars h cps).1 = vsFI sub14 h := by
  simp only [vsFI, processChars_vscmap]

/-- With duplicate-free keys (a Python `dict`), the first-match lookup is
insensitive to the order of the entry list. -/
theorem lookupKey_perm {κ α : Type} [DecidableEq κ]
    (l1 l2 : List (κ × α)) (hp : l1.Perm l2)
    (hnd : (l1.map Prod.fst).Nodup) (k : κ) :
    lookupKey l1 k = lookupKey l2 k := by
  induction hp with
  | nil => rfl
  | cons x l ih =>
      rename_i l1t l2t hpt
      rw [List.map_cons] at hnd
      obtain ⟨px, pv⟩ := x
      simp only [lookupKey]
      by_cases hx : px = k
      · rw [if_pos hx, if_pos hx]
      · rw [if_neg hx, if_neg hx]
        exact ih (List.nodup_cons.mp hnd).2
  | swap x y l =>
      obtain ⟨px, pv⟩ := x
      obtain ⟨py, qv⟩ := y
      simp only [List.map_cons, List.nodup_cons, List.mem_cons] at hnd
      have hne : py ≠ px := fun hc => hnd.1 (Or.inl hc)
      simp only [lookupKey]
      by_cases hx : px = k
      · subst hx
        rw [if_neg (fun hc : py = px => hne hc), if_pos rfl, if_pos rfl]
      · by_cases hy : py = k
        · rw [if_pos hy, if_neg hx, if_pos hy]
        · rw [if_neg hy, if_neg hx, if_neg hx, if_neg hy]
  | trans h1 h2 ih1 ih2 =>
      rename_i la lb lc
      have hndb : (lb.map Prod.fst).Nodup :=
        ((h1.map Prod.fst).nodup_iff).mp hnd
      rw [ih1 hnd, ih2 hndb]

/-- The fresh handler state a run starts from. -/
def baseHandler (f : Font) (cm : FontCMap) : Handler :=
  { cmap := cm, vscmap := none, glyphOrder := f.glyphOrder,
    addedCount := 0 }

/-- The handler state at the end of a run that queues no substitution
rules: Character Map Editor phase then Variation Map Editor phase. -/
def noRulesHandler (f : Font) (cm : FontCMap) (r : Request) : Handler :=
  (processVS f.sub14 (processChars (baseHandler f cm) r.chars).1 r.vs).1

/-- A run with an empty substitution-rule mapping reduces to the two
editor phases: the Legacy Migrator and the rule engine are skipped
(main.py:650-651) and the GSUB table is returned untouched. -/
theorem runEngine_noRules (f : Font) (r : Request) (cm : FontCMap)
    (hcm : FontCMap.init f.sub4 f.sub12 = .ok cm)
    (hr : r.gsubRules = []) :
    runEngine f r = .ok
      ({ sub4 := (noRulesHandler f cm r).cmap.sub4,
         sub12 := some (noRulesHandler f cm r).cmap.subt,
         sub14 :=
           match (noRulesHandler f cm r).vscmap with
           | some v => some v.uvsDict
           | none => f.sub14,
         glyphOrder := (noRulesHandler f cm r).glyphOrder,
         gsub := f.gsub },
       (processChars (baseHandler f cm) r.chars).2 ++
        (processVS f.sub14
          (processChars (baseHandler f cm) r.chars).1 r.vs).2 ++ []) := by
  rcases hc : processChars (baseHandler f cm) r.chars with ⟨h1, log1⟩
  rcases hv : processVS f.sub14 h1 r.vs with ⟨h2, log2⟩
  have hb : ({ cmap := cm, vscmap := none, glyphOrder := f.glyphOrder, addedCount := 0 } : Handler) = baseHandler f cm := rfl
  simp [runEngine, hcm, hr, hb, hc, hv, processRules, GsubHolder.current,
    noRulesHandler, Bind.bind, Except.bind]


theorem noRulesHandlers_agree (f : Font) (cm : FontCMap) (r1 r2 : Request)
    (hpc : r1.chars.Perm r2.chars) (hpv : r1.vs.Perm r2.vs)
    (hnd : (r1.vs.map Prod.fst).Nodup) :
    (∀ cp, lookupKey (noRulesHandler f cm r1).cmap.subt cp =
           lookupKey (noRulesHandler f cm r2).cmap.subt cp) ∧
    (∀ cp, sub4L (noRulesHandler f cm r1) cp =
           sub4L (noRulesHandler f cm r2) cp) ∧
    (∀ b s, vsObserved f.sub14 (noRulesHandler f cm r1) b s =
            vsObserved f.sub14 (noRulesHandler f cm r2) b s) ∧
    (∀ x, x ∈ flattenUVS (effUVS f.sub14 (noRulesHandler f cm r1)) ↔
          x ∈ flattenUVS (effUVS f.sub14 (noRulesHandler f cm r2))) := by
  have hnd2 : (r2.vs.map Prod.fst).Nodup :=
    ((hpv.map Prod.fst).nodup_iff).mp hnd
  have hlk : ∀ k, lookupKey r1.vs k = lookupKey r2.vs k :=
    lookupKey_perm _ _ hpv hnd
  have hsubt1 : ∀ cp,
      lookupKey (processChars (baseHandler f cm) r1.chars).1.cmap.subt cp =
      lookupKey (processChars (baseHandler f cm) r2.chars).1.cmap.subt cp := by
    intro cp
    rw [processChars_lookup, processChars_lookup]
    by_cases hm : cp ∈ r1.chars
    · rw [if_pos hm, if_pos (hpc.mem_iff.mp hm)]
    · rw [if_neg hm, if_neg (fun hc => hm (hpc.mem_iff.mpr hc))]
  have hsub41 : ∀ cp,
      sub4L (processChars (baseHandler f cm) r1.chars).1 cp =
      sub4L (processChars (baseHandler f cm) r2.chars).1 cp := by
    intro cp
    rw [processChars_sub4, processChars_sub4]
    rw [if_congr (and_congr_left (fun _ => hpc.mem_iff)) rfl rfl]
  have hvsO1 : ∀ b s,
      vsObserved f.sub14 (processChars (baseHandler f cm) r1.chars).1 b s =
      vsObserved f.sub14 (processChars (baseHandler f cm) r2.chars).1 b s := by
    intro b s
    rw [processChars_vsObserved, processChars_vsObserved]
  have heff1 :
      effUVS f.sub14 (processChars (baseHandler f cm) r1.chars).1 =
      effUVS f.sub14 (processChars (baseHandler f cm) r2.chars).1 := by
    rw [processChars_effUVS, processChars_effUVS]
  have hval1 : ∀ (b s : Nat) (d : Bool),
      vsItemValue (processChars (baseHandler f cm) r1.chars).1 b s d =
      vsItemValue (processChars (baseHandler f cm) r2.chars).1 b s d := by
    intro b s d
    cases d with
    | false => rfl
    | true =>
        simp only [vsItemValue, ite_true]
        rw [hsubt1 b]
  refine ⟨?_, ?_, ?_, ?_⟩
  · intro cp
    rw [noRulesHandler, noRulesHandler, processVS_subt _ _ _ hnd,
      processVS_subt _ _ _ hnd2, hsubt1]
    have hiff : (∃ p ∈ r1.vs, p.1.1 = cp ∧ p.2 = true ∧
        vsObserved f.sub14 (processChars (baseHandler f cm) r1.chars).1 cp
          p.1.2 = none) ↔
        (∃ p ∈ r2.vs, p.1.1 = cp ∧ p.2 = true ∧
        vsObserved f.sub14 (processChars (baseHandler f cm) r2.chars).1 cp
          p.1.2 = none) := by
      constructor
      · rintro ⟨p, hp, h1, h2, h3⟩
        exact ⟨p, hpv.mem_iff.mp hp, h1, h2, by rw [← hvsO1]; exact h3⟩
      · rintro ⟨p, hp, h1, h2, h3⟩
        exact ⟨p, hpv.mem_iff.mpr hp, h1, h2, by rw [hvsO1]; exact h3⟩
    rw [if_congr hiff rfl rfl]
  · intro cp
    rw [noRulesHandler, noRulesHandler, processVS_sub4 _ _ _ hnd,
      processVS_sub4 _ _ _ hnd2, hsub41]
    have hiff : ((∃ p ∈ r1.vs, p.1.1 = cp ∧ p.2 = true ∧
        vsObserved f.sub14 (processChars (baseHandler f cm) r1.chars).1 cp
          p.1.2 = none) ∧
        lookupKey (processChars (baseHandler f cm) r1.chars).1.cmap.subt cp =
          none ∧ cp < 0x10000 ∧
        (processChars (baseHandler f cm) r1.chars).1.cmap.sub4.isSome =
          true) ↔
        ((∃ p ∈ r2.vs, p.1.1 = cp ∧ p.2 = true ∧
        vsObserved f.sub14 (processChars (baseHandler f cm) r2.chars).1 cp
          p.1.2 = none) ∧
        lookupKey (processChars (baseHandler f cm) r2.chars).1.cmap.subt cp =
          none ∧ cp < 0x10000 ∧
        (processChars (baseHandler f cm) r2.chars).1.cmap.sub4.isSome =
          true) := by
      rw [hsubt1, processChars_sub4_isSome, processChars_sub4_isSome]
      constructor
      · rintro ⟨⟨p, hp, h1, h2, h3⟩, h4⟩
        exact ⟨⟨p, hpv.mem_iff.mp hp, h1, h2, by rw [← hvsO1]; exact h3⟩, h4⟩
      · rintro ⟨⟨p, hp, h1, h2, h3⟩, h4⟩
        exact ⟨⟨p, hpv.mem_iff.mpr hp, h1, h2, by rw [hvsO1]; exact h3⟩, h4⟩
    rw [if_congr hiff rfl rfl]
  · intro b s
    rw [noRulesHandler, noRulesHandler, processVS_vsObserved _ _ _ hnd,
      processVS_vsObserved _ _ _ hnd2, hvsO1, hlk]
    cases hl2 : lookupKey r2.vs (b, s) with
    | none => rfl
    | some d =>
        simp only [Option.map_some']
        rw [hval1]
  · intro x
    rw [noRulesHandler, noRulesHandler, processVS_flat _ _ _ hnd,
      processVS_flat _ _ _ hnd2, heff1]
    constructor
    · rintro (hm | ⟨p, hp, h1, h2⟩)
      · exact Or.inl hm
      · refine Or.inr ⟨p, hpv.mem_iff.mp hp, ?_, ?_⟩
        · rw [← hvsO1]; exact h1
        · rw [← hval1]; exact h2
    · rintro (hm | ⟨p, hp, h1, h2⟩)
      · exact Or.inl hm
      · refine Or.inr ⟨p, hpv.mem_iff.mpr hp, ?_, ?_⟩
        · rw [hvsO1]; exact h1
        · rw [hval1]; exact h2

theorem out14_getD (sub14 : Option UVSDict) (h : Handler) :
    (match h.vscmap with
     | some v => some v.uvsDict
     | none => sub14).getD [] = effUVS sub14 h := by
  cases hv : h.vscmap with
  | some v => simp [effUVS, hv]
  | none => simp [effUVS, hv]

theorem out14_init_lookup (sub14 : Option UVSDict) (h : Handler)
    (b s : Nat) :
    (FontVSCmap.init (match h.vscmap with
      | some v => some v.uvsDict
      | none => sub14)).lookup_glyphname b s =
      (lookupKey (vsIndexOf (effUVS sub14 h)) (b, s)).bind id := by
  cases hv : h.vscmap with
  | some v =>
      simp [hv, FontVSCmap.init, FontVSCmap.lookup_glyphname, effUVS]
  | none =>
      cases sub14 <;>
        simp [hv, FontVSCmap.init, FontVSCmap.lookup_glyphname, effUVS,
          vsIndexOf]

theorem noRulesHandler_inv (f : Font) (cm : FontCMap) (r : Request)
    (hnd14 : ((f.sub14.getD []).map Prod.fst).Nodup) :
    ∀ k, lookupKey (vsFI f.sub14 (noRulesHandler f cm r)) k =
      lookupKey (vsIndexOf (effUVS f.sub14 (noRulesHandler f cm r))) k := by
  have h2 := processVS_inv f.sub14 r.vs
    (processChars (baseHandler f cm) r.chars).1 ?_ ?_
  · exact h2.2
  · rw [processChars_effUVS]
    exact hnd14
  · intro k
    rw [processChars_vsFI, processChars_effUVS]
    rfl

theorem noRulesHandler_out14_lookup (f : Font) (cm : FontCMap) (r : Request)
    (hnd14 : ((f.sub14.getD []).map Prod.fst).Nodup) (b s : Nat) :
    (FontVSCmap.init (match (noRulesHandler f cm r).vscmap with
      | some v => some v.uvsDict
      | none => f.sub14)).lookup_glyphname b s =
      vsObserved f.sub14 (noRulesHandler f cm r) b s := by
  rw [out14_init_lookup, ← noRulesHandler_inv f cm r hnd14 (b, s),
    ← vsObserved_eq_vsFI]

theorem noRulesHandler_extension (f : Font) (cm : FontCMap) (r : Request)
    (sel : Nat) (l0 : UVSList)
    (hl : lookupKey (f.sub14.getD []) sel = some l0) :
    ∃ t, lookupKey (effUVS f.sub14 (noRulesHandler f cm r)) sel =
      some (l0 ++ t) := by
  apply processVS_extension
  rw [processChars_effUVS]
  exact hl

/-! ### Rule-item order: the grouped `try_add_rule` fold -/

/-- The grouping of one tag's resolved `(input, alternate)` pairs
(main.py:653-658): `dict.setdefault(input, []).append(alternate)`. -/
def groupPairs (ps : List (GlyphName × GlyphName)) :
    List (GlyphName × List GlyphName) :=
  ps.foldl (fun acc p => appendAlt acc p.1 p.2) []

/-- Folding the grouped items of one tag into an alternate-substitution
lookup state through `GSUBAlternateSubstRuleAdder.try_add_rule`
(gsub.py:120-149). -/
def altFold (tag : String) :
    List AltMapping → List (GlyphName × List GlyphName) → List AltMapping
  | st, [] => st
  | st, (t, reps) :: rest =>
      altFold tag (alternateTryAddRule tag st t reps).1 rest

theorem appendAlt_lookup (acc : List (GlyphName × List GlyphName))
    (k v : GlyphName) (t : GlyphName) :
    lookupKey (appendAlt acc k v) t =
      if t = k then some ((lookupKey acc k).getD [] ++ [v])
      else lookupKey acc t := by
  induction acc with
  | nil =>
      by_cases ht : t = k
      · subst ht
        simp [appendAlt, lookupKey]
      · rw [if_neg ht]
        simp only [appendAlt, lookupKey,
          if_neg (fun hc : k = t => ht hc.symm)]
  | cons hd tl ih =>
      obtain ⟨k1, l1⟩ := hd
      by_cases hk1 : k1 = k
      · subst hk1
        have hrw : appendAlt ((k1, l1) :: tl) k1 v = (k1, l1 ++ [v]) :: tl := by
          simp [appendAlt]
        rw [hrw]
        by_cases ht : t = k1
        · subst ht
          simp [lookupKey]
        · rw [if_neg ht]
          simp only [lookupKey, if_neg (fun hc : k1 = t => ht hc.symm)]
      · have hrw : appendAlt ((k1, l1) :: tl) k v =
            (k1, l1) :: appendAlt tl k v := by
          simp [appendAlt, hk1]
        rw [hrw]
        by_cases ht : t = k1
        · subst ht
          rw [if_neg hk1]
          simp [lookupKey]
        · simp only [lookupKey, if_neg (fun hc : k1 = t => ht hc.symm),
            if_neg hk1]
          exact ih

theorem groupPairs_lookup_aux (ps : List (GlyphName × GlyphName)) :
    ∀ (acc : List (GlyphName × List GlyphName)) (t x : GlyphName),
      (x ∈ (lookupKey (ps.foldl (fun a p => appendAlt a p.1 p.2) acc) t).getD
        [] ↔ ((t, x) ∈ ps ∨ x ∈ (lookupKey acc t).getD [])) := by
  induction ps with
  | nil =>
      intro acc t x
      simp
  | cons p rest ih =>
      obtain ⟨pk, pv⟩ := p
      intro acc t x
      rw [List.foldl_cons, ih]
      constructor
      · rintro (hm | hm)
        · exact Or.inl (List.mem_cons_of_mem _ hm)
        · rw [appendAlt_lookup] at hm
          by_cases ht : t = pk
          · subst ht
            rw [if_pos rfl] at hm
            simp only [Option.getD_some] at hm
            rcases List.mem_append.mp hm with hm2 | hm2
            · exact Or.inr hm2
            · simp only [List.mem_singleton] at hm2
              subst hm2
              exact Or.inl (List.mem_cons_self _ _)
          · rw [if_neg ht] at hm
            exact Or.inr hm
      · rintro (hm | hm)
        · rcases List.mem_cons.mp hm with heq | hm2
          · obtain ⟨h1, h2⟩ := Prod.mk.injEq .. ▸ heq
            subst h1
            subst h2
            refine Or.inr ?_
            rw [appendAlt_lookup, if_pos rfl]
            simp
          · exact Or.inl hm2
        · refine Or.inr ?_
          rw [appendAlt_lookup]
          by_cases ht : t = pk
          · rw [if_pos ht]
            subst ht
            simp only [Option.getD_some]
            exact List.mem_append_left _ hm
          · rw [if_neg ht]
            exact hm

theorem groupPairs_lookup (ps : List (GlyphName × GlyphName))
    (t x : GlyphName) :
    x ∈ (lookupKey (groupPairs ps) t).getD [] ↔ (t, x) ∈ ps := by
  rw [groupPairs, groupPairs_lookup_aux]
  simp [lookupKey]

theorem appendAlt_keys (acc : List (GlyphName × List GlyphName))
    (k v : GlyphName) :
    (appendAlt acc k v).map Prod.fst =
      if k ∈ acc.map Prod.fst then acc.map Prod.fst
      else acc.map Prod.fst ++ [k] := by
  induction acc with
  | nil => simp [appendAlt]
  | cons hd tl ih =>
      obtain ⟨k1, l1⟩ := hd
      by_cases hk1 : k1 = k
      · subst hk1
        simp [appendAlt]
      · have hrw : appendAlt ((k1, l1) :: tl) k v =
            (k1, l1) :: appendAlt tl k v := by
          simp [appendAlt, hk1]
        rw [hrw]
        by_cases hm : k ∈ tl.map Prod.fst
        · simp [ih, hm, Ne.symm hk1]
        · simp [ih, hm, Ne.symm hk1]

theorem appendAlt_values_ne_nil (acc : List (GlyphName × List GlyphName))
    (k v : GlyphName) (hacc : ∀ q ∈ acc, q.2 ≠ [])
    (q : GlyphName × List GlyphName) (hq : q ∈ appendAlt acc k v) :
    q.2 ≠ [] := by
  induction acc with
  | nil =>
      simp only [appendAlt, List.mem_singleton] at hq
      subst hq
      simp
  | cons hd tl ih =>
      obtain ⟨k1, l1⟩ := hd
      by_cases hk1 : k1 = k
      · subst hk1
        have hrw : appendAlt ((k1, l1) :: tl) k1 v = (k1, l1 ++ [v]) :: tl := by
          simp [appendAlt]
        rw [hrw] at hq
        rcases List.mem_cons.mp hq with rfl | hq2
        · simp
        · exact hacc q (List.mem_cons_of_mem _ hq2)
      · have hrw : appendAlt ((k1, l1) :: tl) k v =
            (k1, l1) :: appendAlt tl k v := by
          simp [appendAlt, hk1]
        rw [hrw] at hq
        rcases List.mem_cons.mp hq with rfl | hq2
        · exact hacc (k1, l1) (List.mem_cons_self _ _)
        · exact ih (fun q2 hq2b => hacc q2 (List.mem_cons_of_mem _ hq2b)) hq2

theorem groupPairs_keys_nodup_aux (ps : List (GlyphName × GlyphName)) :
    ∀ acc : List (GlyphName × List GlyphName),
      (acc.map Prod.fst).Nodup →
      ((ps.foldl (fun a p => appendAlt a p.1 p.2) acc).map Prod.fst).Nodup := by
  induction ps with
  | nil => intro acc h; exact h
  | cons p rest ih =>
      intro acc h
      rw [List.foldl_cons]
      refine ih _ ?_
      rw [appendAlt_keys]
      by_cases hm : p.1 ∈ acc.map Prod.fst
      · rw [if_pos hm]; exact h
      · rw [if_neg hm]
        simp [List.nodup_append, h, hm]

theorem groupPairs_keys_nodup (ps : List (GlyphName × GlyphName)) :
    ((groupPairs ps).map Prod.fst).Nodup :=
  groupPairs_keys_nodup_aux ps [] (by simp)

theorem groupPairs_values_ne_nil_aux (ps : List (GlyphName × GlyphName)) :
    ∀ acc : List (GlyphName × List GlyphName),
      (∀ q ∈ acc, q.2 ≠ []) →
      ∀ q ∈ ps.foldl (fun a p => appendAlt a p.1 p.2) acc, q.2 ≠ [] := by
  induction ps with
  | nil => intro acc h; exact h
  | cons p rest ih =>
      intro acc h
      rw [List.foldl_cons]
      exact ih _ (fun q hq => appendAlt_values_ne_nil acc p.1 p.2 h q hq)

theorem groupPairs_values_ne_nil (ps : List (GlyphName × GlyphName)) :
    ∀ q ∈ groupPairs ps, q.2 ≠ [] :=
  groupPairs_values_ne_nil_aux ps [] (by simp)

theorem altScanUpdate_spec (tag : String) (t : GlyphName)
    (reps : List GlyphName) :
    ∀ (st st2 : List AltMapping) (lg : List LogEntry),
      altScanUpdate tag t reps st = some (st2, lg) →
      ∃ ex, findFirstValue st t = some ex ∧
        findFirstValue st2 t = some (merge_alternates ex reps) ∧
        (∀ t2, t2 ≠ t → findFirstValue st2 t2 = findFirstValue st t2) := by
  intro st
  induction st with
  | nil => intro st2 lg h; simp [altScanUpdate] at h
  | cons m rest ih =>
      intro st2 lg h
      rw [altScanUpdate] at h
      cases hl : lookupKey m t with
      | some ex =>
          rw [hl] at h
          injection h with h
          injection h with h1 h2
          subst h1
          refine ⟨ex, ?_, ?_, ?_⟩
          · rw [findFirstValue, hl]
          · rw [findFirstValue, lookupKey_insertKey_self]
          · intro t2 ht2
            rw [findFirstValue, findFirstValue,
              lookupKey_insertKey_other _ _ _ _ (fun hc => ht2 hc.symm)]
      | none =>
          rw [hl] at h
          cases hrec : altScanUpdate tag t reps rest with
          | none => rw [hrec] at h; simp at h
          | some p =>
              rw [hrec] at h
              simp only [Option.map_some'] at h
              injection h with h
              injection h with h1 h2
              subst h1
              obtain ⟨ex, hex1, hex2, hex3⟩ := ih p.1 p.2 hrec
              refine ⟨ex, ?_, ?_, ?_⟩
              · rw [findFirstValue, hl]
                exact hex1
              · rw [findFirstValue, hl]
                exact hex2
              · intro t2 ht2
                rw [findFirstValue, findFirstValue]
                cases hl2 : lookupKey m t2 with
                | some v => rfl
                | none => exact hex3 t2 ht2

theorem altScanUpdate_none (tag : String) (t : GlyphName)
    (reps : List GlyphName) :
    ∀ st : List AltMapping,
      altScanUpdate tag t reps st = none → findFirstValue st t = none := by
  intro st
  induction st with
  | nil => intro _; rfl
  | cons m rest ih =>
      intro h
      rw [altScanUpdate] at h
      cases hl : lookupKey m t with
      | some ex => rw [hl] at h; simp at h
      | none =>
          rw [hl] at h
          rw [findFirstValue, hl]
          cases hrec : altScanUpdate tag t reps rest with
          | some p => rw [hrec] at h; simp at h
          | none => exact ih hrec

theorem alternateTryAddRule_findFirst_self (tag : String)
    (st : List AltMapping) (t : GlyphName) (reps : List GlyphName)
    (hne : reps ≠ []) :
    findFirstValue (alternateTryAddRule tag st t reps).1 t =
      some (match findFirstValue st t with
            | some l0 => merge_alternates l0 reps
            | none => reps) := by
  obtain ⟨r0, rrest, rfl⟩ : ∃ r0 rrest, reps = r0 :: rrest := by
    cases reps with
    | nil => exact absurd rfl hne
    | cons r0 rrest => exact ⟨r0, rrest, rfl⟩
  cases hscan : altScanUpdate tag t (r0 :: rrest) st with
  | some p =>
      obtain ⟨ex, hex1, hex2, hex3⟩ :=
        altScanUpdate_spec tag t (r0 :: rrest) st p.1 p.2 (by rw [hscan])
      simp only [alternateTryAddRule, hscan]
      rw [hex2, hex1]
  | none =>
      have hnone := altScanUpdate_none tag t (r0 :: rrest) st hscan
      simp only [alternateTryAddRule, hscan]
      rw [hnone]
      cases st with
      | nil =>
          rw [findFirstValue, lookupKey_insertKey_self]
      | cons m0 rest0 =>
          rw [findFirstValue, lookupKey_insertKey_self]

theorem findFirstValue_cons {α : Type} (m : List (GlyphName × α))
    (rest : List (List (GlyphName × α))) (t : GlyphName) :
    findFirstValue (m :: rest) t =
      match lookupKey m t with
      | some v => some v
      | none => findFirstValue rest t := rfl

theorem alternateTryAddRule_findFirst_other (tag : String)
    (st : List AltMapping) (t : GlyphName) (reps : List GlyphName)
    (t2 : GlyphName) (ht2 : t2 ≠ t) :
    findFirstValue (alternateTryAddRule tag st t reps).1 t2 =
      findFirstValue st t2 := by
  cases reps with
  | nil => rfl
  | cons r0 rrest =>
      cases hscan : altScanUpdate tag t (r0 :: rrest) st with
      | some p =>
          obtain ⟨ex, hex1, hex2, hex3⟩ :=
            altScanUpdate_spec tag t (r0 :: rrest) st p.1 p.2 (by rw [hscan])
          simp only [alternateTryAddRule, hscan]
          exact hex3 t2 ht2
      | none =>
          simp only [alternateTryAddRule, hscan]
          cases st with
          | nil =>
              show findFirstValue [insertKey [] t (r0 :: rrest)] t2 =
                findFirstValue [] t2
              rw [findFirstValue_cons,
                lookupKey_insertKey_other _ _ _ _ (fun hc => ht2 hc.symm)]
              rfl
          | cons m0 rest0 =>
              rw [findFirstValue, findFirstValue,
                lookupKey_insertKey_other _ _ _ _ (fun hc => ht2 hc.symm)]

theorem altFold_findFirst (tag : String) :
    ∀ (items : List (GlyphName × List GlyphName)) (st : List AltMapping)
      (t : GlyphName),
      ((items.map Prod.fst).Nodup) →
      (∀ q ∈ items, q.2 ≠ []) →
      findFirstValue (altFold tag st items) t =
        match lookupKey items t with
        | none => findFirstValue st t
        | some reps =>
            some (match findFirstValue st t with
                  | some l0 => merge_alternates l0 reps
                  | none => reps) := by
  intro items
  induction items with
  | nil => intro st t _ _; rfl
  | cons q rest ih =>
      intro st t hnd hne
      obtain ⟨t0, reps0⟩ := q
      rw [List.map_cons] at hnd
      have hnd' := hnd.of_cons
      have ht0 : t0 ∉ rest.map Prod.fst := by
        intro hc; exact (List.nodup_cons.mp hnd).1 hc
      have hne' : ∀ q ∈ rest, q.2 ≠ [] := fun q hq => hne q (List.mem_cons_of_mem _ hq)
      have hreps0 : reps0 ≠ [] := hne (t0, reps0) (List.mem_cons_self _ _)
      rw [altFold, ih _ t hnd' hne']
      by_cases hte : t0 = t
      · subst hte
        have hrest : lookupKey rest t0 = none := by
          apply lookupKey_eq_none_of_not_mem_keys
          exact ht0
        rw [hrest]
        rw [show lookupKey ((t0, reps0) :: rest) t0 = some reps0 by
          rw [lookupKey, if_pos rfl]]
        rw [alternateTryAddRule_findFirst_self tag st t0 reps0 hreps0]
      · rw [show lookupKey ((t0, reps0) :: rest) t = lookupKey rest t by
          rw [lookupKey, if_neg hte]]
        rw [alternateTryAddRule_findFirst_other tag st t0 reps0 t
          (fun hc => hte hc.symm)]

theorem altFold_group_mem (tag : String)
    (ps : List (GlyphName × GlyphName)) (st : List AltMapping)
    (t x : GlyphName) :
    x ∈ (findFirstValue (altFold tag st (groupPairs ps)) t).getD [] ↔
      (x ∈ (findFirstValue st t).getD [] ∨ (t, x) ∈ ps) := by
  rw [altFold_findFirst tag (groupPairs ps) st t (groupPairs_keys_nodup ps)
    (groupPairs_values_ne_nil ps)]
  cases hl : lookupKey (groupPairs ps) t with
  | none =>
      simp only []
      constructor
      · intro hx; exact Or.inl hx
      · intro hx
        cases hx with
        | inl hx => exact hx
        | inr hx =>
            exact absurd ((groupPairs_lookup ps t x).mpr hx)
              (by rw [hl]; simp)
  | some reps =>
      have hmem : x ∈ reps ↔ (t, x) ∈ ps := by
        rw [← groupPairs_lookup ps t x, hl]
        rfl
      cases hf : findFirstValue st t with
      | some l0 =>
          simp only [Option.getD_some]
          rw [mem_merge_alternates, hmem]
      | none =>
          simp only [Option.getD_some, Option.getD_none,
            List.not_mem_nil, false_or]
          exact hmem

theorem altFold_group_ext (tag : String)
    (ps : List (GlyphName × GlyphName)) (st : List AltMapping)
    (t : GlyphName) (l0 : List GlyphName)
    (h : findFirstValue st t = some l0) :
    ∃ tl, findFirstValue (altFold tag st (groupPairs ps)) t =
      some (l0 ++ tl) := by
  rw [altFold_findFirst tag (groupPairs ps) st t (groupPairs_keys_nodup ps)
    (groupPairs_values_ne_nil ps)]
  cases hl : lookupKey (groupPairs ps) t with
  | none => exact ⟨[], by rw [h, List.append_nil]⟩
  | some reps =>
      refine ⟨(dedupFirst reps).filter (fun e => e ∉ l0), ?_⟩
      rw [h]
      rfl


/-- The font a run without queued substitution rules saves. -/
def outFont (f : Font) (cm : FontCMap) (r : Request) : Font :=
  { sub4 := (noRulesHandler f cm r).cmap.sub4,
    sub12 := some (noRulesHandler f cm r).cmap.subt,
    sub14 :=
      match (noRulesHandler f cm r).vscmap with
      | some v => some v.uvsDict
      | none => f.sub14,
    glyphOrder := (noRulesHandler f cm r).glyphOrder,
    gsub := f.gsub }

theorem cmapLookup12_outFont (f : Font) (cm : FontCMap) (r : Request)
    (cp : Nat) :
    cmapLookup12 (outFont f cm r) cp =
      lookupKey (noRulesHandler f cm r).cmap.subt cp := rfl

theorem cmapLookup4_outFont (f : Font) (cm : FontCMap) (r : Request)
    (cp : Nat) :
    cmapLookup4 (outFont f cm r) cp = sub4L (noRulesHandler f cm r) cp := rfl

theorem outFont_getD (f : Font) (cm : FontCMap) (r : Request) :
    (outFont f cm r).sub14.getD [] =
      effUVS f.sub14 (noRulesHandler f cm r) :=
  out14_getD f.sub14 (noRulesHandler f cm r)

theorem outFont_out14_lookup (f : Font) (cm : FontCMap) (r : Request)
    (hnd14 : ((f.sub14.getD []).map Prod.fst).Nodup) (b s : Nat) :
    (FontVSCmap.init (outFont f cm r).sub14).lookup_glyphname b s =
      vsObserved f.sub14 (noRulesHandler f cm r) b s :=
  noRulesHandler_out14_lookup f cm r hnd14 b s

/-- **C8** (amended).  Per-item order commutativity holds at the level of
the mappings and sets the tables denote, not of identical table graphs.
Run level: for two runs on the same font whose requested codepoints and
variation sequences are permutations of each other (no duplicate
(base, selector) keys, no duplicate pre-existing format-14 selectors) and
which queue no substitution rules, the saved full-repertoire and BMP cmap
subtables agree as mappings, the saved format-14 subtable denotes the
same (base, selector) → glyph mapping and the same set of entries, both
runs extend every pre-existing per-selector list in place (new entries
appended after the old ones), and the GSUB table is returned untouched.
Rule level: for two permutations of one tag's resolved
`(input, alternate)` pair list, grouping (main.py:653-658) followed by
the repeated alternate-substitution `try_add_rule` (gsub.py:120-149)
yields, for every target, alternate lists with exactly the same members
— and every pre-existing alternate list survives as a prefix.  Only the
relative order of newly appended alternates (and of log messages)
follows the request order, as the counterexample forces. -/
theorem c8_order_commutativity_amended :
    (∀ (f : Font) (r1 r2 : Request) (f1 f2 : Font)
       (log1 log2 : List LogEntry),
       r1.chars.Perm r2.chars → r1.vs.Perm r2.vs →
       (r1.vs.map Prod.fst).Nodup →
       ((f.sub14.getD []).map Prod.fst).Nodup →
       r1.gsubRules = [] → r2.gsubRules = [] →
       runEngine f r1 = .ok (f1, log1) →
       runEngine f r2 = .ok (f2, log2) →
       (∀ cp, cmapLookup12 f1 cp = cmapLookup12 f2 cp) ∧
       (∀ cp, cmapLookup4 f1 cp = cmapLookup4 f2 cp) ∧
       (∀ b s, (FontVSCmap.init f1.sub14).lookup_glyphname b s =
               (FontVSCmap.init f2.sub14).lookup_glyphname b s) ∧
       (∀ x, x ∈ flattenUVS (f1.sub14.getD []) ↔
             x ∈ flattenUVS (f2.sub14.getD [])) ∧
       (∀ sel l0, lookupKey (f.sub14.getD []) sel = some l0 →
         (∃ t, lookupKey (f1.sub14.getD []) sel = some (l0 ++ t)) ∧
         (∃ t, lookupKey (f2.sub14.getD []) sel = some (l0 ++ t))) ∧
       f1.gsub = f.gsub ∧ f2.gsub = f.gsub) ∧
    (∀ (tag : String) (st : List AltMapping)
       (ps1 ps2 : List (GlyphName × GlyphName)),
       ps1.Perm ps2 →
       (∀ t x,
         x ∈ (findFirstValue (altFold tag st (groupPairs ps1)) t).getD [] ↔
         x ∈ (findFirstValue (altFold tag st (groupPairs ps2)) t).getD []) ∧
       (∀ t l0, findFirstValue st t = some l0 →
         (∃ tl, findFirstValue (altFold tag st (groupPairs ps1)) t =
           some (l0 ++ tl)) ∧
         (∃ tl, findFirstValue (altFold tag st (groupPairs ps2)) t =
           some (l0 ++ tl)))) := by
  constructor
  · intro f r1 r2 f1 f2 log1 log2 hpc hpv hnd hnd14 hg1 hg2 he1 he2
    cases hcm : FontCMap.init f.sub4 f.sub12 with
    | error e =>
        exfalso
        rw [runEngine] at he1
        simp [hcm, Bind.bind, Except.bind] at he1
    | ok cm =>
        rw [runEngine_noRules f r1 cm hcm hg1] at he1
        rw [runEngine_noRules f r2 cm hcm hg2] at he2
        injection he1 with he1
        injection he1 with hf1 hl1
        injection he2 with he2
        injection he2 with hf2 hl2
        have hf1o : outFont f cm r1 = f1 := hf1
        have hf2o : outFont f cm r2 = f2 := hf2
        subst hf1o
        subst hf2o
        have hag := noRulesHandlers_agree f cm r1 r2 hpc hpv hnd
        refine ⟨?_, ?_, ?_, ?_, ?_, rfl, rfl⟩
        · intro cp
          rw [cmapLookup12_outFont, cmapLookup12_outFont]
          exact hag.1 cp
        · intro cp
          rw [cmapLookup4_outFont, cmapLookup4_outFont]
          exact hag.2.1 cp
        · intro b s
          rw [outFont_out14_lookup f cm r1 hnd14 b s,
            outFont_out14_lookup f cm r2 hnd14 b s]
          exact hag.2.2.1 b s
        · intro x
          rw [outFont_getD, outFont_getD]
          exact hag.2.2.2 x
        · intro sel l0 hl
          rw [outFont_getD, outFont_getD]
          exact ⟨noRulesHandler_extension f cm r1 sel l0 hl,
            noRulesHandler_extension f cm r2 sel l0 hl⟩
  · intro tag st ps1 ps2 hperm
    constructor
    · intro t x
      rw [altFold_group_mem, altFold_group_mem]
      exact or_congr Iff.rfl hperm.mem_iff
    · intro t l0 hl
      exact ⟨altFold_group_ext tag ps1 st t l0 hl,
        altFold_group_ext tag ps2 st t l0 hl⟩

def c8WFont : Font :=
  { sub4 := some [(66, "B")], sub12 := some [(66, "B")],
    sub14 := some [(0xFE01, [(64, some "A0")])],
    glyphOrder := ["B", "A0"],
    gsub := { scriptRecord := [], featureRecord := [], lookups := [],
              featureVariationsFeatures := none } }

def c8WReq1 : Request :=
  { chars := [65, 67], vs := [((64, 0xFE01), false), ((68, 0xFE02), true)],
    gsubRules := [], languageSystems := [] }

def c8WReq2 : Request :=
  { chars := [67, 65], vs := [((68, 0xFE02), true), ((64, 0xFE01), false)],
    gsubRules := [], languageSystems := [] }

def c8WOut1 : Font :=
  { sub4 := some [(66, "B"), (65, "uni0041"), (67, "uni0043"),
      (68, "uni0044")],
    sub12 := some [(66, "B"), (65, "uni0041"), (67, "uni0043"),
      (68, "uni0044")],
    sub14 := some [(65025, [(64, some "A0")]),
      (65026, [(68, some "uni0044")])],
    glyphOrder := ["B", "A0", "uni0041", "uni0043", "uni0044"],
    gsub := { scriptRecord := [], featureRecord := [], lookups := [],
              featureVariationsFeatures := none } }

def c8WOut2 : Font :=
  { sub4 := some [(66, "B"), (67, "uni0043"), (65, "uni0041"),
      (68, "uni0044")],
    sub12 := some [(66, "B"), (67, "uni0043"), (65, "uni0041"),
      (68, "uni0044")],
    sub14 := some [(65025, [(64, some "A0")]),
      (65026, [(68, some "uni0044")])],
    glyphOrder := ["B", "A0", "uni0043", "uni0041", "uni0044"],
    gsub := { scriptRecord := [], featureRecord := [], lookups := [],
              featureVariationsFeatures := none } }

def c8WLog1 : List LogEntry :=
  [.addedGlyph "U+0041", .addedGlyph "U+0043", .alreadyVS 64 65025,
   .addedGlyph "U+0044 (base of U+0044 U+FE02)", .addedVSDefault 68 65026]

def c8WLog2 : List LogEntry :=
  [.addedGlyph "U+0043", .addedGlyph "U+0041",
   .addedGlyph "U+0044 (base of U+0044 U+FE02)", .addedVSDefault 68 65026,
   .alreadyVS 64 65025]

theorem c8_order_commutativity_amended_witness :
    ((∀ cp, cmapLookup12 c8WOut1 cp = cmapLookup12 c8WOut2 cp) ∧
     (∀ cp, cmapLookup4 c8WOut1 cp = cmapLookup4 c8WOut2 cp) ∧
     (∀ b s, (FontVSCmap.init c8WOut1.sub14).lookup_glyphname b s =
             (FontVSCmap.init c8WOut2.sub14).lookup_glyphname b s) ∧
     (∀ x, x ∈ flattenUVS (c8WOut1.sub14.getD []) ↔
           x ∈ flattenUVS (c8WOut2.sub14.getD [])) ∧
     (∀ sel l0, lookupKey (c8WFont.sub14.getD []) sel = some l0 →
       (∃ t, lookupKey (c8WOut1.sub14.getD []) sel = some (l0 ++ t)) ∧
       (∃ t, lookupKey (c8WOut2.sub14.getD []) sel = some (l0 ++ t))) ∧
     c8WOut1.gsub = c8WFont.gsub ∧ c8WOut2.gsub = c8WFont.gsub) ∧
    ((∀ t x,
       x ∈ (findFirstValue (altFold "aalt" [[("A", ["X"])]]
         (groupPairs [("A", "Y"), ("B", "Z")])) t).getD [] ↔
       x ∈ (findFirstValue (altFold "aalt" [[("A", ["X"])]]
         (groupPairs [("B", "Z"), ("A", "Y")])) t).getD []) ∧
     (∀ t l0, findFirstValue [[("A", ["X"])]] t = some l0 →
       (∃ tl, findFirstValue (altFold "aalt" [[("A", ["X"])]]
         (groupPairs [("A", "Y"), ("B", "Z")])) t = some (l0 ++ tl)) ∧
       (∃ tl, findFirstValue (altFold "aalt" [[("A", ["X"])]]
         (groupPairs [("B", "Z"), ("A", "Y")])) t = some (l0 ++ tl)))) :=
  ⟨c8_order_commutativity_amended.1 c8WFont c8WReq1 c8WReq2 c8WOut1 c8WOut2
     c8WLog1 c8WLog2 (by decide) (by decide) (by decide) (by decide) rfl rfl
     (by rfl) (by rfl),
   c8_order_commutativity_amended.2 "aalt" [[("A", ["X"])]]
     [("A", "Y"), ("B", "Z")] [("B", "Z"), ("A", "Y")] (by decide)⟩
